import Mathlib

/-!
# Transfer queue manager (condor_schedd.V6/transfer_queue.cpp)

A shallow embedding of `TransferQueueManager` and `TransferQueueRequest`.

Conventions of the embedding.

* The live set `m_xfer_queue` is a list of request objects in queue order.  A
  pointer into the list (`best_client`) is the position of the element.
* `m_queue_users` (a `std::map`) is an association list; `GetUserRec` inserts a
  default record when the key is absent, as the source does.
* `recency` and `m_round_robin_counter` are `unsigned int`: naturals with every
  increment reduced modulo `2 ^ 32`.  The selection scan copies a recency into
  an `int`; that conversion is `toInt32`.
* `running`, `idle`, `uploading`, `downloading` count live requests, each of
  which owns an open socket; they stay far below `2 ^ 31` and are unbounded
  numbers here.  The one decrement of the unsigned `idle` wraps at zero.
* `time(NULL)` is the argument `now`; one scheduling pass reads one clock value.
  Times and ages are integers; the narrowing of a time difference to `int` is
  exact for differences below `2 ^ 31` seconds and is not modelled.
* The outcome of each `SendGoAhead` (whether the message could be written to
  the socket) is supplied by a stream `sendOk : Nat → Bool`, consumed in call
  order.
* The statistics series of `IOStats` are kept as their running totals, exact
  rationals standing for the `double` values.
-/

namespace TransferQueue

/-- Six running totals of an `IOStats` record. -/
structure IOStats where
  bytes_sent : ℚ := 0
  bytes_received : ℚ := 0
  file_read : ℚ := 0
  file_write : ℚ := 0
  net_read : ℚ := 0
  net_write : ℚ := 0
deriving DecidableEq

/-- Body of `IOStats::Add`. -/
def IOStats.Add (a s : IOStats) : IOStats :=
  { bytes_sent := a.bytes_sent + s.bytes_sent
    bytes_received := a.bytes_received + s.bytes_received
    file_read := a.file_read + s.file_read
    file_write := a.file_write + s.file_write
    net_read := a.net_read + s.net_read
    net_write := a.net_write + s.net_write }

/-- One client request, the members of `TransferQueueRequest`.  `m_sock` names
the connection the request owns. -/
structure TransferQueueRequest where
  m_sock : Nat
  m_queue_user : String
  m_jobid : String
  m_fname : String
  m_downloading : Bool
  m_max_queue_age : Int
  m_gave_go_ahead : Bool
  m_time_born : Int
  m_time_go_ahead : Int
  m_up_down_queue_user : String
deriving DecidableEq

/-- Constructor `TransferQueueRequest::TransferQueueRequest`, run at time `now`. -/
def TransferQueueRequest.ctor (sock : Nat) (fname jobid queue_user : String)
    (downloading : Bool) (max_queue_age : Int) (now : Int) : TransferQueueRequest :=
  { m_sock := sock
    m_queue_user := queue_user
    m_jobid := jobid
    m_fname := fname
    m_downloading := downloading
    m_max_queue_age := max_queue_age
    m_gave_go_ahead := false
    m_time_born := now
    m_time_go_ahead := 0
    m_up_down_queue_user := (if downloading then "D" else "U") ++ queue_user }

/-- Method `TransferQueueRequest::SendGoAhead`: `ok` tells whether `putClassAd`
and `end_of_message` succeeded.  Returns the request afterwards and the result. -/
def TransferQueueRequest.SendGoAhead (c : TransferQueueRequest) (ok : Bool) (now : Int) :
    TransferQueueRequest × Bool :=
  if ok then ({ c with m_gave_go_ahead := true, m_time_go_ahead := now }, true)
  else (c, false)

/-- Record `TransferQueueManager::TransferQueueUser`. -/
structure TransferQueueUser where
  running : Nat := 0
  idle : Nat := 0
  recency : Nat := 0
  iostats : IOStats := {}
deriving DecidableEq

/-- The map `QueueUserMap` from up/down user name to its record. -/
abbrev QueueUserMap := List (String × TransferQueueUser)

/-- Members of `TransferQueueManager`. -/
structure TransferQueueManager where
  m_xfer_queue : List TransferQueueRequest
  m_queue_users : QueueUserMap
  m_max_uploads : Int
  m_max_downloads : Int
  m_default_max_queue_age : Int
  m_check_queue_timer : Int
  m_uploading : Int
  m_downloading : Int
  m_waiting_to_upload : Int
  m_waiting_to_download : Int
  m_upload_wait_time : Int
  m_download_wait_time : Int
  m_round_robin_counter : Nat
  m_round_robin_garbage_counter : Nat
  m_round_robin_garbage_time : Int
  m_iostats : IOStats
deriving DecidableEq

/-- Constructor `TransferQueueManager::TransferQueueManager`, run at time `now`. -/
def TransferQueueManager.ctor (now : Int) : TransferQueueManager :=
  { m_xfer_queue := []
    m_queue_users := []
    m_max_uploads := 0
    m_max_downloads := 0
    m_default_max_queue_age := 0
    m_check_queue_timer := -1
    m_uploading := 0
    m_downloading := 0
    m_waiting_to_upload := 0
    m_waiting_to_download := 0
    m_upload_wait_time := 0
    m_download_wait_time := 0
    m_round_robin_counter := 0
    m_round_robin_garbage_counter := 0
    m_round_robin_garbage_time := now
    m_iostats := {} }

/-- The three scheduling parameters read by `InitAndReconfig`
(`MAX_CONCURRENT_DOWNLOADS`, `MAX_CONCURRENT_UPLOADS`, `MAX_TRANSFER_QUEUE_AGE`). -/
def InitAndReconfig (m : TransferQueueManager) (max_downloads max_uploads max_queue_age : Int) :
    TransferQueueManager :=
  { m with m_max_downloads := max_downloads
           m_max_uploads := max_uploads
           m_default_max_queue_age := max_queue_age }

/-- Conversion of an `unsigned int` to `int` (two's complement). -/
def toInt32 (n : Nat) : Int :=
  if n % 4294967296 < 2147483648 then (n % 4294967296 : Nat) else ((n % 4294967296 : Nat) : Int) - 4294967296

/-- Function `TransferQueueManager::GetUserRec`: the map afterwards and the record found. -/
def GetUserRec (users : QueueUserMap) (user : String) : QueueUserMap × TransferQueueUser :=
  match users.lookup user with
  | some u => (users, u)
  | none => (users ++ [(user, {})], {})

/-- Assignment through the reference returned by `GetUserRec(user)`. -/
def updateUserRec (users : QueueUserMap) (user : String)
    (f : TransferQueueUser → TransferQueueUser) : QueueUserMap :=
  (GetUserRec users user).1.map (fun p => if p.1 = user then (p.1, f p.2) else p)

/-- Value read through `GetUserRec(user)`. -/
def userRec (users : QueueUserMap) (user : String) : TransferQueueUser :=
  (GetUserRec users user).2

/-- Timer id handed out by `daemonCore->Register_Timer`; only its difference
from `-1` is observed. -/
def Register_Timer : Int := 0

/-- Function `TransferQueueManager::TransferQueueChanged`. -/
def TransferQueueChanged (m : TransferQueueManager) : TransferQueueManager :=
  if m.m_check_queue_timer ≠ -1 then m
  else { m with m_check_queue_timer := Register_Timer }

/-- Function `TransferQueueManager::ClearRoundRobinRecency`. -/
def ClearRoundRobinRecency (m : TransferQueueManager) : TransferQueueManager :=
  { m with m_queue_users := m.m_queue_users.map (fun p => (p.1, { p.2 with recency := 0 })) }

/-- Function `TransferQueueManager::SetRoundRobinRecency`. -/
def SetRoundRobinRecency (m : TransferQueueManager) (user : String) : TransferQueueManager :=
  let old_counter := m.m_round_robin_counter
  let counter := (m.m_round_robin_counter + 1) % 4294967296
  let users1 := updateUserRec m.m_queue_users user (fun u => { u with recency := counter })
  let m1 := { m with m_round_robin_counter := counter, m_queue_users := users1 }
  if counter < old_counter then ClearRoundRobinRecency m1 else m1

/-- Function `TransferQueueManager::ClearTransferCounts`. -/
def ClearTransferCounts (m : TransferQueueManager) : TransferQueueManager :=
  { m with m_waiting_to_upload := 0
           m_waiting_to_download := 0
           m_upload_wait_time := 0
           m_download_wait_time := 0
           m_queue_users := m.m_queue_users.map (fun p => (p.1, { p.2 with running := 0, idle := 0 })) }

/-- The counting scan at the head of `CheckTransferQueue` (source lines 590-604):
the map, `uploading` and `downloading` after visiting the clients in order. -/
def countTransfers : List TransferQueueRequest → QueueUserMap → Int → Int →
    QueueUserMap × Int × Int
  | [], users, uploading, downloading => (users, uploading, downloading)
  | client :: rest, users, uploading, downloading =>
    if client.m_gave_go_ahead then
      let users1 := updateUserRec users client.m_up_down_queue_user
        (fun u => { u with running := u.running + 1 })
      if client.m_downloading then countTransfers rest users1 uploading (downloading + 1)
      else countTransfers rest users1 (uploading + 1) downloading
    else
      countTransfers rest
        (updateUserRec users client.m_up_down_queue_user (fun u => { u with idle := u.idle + 1 }))
        uploading downloading

/-- The capacity test applied to a client in the selection scan (source lines 620-623). -/
def hasFreeSlot (m : TransferQueueManager) (uploading downloading : Int)
    (client : TransferQueueRequest) : Prop :=
  (client.m_downloading = true ∧ (downloading < m.m_max_downloads ∨ m.m_max_downloads ≤ 0)) ∨
  (client.m_downloading = false ∧ (uploading < m.m_max_uploads ∨ m.m_max_uploads ≤ 0))

instance (m : TransferQueueManager) (uploading downloading : Int) (client : TransferQueueRequest) :
    Decidable (hasFreeSlot m uploading downloading client) := by
  unfold hasFreeSlot; infer_instance

/-- Locals `best_client`, `best_running_count`, `best_recency` of the selection
scan once `best_client` is non-null; `pos` is where `best_client` points. -/
structure BestClient where
  pos : Nat
  client : TransferQueueRequest
  best_running_count : Nat
  best_recency : Int
deriving DecidableEq

/-- Value of `this_client_is_better` (source lines 629-647); `none` is a null `best_client`. -/
def thisClientIsBetter (best : Option BestClient) (client : TransferQueueRequest)
    (this_user_active_count : Nat) (this_user_recency : Int) : Bool :=
  match best with
  | none => true
  | some b =>
    if b.client.m_downloading ≠ client.m_downloading then client.m_downloading
    else if b.best_running_count > this_user_active_count then true
    else if b.best_recency > this_user_recency then true
    else false

/-- The selection scan (source lines 615-655) over the clients from position `pos` on. -/
def selectBest (m : TransferQueueManager) (uploading downloading : Int) :
    List TransferQueueRequest → Nat → QueueUserMap → Option BestClient →
    QueueUserMap × Option BestClient
  | [], _, users, best => (users, best)
  | client :: rest, pos, users, best =>
    if client.m_gave_go_ahead then selectBest m uploading downloading rest (pos + 1) users best
    else if hasFreeSlot m uploading downloading client then
      let r := GetUserRec users client.m_up_down_queue_user
      let this_user_active_count := r.2.running
      let this_user_recency := toInt32 r.2.recency
      if thisClientIsBetter best client this_user_active_count this_user_recency then
        selectBest m uploading downloading rest (pos + 1) r.1
          (some { pos := pos, client := client
                  best_running_count := this_user_active_count
                  best_recency := this_user_recency })
      else selectBest m uploading downloading rest (pos + 1) r.1 best
    else selectBest m uploading downloading rest (pos + 1) users best

/-- State carried round the granting loop: the manager and the locals
`uploading`, `downloading`. -/
structure PassState where
  m : TransferQueueManager
  uploading : Int
  downloading : Int
deriving DecidableEq

/-- The part of one granting-loop iteration after a client was selected
(source lines 662-688); `ok` is the outcome of its `SendGoAhead`. -/
def grantSelected (now : Int) (ok : Bool) (s : PassState) (b : BestClient) : PassState :=
  let sent := b.client.SendGoAhead ok now
  if sent.2 = false then
    { s with m := TransferQueueChanged
               ({ s.m with m_xfer_queue := s.m.m_xfer_queue.eraseIdx b.pos }) }
  else
    let m1 := SetRoundRobinRecency
      { s.m with m_xfer_queue := s.m.m_xfer_queue.set b.pos sent.1 }
      b.client.m_up_down_queue_user
    let users2 := updateUserRec m1.m_queue_users b.client.m_up_down_queue_user
      (fun u => { u with running := u.running + 1
                         idle := if u.idle = 0 then 4294967295 else u.idle - 1 })
    let m2 := { m1 with m_queue_users := users2 }
    if b.client.m_downloading then { s with m := m2, downloading := s.downloading + 1 }
    else { s with m := m2, uploading := s.uploading + 1 }

/-- One iteration of the granting loop body (source lines 611-688).  The second
component is the socket `SendGoAhead` was called on, `none` when no client was
selected and the loop is left by `break`. -/
def grantIteration (now : Int) (ok : Bool) (s : PassState) : PassState × Option Nat :=
  match selectBest s.m s.uploading s.downloading s.m.m_xfer_queue 0 s.m.m_queue_users none with
  | (users, none) => ({ s with m := { s.m with m_queue_users := users } }, none)
  | (users, some b) =>
    (grantSelected now ok { s with m := { s.m with m_queue_users := users } } b,
     some b.client.m_sock)

/-- Condition of the granting loop (source lines 608-609). -/
def grantLoopCond (s : PassState) : Prop :=
  s.uploading < s.m.m_max_uploads ∨ s.m.m_max_uploads ≤ 0 ∨
  s.downloading < s.m.m_max_downloads ∨ s.m.m_max_downloads ≤ 0

instance (s : PassState) : Decidable (grantLoopCond s) := by
  unfold grantLoopCond; infer_instance

/-- The granting loop (source lines 608-689), run for at most `fuel` iterations;
`none` when the fuel runs out before the loop is left.  The list is the
sockets `SendGoAhead` was called on, in order. -/
def grantLoop (now : Int) : Nat → (Nat → Bool) → PassState → Option (PassState × List Nat)
  | 0, _, _ => none
  | fuel + 1, sendOk, s =>
    if grantLoopCond s then
      match grantIteration now (sendOk 0) s with
      | (s1, none) => some (s1, [])
      | (s1, some sock) =>
        (grantLoop now fuel (fun n => sendOk (n + 1)) s1).map (fun r => (r.1, sock :: r.2))
    else some (s, [])

/-- Locals and members updated by the scan of the requests still waiting
(source lines 694-731). -/
structure WaitScan where
  m : TransferQueueManager
  clients_waiting : Bool
deriving DecidableEq

/-- The scan of the requests still waiting (source lines 694-731): the clients
kept, in order, and the members and `clients_waiting` afterwards. -/
def examineWaiting (now uploading downloading : Int) :
    List TransferQueueRequest → WaitScan → List TransferQueueRequest × WaitScan
  | [], w => ([], w)
  | client :: rest, w =>
    if client.m_gave_go_ahead = false ∧
        ((client.m_downloading = true ∧ downloading = 0) ∨
         (client.m_downloading = false ∧ uploading = 0)) then
      examineWaiting now uploading downloading rest { w with m := TransferQueueChanged w.m }
    else if client.m_gave_go_ahead = false then
      let age := now - client.m_time_born
      let m1 :=
        if client.m_downloading then
          { w.m with m_waiting_to_download := w.m.m_waiting_to_download + 1
                     m_download_wait_time :=
                       if age > w.m.m_download_wait_time then age else w.m.m_download_wait_time }
        else
          { w.m with m_waiting_to_upload := w.m.m_waiting_to_upload + 1
                     m_upload_wait_time :=
                       if age > w.m.m_upload_wait_time then age else w.m.m_upload_wait_time }
      let r := examineWaiting now uploading downloading rest { m := m1, clients_waiting := true }
      (client :: r.1, r.2)
    else
      let r := examineWaiting now uploading downloading rest w
      (client :: r.1, r.2)

/-- Test of the scan for ancient clients (source lines 741-744). -/
def isAncient (now : Int) (client : TransferQueueRequest) : Prop :=
  client.m_gave_go_ahead = true ∧
    0 < client.m_max_queue_age ∧ client.m_max_queue_age < now - client.m_time_go_ahead

instance (now : Int) (client : TransferQueueRequest) : Decidable (isAncient now client) := by
  unfold isAncient; infer_instance

/-- The scan for ancient clients (source lines 739-802): the queue afterwards
and whether a client was removed. -/
def evictAncient (now : Int) : List TransferQueueRequest → List TransferQueueRequest × Bool
  | [] => ([], false)
  | client :: rest =>
    if isAncient now client then (rest, true)
    else ((client :: (evictAncient now rest).1), (evictAncient now rest).2)

/-- The part of `CheckTransferQueue` before the granting loop (source lines 586-604). -/
def startPass (m : TransferQueueManager) : PassState :=
  let m0 := ClearTransferCounts { m with m_check_queue_timer := -1 }
  let c := countTransfers m0.m_xfer_queue m0.m_queue_users 0 0
  { m := { m0 with m_queue_users := c.1 }, uploading := c.2.1, downloading := c.2.2 }

/-- The part of `CheckTransferQueue` after the granting loop (source lines 692-803). -/
def finishPass (now : Int) (s : PassState) : TransferQueueManager :=
  let r := examineWaiting now s.uploading s.downloading s.m.m_xfer_queue
    { m := s.m, clients_waiting := false }
  let m1 := { r.2.m with m_xfer_queue := r.1
                         m_uploading := s.uploading
                         m_downloading := s.downloading }
  if r.2.clients_waiting then
    let e := evictAncient now m1.m_xfer_queue
    if e.2 then TransferQueueChanged { m1 with m_xfer_queue := e.1 } else m1
  else m1

/-- The state after the granting loop of a pass started at `m`. -/
def grantPhase (m : TransferQueueManager) (now : Int) (sendOk : Nat → Bool) :
    Option (PassState × List Nat) :=
  grantLoop now ((startPass m).m.m_xfer_queue.length + 1) sendOk (startPass m)

/-- Function `TransferQueueManager::CheckTransferQueue` run at time `now`: the
manager afterwards and the sockets `SendGoAhead` was called on. -/
def CheckTransferQueue (m : TransferQueueManager) (now : Int) (sendOk : Nat → Bool) :
    Option (TransferQueueManager × List Nat) :=
  (grantPhase m now sendOk).map (fun r => (finishPass now r.1, r.2))

/-- Function `TransferQueueManager::AddRecentIOStats`. -/
def AddRecentIOStats (m : TransferQueueManager) (s : IOStats) (up_down_queue_user : String) :
    TransferQueueManager :=
  let users1 := updateUserRec m.m_queue_users up_down_queue_user
    (fun u => { u with iostats := u.iostats.Add s })
  { m with m_iostats := m.m_iostats.Add s, m_queue_users := users1 }

/-- Function `TransferQueueManager::AddRequest`.  `overloaded` is the answer of
`daemonCore->TooManyRegisteredSockets`, `rc` the result of `Register_Socket`.
Returns the manager, the result, and the sockets `SendGoAhead` was called on. -/
def AddRequest (m : TransferQueueManager) (client : TransferQueueRequest)
    (overloaded : Bool) (rc : Int) : TransferQueueManager × Bool × List Nat :=
  if overloaded then (m, false, [client.m_sock])
  else if rc < 0 then (m, false, [])
  else (TransferQueueChanged { m with m_xfer_queue := m.m_xfer_queue ++ [client] }, true, [])

/-- Function `TransferQueueManager::HandleReport` for socket `sock`.  `report` is
what `ReadReport` parsed, `none` when it failed.  The result is `none` when
the function ends in `EXCEPT`. -/
def HandleReport (m : TransferQueueManager) (sock : Nat) (report : Option IOStats) :
    Option TransferQueueManager :=
  match m.m_xfer_queue.findIdx? (fun c => c.m_sock = sock) with
  | none => none
  | some i =>
    match m.m_xfer_queue.get? i, report with
    | none, _ => none
    | some _, none =>
      some (TransferQueueChanged { m with m_xfer_queue := m.m_xfer_queue.eraseIdx i })
    | some client, some s => some (AddRecentIOStats m s client.m_up_down_queue_user)

/-! ## Quantities used in the statements -/

/-- Number of requests of the live set that hold a grant, for one direction
(`downloading = true` for downloads). -/
def numGranted (downloading : Bool) (q : List TransferQueueRequest) : Nat :=
  q.countP (fun c => c.m_gave_go_ahead && (c.m_downloading == downloading))

/-- Number of requests of the live set that are still waiting for a grant. -/
def numWaiting (q : List TransferQueueRequest) : Nat :=
  q.countP (fun c => !c.m_gave_go_ahead)

/-- The configured ceiling of one direction (`downloading = true` for
`m_max_downloads`, `false` for `m_max_uploads`). -/
def maxTransfers (m : TransferQueueManager) (downloading : Bool) : Int :=
  if downloading then m.m_max_downloads else m.m_max_uploads

/-- Invariant of the granting loop on the locals `uploading` and `downloading`. -/
def countsAgree (s : PassState) : Prop :=
  s.uploading = numGranted false s.m.m_xfer_queue ∧
  s.downloading = numGranted true s.m.m_xfer_queue

/-- States the scheduler can reach from its start under one configuration: the
constructor followed by `InitAndReconfig`, then any sequence of `AddRequest`
(of a freshly constructed request), `HandleReport` and `CheckTransferQueue`. -/
inductive Reachable (max_downloads max_uploads max_queue_age : Int) :
    TransferQueueManager → Prop
  | init (now : Int) :
      Reachable max_downloads max_uploads max_queue_age
        (InitAndReconfig (TransferQueueManager.ctor now) max_downloads max_uploads max_queue_age)
  | addRequest (m : TransferQueueManager) (sock : Nat) (fname jobid queue_user : String)
      (downloading : Bool) (now : Int) (overloaded : Bool) (rc : Int) :
      Reachable max_downloads max_uploads max_queue_age m →
      Reachable max_downloads max_uploads max_queue_age
        (AddRequest m (TransferQueueRequest.ctor sock fname jobid queue_user downloading
          m.m_default_max_queue_age now) overloaded rc).1
  | handleReport (m m1 : TransferQueueManager) (sock : Nat) (report : Option IOStats) :
      Reachable max_downloads max_uploads max_queue_age m →
      HandleReport m sock report = some m1 →
      Reachable max_downloads max_uploads max_queue_age m1
  | checkTransferQueue (m m1 : TransferQueueManager) (now : Int) (sendOk : Nat → Bool)
      (sent : List Nat) :
      Reachable max_downloads max_uploads max_queue_age m →
      CheckTransferQueue m now sendOk = some (m1, sent) →
      Reachable max_downloads max_uploads max_queue_age m1

/-! ## Sample states -/

/-- A request as `HandleRequest` builds it: born at time 100 with the maximum
queue age 7200, then possibly granted at time 100. -/
def sampleRequest (sock : Nat) (queue_user : String) (downloading granted : Bool) :
    TransferQueueRequest :=
  (TransferQueueRequest.ctor sock "input.dat" "1.0" queue_user downloading 7200 100).SendGoAhead
    granted 100 |>.1

/-- A manager configured with the given ceilings and maximum queue age 7200. -/
def sampleManager (max_downloads max_uploads : Int) (q : List TransferQueueRequest)
    (users : QueueUserMap) (counter : Nat) : TransferQueueManager :=
  { InitAndReconfig (TransferQueueManager.ctor 0) max_downloads max_uploads 7200 with
    m_xfer_queue := q, m_queue_users := users, m_round_robin_counter := counter }

/-- Two waiting downloads of alice and bob under download ceiling 1. -/
def twoDownloads : TransferQueueManager :=
  sampleManager 1 10
    [sampleRequest 1 "alice" true false, sampleRequest 2 "bob" true false] [] 0

/-- The start state with both ceilings 10. -/
def fairStart : TransferQueueManager :=
  InitAndReconfig (TransferQueueManager.ctor 0) 10 10 7200

/-- Bob, then alice, asks for a download (connections 1 and 2) at time 100. -/
def fairQueued : TransferQueueManager :=
  (AddRequest
    (AddRequest fairStart
      (TransferQueueRequest.ctor 1 "input.dat" "1.0" "bob" true 7200 100) false 0).1
    (TransferQueueRequest.ctor 2 "input.dat" "2.0" "alice" true 7200 100) false 0).1

/-- The pass at time 110 grants both: bob first (recency 1), then alice (recency 2). -/
def fairGranted : TransferQueueManager :=
  ((CheckTransferQueue fairQueued 110 (fun _ => true)).map Prod.fst).getD fairQueued

/-- Alice's transfer ends: her connection closes and `HandleReport` removes her request. -/
def fairAliceDone : TransferQueueManager :=
  (HandleReport fairGranted 2 none).getD fairGranted

/-- Alice, then bob, asks for another download (connections 3 and 4).  Bob's
first transfer is still running; alice has nothing running and was granted
last.  The live set is `[bob granted, alice waiting, bob waiting]`. -/
def fairnessState : TransferQueueManager :=
  (AddRequest
    (AddRequest fairAliceDone
      (TransferQueueRequest.ctor 3 "input.dat" "3.0" "alice" true 7200 150) false 0).1
    (TransferQueueRequest.ctor 4 "input.dat" "4.0" "bob" true 7200 160) false 0).1

/-- Alice was granted when the counter stood at `2 ^ 31 - 1` and bob at the next
grant, `2 ^ 31`; each has one waiting download and nothing running;
`aliceFirst` gives the queue order. -/
def recencyState (aliceFirst : Bool) : TransferQueueManager :=
  sampleManager 10 10
    (if aliceFirst then [sampleRequest 1 "alice" true false, sampleRequest 2 "bob" true false]
     else [sampleRequest 2 "bob" true false, sampleRequest 1 "alice" true false])
    [("Dalice", { recency := 2147483647 }), ("Dbob", { recency := 2147483648 })] 2147483648

/-- A manager whose round-robin counter stands at its maximum `2 ^ 32 - 1`. -/
def wrapState : TransferQueueManager :=
  sampleManager 1 1
    [sampleRequest 1 "alice" true true, sampleRequest 2 "bob" true false]
    [("Dalice", { recency := 4294967295 }), ("Dcarol", { recency := 17 })] 4294967295

/-- Number of granted requests of the live set that belong to the account `k`. -/
def numRunning (k : String) (q : List TransferQueueRequest) : Nat :=
  q.countP (fun c => c.m_gave_go_ahead && (c.m_up_down_queue_user == k))

/-- Number of waiting requests of the live set that belong to the account `k`. -/
def numIdle (k : String) (q : List TransferQueueRequest) : Nat :=
  q.countP (fun c => !c.m_gave_go_ahead && (c.m_up_down_queue_user == k))

/-- Number of requests of the live set that belong to the account `k`. -/
def numOfUser (k : String) (q : List TransferQueueRequest) : Nat :=
  (q.map (fun c => c.m_up_down_queue_user)).count k

/-- Invariant of the granting loop on the account counters, for a pass started
with live set `q0`. -/
def accountsAgree (q0 : List TransferQueueRequest) (s : PassState) : Prop :=
  (∀ k, (userRec s.m.m_queue_users k).running = numRunning k s.m.m_xfer_queue ∧
    (userRec s.m.m_queue_users k).running + (userRec s.m.m_queue_users k).idle
      = numOfUser k q0) ∧
  (s.m.m_xfer_queue.map (fun c => c.m_up_down_queue_user)).Sublist
    (q0.map (fun c => c.m_up_down_queue_user))

/-- One waiting download of alice under ceilings 1 and 1. -/
def oneDownload : TransferQueueManager :=
  sampleManager 1 1 [sampleRequest 1 "alice" true false] [] 0

/-- Two downloads granted at time 100 fill the download ceiling 2 and a third
download waits. -/
def ancientState : TransferQueueManager :=
  sampleManager 2 2
    [sampleRequest 1 "alice" true true, sampleRequest 2 "bob" true true,
     sampleRequest 3 "carol" true false] [] 2

/-- Runs of the scheduler with their record of admission messages.
`Run m log used` says that `m` is reached from the start state by a sequence of
`AddRequest` (of a freshly constructed request on a connection not seen
before), `HandleReport` and `CheckTransferQueue`; `log` lists, in order, the
connections on which `SendGoAhead` was called, and `used` the connections
handed to `AddRequest` so far. -/
inductive Run : TransferQueueManager → List Nat → List Nat → Prop
  | init (now max_downloads max_uploads max_queue_age : Int) :
      Run (InitAndReconfig (TransferQueueManager.ctor now) max_downloads max_uploads
        max_queue_age) [] []
  | addRequest (m : TransferQueueManager) (log used : List Nat) (sock : Nat)
      (fname jobid queue_user : String) (downloading : Bool) (now : Int) (overloaded : Bool)
      (rc : Int) :
      Run m log used → sock ∉ used →
      Run (AddRequest m (TransferQueueRequest.ctor sock fname jobid queue_user downloading
          m.m_default_max_queue_age now) overloaded rc).1
        (log ++ (AddRequest m (TransferQueueRequest.ctor sock fname jobid queue_user downloading
          m.m_default_max_queue_age now) overloaded rc).2.2)
        (sock :: used)
  | handleReport (m m1 : TransferQueueManager) (log used : List Nat) (sock : Nat)
      (report : Option IOStats) :
      Run m log used → HandleReport m sock report = some m1 → Run m1 log used
  | checkTransferQueue (m m1 : TransferQueueManager) (log used : List Nat) (now : Int)
      (sendOk : Nat → Bool) (sent : List Nat) :
      Run m log used → CheckTransferQueue m now sendOk = some (m1, sent) →
      Run m1 (log ++ sent) used

/-- The start state with both ceilings 1. -/
def startState : TransferQueueManager :=
  InitAndReconfig (TransferQueueManager.ctor 0) 1 1 7200

/-- Modelled from the spec: the result code of the admission-decision message
(`XFER_QUEUE_ENUM`, declared in `dc_transfer_queue.h`), a denial or a go-ahead. -/
inductive XFER_QUEUE_ENUM
  | XFER_QUEUE_NO_GO
  | XFER_QUEUE_GO_AHEAD
deriving DecidableEq

/-- The message `SendGoAhead` writes to the socket: `ATTR_RESULT`,
`ATTR_ERROR_STRING` (absent when no reason is given) and `ATTR_REPORT_INTERVAL`. -/
structure GoAheadMessage where
  result : XFER_QUEUE_ENUM
  error_string : Option String
  report_interval : Int
deriving DecidableEq

/-- The part of `TransferQueueRequest::SendGoAhead` that builds the message
(source lines 76-85); `report_interval` is `TRANSFER_IO_REPORT_INTERVAL`. -/
def TransferQueueRequest.goAheadMessage (go_ahead : XFER_QUEUE_ENUM) (reason : Option String)
    (report_interval : Int) : GoAheadMessage :=
  { result := go_ahead, error_string := reason, report_interval := report_interval }

/-- Function `TransferQueueManager::AddRequest` with the messages it hands to
`SendGoAhead`.  `overloaded` is `some error_desc` when
`daemonCore->TooManyRegisteredSockets` answers true, `rc` the result of
`Register_Socket`.  Returns the manager, the result, and the messages with the
socket each is written to. -/
def AddRequestWithMessages (m : TransferQueueManager) (client : TransferQueueRequest)
    (overloaded : Option String) (rc : Int) (report_interval : Int) :
    TransferQueueManager × Bool × List (Nat × GoAheadMessage) :=
  match overloaded with
  | some error_desc =>
    (m, false, [(client.m_sock, TransferQueueRequest.goAheadMessage
      XFER_QUEUE_ENUM.XFER_QUEUE_NO_GO (some error_desc) report_interval)])
  | none =>
    if rc < 0 then (m, false, [])
    else (TransferQueueChanged { m with m_xfer_queue := m.m_xfer_queue ++ [client] }, true, [])

/-- The values `BiggestEMARate()` returns for the six series of one user
record.  The series class (`stats_entry_sum_ema_rate`) is declared outside the
shown sources, so the rates are an input of the collection; exact rationals
stand for the `double` values. -/
structure EMARates where
  bytes_sent : ℚ := 0
  bytes_received : ℚ := 0
  file_read : ℚ := 0
  file_write : ℚ := 0
  net_read : ℚ := 0
  net_write : ℚ := 0
deriving DecidableEq

/-- Function `TransferQueueManager::TransferQueueUser::Stale`; `rates` are the
`BiggestEMARate()` values of the record's series. -/
def TransferQueueUser.Stale (u : TransferQueueUser) (rates : EMARates) (stale_recency : Nat) :
    Bool :=
  if ¬ (u.recency < stale_recency ∧ u.running = 0 ∧ u.idle = 0) then false
  else if rates.bytes_sent > 100000 ∨ rates.bytes_received > 100000 ∨
      rates.file_read > 0.1 ∨ rates.file_write > 0.1 ∨
      rates.net_read > 0.1 ∨ rates.net_write > 0.1 then false
  else true

/-- Conversion `(int)` of a `time_t` difference (two's complement, 32 bits). -/
def castInt32 (x : Int) : Int :=
  (x + 2147483648) % 4294967296 - 2147483648

/-- The test `abs((int)(now - m_round_robin_garbage_time)) > 3600` of
`CollectUserRecGarbage`. -/
def collectionDue (m : TransferQueueManager) (now : Int) : Prop :=
  (castInt32 (now - m.m_round_robin_garbage_time)).natAbs > 3600

instance (m : TransferQueueManager) (now : Int) : Decidable (collectionDue m now) := by
  unfold collectionDue; infer_instance

/-- Function `TransferQueueManager::CollectUserRecGarbage` run at time `now`;
`BiggestEMARate key` gives the peak rates of the record stored under `key`. -/
def CollectUserRecGarbage (m : TransferQueueManager) (now : Int)
    (BiggestEMARate : String → EMARates) : TransferQueueManager :=
  if collectionDue m now then
    { m with
      m_queue_users := m.m_queue_users.filter
        (fun p => !(p.2.Stale (BiggestEMARate p.1) m.m_round_robin_garbage_counter))
      m_round_robin_garbage_time := now
      m_round_robin_garbage_counter := m.m_round_robin_counter }
  else m

/-- Later states of the scheduler: `Evolves m m1` says that `m1` is reached from
`m` by a sequence of `AddRequest`, `HandleReport` and `CheckTransferQueue`. -/
inductive Evolves : TransferQueueManager → TransferQueueManager → Prop
  | refl (m : TransferQueueManager) : Evolves m m
  | addRequest (m m1 : TransferQueueManager) (client : TransferQueueRequest)
      (overloaded : Bool) (rc : Int) :
      Evolves m m1 → Evolves m (AddRequest m1 client overloaded rc).1
  | handleReport (m m1 m2 : TransferQueueManager) (sock : Nat) (report : Option IOStats) :
      Evolves m m1 → HandleReport m1 sock report = some m2 → Evolves m m2
  | checkTransferQueue (m m1 m2 : TransferQueueManager) (now : Int) (sendOk : Nat → Bool)
      (sent : List Nat) :
      Evolves m m1 → CheckTransferQueue m1 now sendOk = some (m2, sent) → Evolves m m2

/-- Alice's and bob's records are idle and older than the snapshot 5; bob's
sending rate is above the threshold; carol's record is newer than the snapshot. -/
def garbageState : TransferQueueManager :=
  { sampleManager 10 10 []
      [("Dalice", { recency := 3 }), ("Ubob", { recency := 2 }), ("Dcarol", { recency := 7 })] 9
    with m_round_robin_garbage_counter := 5, m_round_robin_garbage_time := 1000 }

/-- Peak rates for `garbageState`: bob sends 200000 bytes a second, the others nothing. -/
def garbageRates (key : String) : EMARates :=
  if key = "Ubob" then { bytes_sent := 200000 } else {}

/-- The C library test `isspace` in the "C" locale. -/
def isspace (c : Char) : Bool :=
  c = ' ' || c = '\t' || c = '\n' || c = '\x0b' || c = '\x0c' || c = '\r'

/-- The C library test `isdigit`. -/
def isdigit (c : Char) : Bool :=
  decide ('0' ≤ c ∧ c ≤ '9')

/-- Value of a string of decimal digits. -/
def decimalValue (ds : List Char) : Nat :=
  ds.foldl (fun acc c => acc * 10 + (c.toNat - 48)) 0

/-- Value stored by a `%u` conversion that read the digits `ds` after an
optional sign: the number reduced to `unsigned int`, negated when the sign is
`-`. -/
def unsignedValue (negative : Bool) (ds : List Char) : Nat :=
  if negative then (4294967296 - decimalValue ds % 4294967296) % 4294967296
  else decimalValue ds % 4294967296

/-- The input left after the optional sign of a number. -/
def afterSign (s : List Char) : List Char :=
  if s.head? = some '+' ∨ s.head? = some '-' then s.tail else s

/-- One `%u` directive of `sscanf`: white space is skipped, then an optional
sign and a non-empty run of decimal digits are read.  Returns the value
stored and the input left, `none` when the input does not match. -/
def scanUnsigned (s : List Char) : Option (Nat × List Char) :=
  let s1 := s.dropWhile isspace
  let ds := (afterSign s1).takeWhile isdigit
  if ds = [] then none
  else some (unsignedValue (decide (s1.head? = some '-')) ds, (afterSign s1).dropWhile isdigit)

/-- The call `sscanf(s, "%u %u ... %u", ...)` with `n` directives: the values
stored, in order, up to the first directive that does not match.  The white
space between the directives of the format is subsumed by the skip each `%u`
makes; the result `rc` of the call is compared with `n` only, and equals `n`
exactly when `n` values are stored. -/
def sscanfUnsigned : Nat → List Char → List Nat
  | 0, _ => []
  | n + 1, s =>
    match scanUnsigned s with
    | none => []
    | some (v, rest) => v :: sscanfUnsigned n rest

/-- The part of `TransferQueueRequest::ReadReport` before `AddRecentIOStats`
(source lines 329-371).  `received` is the string `m_sock->get` delivered,
`none` when `get` or `end_of_message` failed.  Returns the `IOStats` built,
`none` where the function returns false. -/
def parseReport (received : Option String) : Option IOStats :=
  match received with
  | none => none
  | some report =>
    if report.data = [] then none
    else
      match sscanfUnsigned 8 report.data with
      | [_report_time, _report_interval_usec, recent_bytes_sent, recent_bytes_received,
          recent_usec_file_read, recent_usec_file_write, recent_usec_net_read,
          recent_usec_net_write] =>
        some { bytes_sent := (recent_bytes_sent : ℚ)
               bytes_received := (recent_bytes_received : ℚ)
               file_read := (recent_usec_file_read : ℚ) / 1000000
               file_write := (recent_usec_file_write : ℚ) / 1000000
               net_read := (recent_usec_net_read : ℚ) / 1000000
               net_write := (recent_usec_net_write : ℚ) / 1000000 }
      | _ => none

/-- Method `TransferQueueRequest::ReadReport`: the result and the manager afterwards. -/
def TransferQueueRequest.ReadReport (c : TransferQueueRequest) (m : TransferQueueManager)
    (received : Option String) : Bool × TransferQueueManager :=
  match parseReport received with
  | none => (false, m)
  | some iostats => (true, AddRecentIOStats m iostats c.m_up_down_queue_user)

/-- The lines `sscanf` can take values from: `ReportFields s vs` says that `s`
starts with the numbers `vs`, each written as optional white space, an
optional sign and a non-empty run of decimal digits that ends where the next
character is not a digit; what follows the last number is arbitrary. -/
inductive ReportFields : List Char → List Nat → Prop
  | done (s : List Char) : ReportFields s []
  | field (w sg ds rest : List Char) (vs : List Nat) :
      (∀ c ∈ w, isspace c = true) →
      (sg = [] ∨ sg = ['+'] ∨ sg = ['-']) →
      ds ≠ [] → (∀ c ∈ ds, isdigit c = true) →
      (∀ c, rest.head? = some c → isdigit c = false) →
      ReportFields rest vs →
      ReportFields (w ++ sg ++ ds ++ rest) (unsignedValue (decide (sg = ['-'])) ds :: vs)

/-- The report line made of the given fields, separated by single blanks. -/
def joinFields : List (List Char) → List Char
  | [] => []
  | [d] => d
  | d :: rest => d ++ ' ' :: joinFields rest

/-- The statistics a report with the eight values `vs` stands for: bytes sent
and received as they are, the four times converted from microseconds to
seconds. -/
def reportStats (vs : List Nat) : IOStats :=
  { bytes_sent := (vs.getD 2 0 : ℚ)
    bytes_received := (vs.getD 3 0 : ℚ)
    file_read := (vs.getD 4 0 : ℚ) / 1000000
    file_write := (vs.getD 5 0 : ℚ) / 1000000
    net_read := (vs.getD 6 0 : ℚ) / 1000000
    net_write := (vs.getD 7 0 : ℚ) / 1000000 }

/-- Bob holds one download and asks for another; alice and carol, with nothing
running and never granted, each ask for an upload and stand first in the
queue.  Both ceilings are 2, so one slot of each direction is free. -/
def mixedState : PassState :=
  startPass (sampleManager 2 2
    [sampleRequest 1 "alice" false false, sampleRequest 2 "carol" false false,
     sampleRequest 3 "bob" true true, sampleRequest 4 "bob" true false]
    [("Dbob", { recency := 7 })] 7)

/-- The requests of a live set that hold a go-ahead, in queue order. -/
def grantedRequests (q : List TransferQueueRequest) : List TransferQueueRequest :=
  q.filter (fun c => c.m_gave_go_ahead)

/-- Number of requests of the live set without go-ahead, for one direction
(`downloading = true` for downloads). -/
def numWaitingDir (downloading : Bool) (q : List TransferQueueRequest) : Nat :=
  q.countP (fun c => !c.m_gave_go_ahead && (c.m_downloading == downloading))

/-- Every record of the user map has a recency at most `m_round_robin_counter`. -/
def recencyBounded (m : TransferQueueManager) : Prop :=
  ∀ p ∈ m.m_queue_users, p.2.recency ≤ m.m_round_robin_counter

/-- States of the manager between the calls of its methods: the constructor,
then any sequence of `InitAndReconfig`, `AddRequest`, `HandleReport`,
`CheckTransferQueue` and `CollectUserRecGarbage`, with any arguments. -/
inductive Reached : TransferQueueManager → Prop
  | ctor (now : Int) : Reached (TransferQueueManager.ctor now)
  | initAndReconfig (m : TransferQueueManager) (max_downloads max_uploads max_queue_age : Int) :
      Reached m → Reached (InitAndReconfig m max_downloads max_uploads max_queue_age)
  | addRequest (m : TransferQueueManager) (client : TransferQueueRequest) (overloaded : Bool)
      (rc : Int) :
      Reached m → Reached (AddRequest m client overloaded rc).1
  | handleReport (m m1 : TransferQueueManager) (sock : Nat) (report : Option IOStats) :
      Reached m → HandleReport m sock report = some m1 → Reached m1
  | checkTransferQueue (m m1 : TransferQueueManager) (now : Int) (sendOk : Nat → Bool)
      (sent : List Nat) :
      Reached m → CheckTransferQueue m now sendOk = some (m1, sent) → Reached m1
  | collectUserRecGarbage (m : TransferQueueManager) (now : Int)
      (BiggestEMARate : String → EMARates) :
      Reached m → Reached (CollectUserRecGarbage m now BiggestEMARate)

/-- States at the head of the granting loop during the pass started from `m` at
time `now`: the state before the first iteration, and the state an iteration
leaves when the loop condition held, whatever the outcome of `SendGoAhead`. -/
inductive InPass (m : TransferQueueManager) (now : Int) : PassState → Prop
  | start : InPass m now (startPass m)
  | next (s : PassState) (ok : Bool) :
      InPass m now s → grantLoopCond s → InPass m now (grantIteration now ok s).1

/-- Bob, then alice, asked for a download; the pass at time 110 has not run yet. -/
def queuedState : TransferQueueManager :=
  (AddRequest
    (AddRequest (InitAndReconfig (TransferQueueManager.ctor 0) 10 10 7200)
      (TransferQueueRequest.ctor 1 "input.dat" "1.0" "bob" true 7200 100) false 0).1
    (TransferQueueRequest.ctor 2 "input.dat" "2.0" "alice" true 7200 100) false 0).1

end TransferQueue

namespace Accountant

/-- The class `StringSet` (condor_accountant.V6/StringSet.h).  `names` lists the
`Name` of the elements from `Head` along `Next`; a pointer to an element is
its position in that list and `none` is the null pointer. -/
structure StringSet where
  names : List String
  Len : Int
  Curr : Option Nat
deriving DecidableEq

/-- Constructor `StringSet::StringSet`. -/
def StringSet.ctor : StringSet :=
  { names := [], Len := 0, Curr := none }

/-- The member `Head`. -/
def StringSet.Head (s : StringSet) : Option Nat :=
  if s.names = [] then none else some 0

/-- The loop of `StringSet::Find` (source lines 65-67) started with the loop
variable `N`, run for at most `fuel` tests of its condition.  The result is
the value of `N` when the loop is left, `none` when the loop is still running
after `fuel` tests.  The loop body never assigns `N`. -/
def StringSet.FindLoop (s : StringSet) (Name : String) : Nat → Option Nat → Option (Option Nat)
  | 0, _ => none
  | fuel + 1, N =>
    match N with
    | none => some none
    | some i =>
      if s.names.get? i = some Name then some (some i)
      else StringSet.FindLoop s Name fuel (some i)

/-- Function `StringSet::Find`: the pointer returned, `none` when the function
has not returned after `fuel` tests of the loop condition. -/
def StringSet.Find (s : StringSet) (Name : String) (fuel : Nat) : Option (Option Nat) :=
  s.FindLoop Name fuel s.Head

/-- Function `StringSet::Exist`. -/
def StringSet.Exist (s : StringSet) (Name : String) (fuel : Nat) : Option Int :=
  (s.Find Name fuel).map (fun N => if N.isSome then 1 else 0)

/-- Function `StringSet::Add`: the set afterwards.  The new element becomes the
head, so the positions of the elements already present move up by one. -/
def StringSet.Add (s : StringSet) (Name : String) (fuel : Nat) : Option StringSet :=
  (s.Find Name fuel).map (fun N =>
    if N.isSome then s
    else { names := Name :: s.names, Len := s.Len + 1, Curr := s.Curr.map (fun i => i + 1) })

/-- The set holding the single name `"a"`. -/
def oneName : StringSet :=
  { names := ["a"], Len := 1, Curr := none }

end Accountant

namespace FullRead

/-- One call of `read`: the value it returns (an `ssize_t`) and, for a negative
value, whether `errno` is `EINTR`. -/
structure ReadResult where
  value : Int
  eintr : Bool
deriving DecidableEq

/-- Conversion to `int` (two's complement, 32 bits). -/
def toInt (x : Int) : Int :=
  (x + 2147483648) % 4294967296 - 2147483648

/-- Conversion to `ssize_t` of `bits` bits (two's complement). -/
def toSsize (bits : Nat) (x : Int) : Int :=
  (x + 2 ^ (bits - 1)) % 2 ^ bits - 2 ^ (bits - 1)

/-- How the loop of `_condor_full_read` was left: by `return -1` or past its end
with the final `nleft`; with the number of `read` calls made, the total of
the non-negative values they returned, and whether one returned 0. -/
structure LoopEnd where
  failed : Bool
  nleft : Int
  calls : Nat
  delivered : Int
  eof : Bool
deriving DecidableEq

/-- What a call of `_condor_full_read` did: the value returned, the number of
`read` calls made, the total number of bytes they delivered, and whether end
of file was met. -/
structure FullReadResult where
  ret : Int
  calls : Nat
  delivered : Int
  eof : Bool
deriving DecidableEq

/-- The loop of `_condor_full_read` (source lines 42-67) from the loop variable
`nleft`; `reads` are the results of the successive `read` calls.  `none` when
the loop needs a further `read` result. -/
def fullReadLoop : Int → Nat → Int → List ReadResult → Option LoopEnd
  | nleft, calls, delivered, [] =>
    if nleft > 0 then none
    else some { failed := false, nleft := nleft, calls := calls, delivered := delivered,
                eof := false }
  | nleft, calls, delivered, r :: rest =>
    if nleft > 0 then
      let nread := toInt r.value
      if nread < 0 then
        if r.eintr then fullReadLoop nleft (calls + 1) delivered rest
        else some { failed := true, nleft := nleft, calls := calls + 1, delivered := delivered,
                    eof := false }
      else if nread = 0 then
        some { failed := false, nleft := nleft, calls := calls + 1, delivered := delivered,
               eof := true }
      else fullReadLoop (toInt (nleft - nread)) (calls + 1) (delivered + r.value) rest
    else some { failed := false, nleft := nleft, calls := calls, delivered := delivered,
                eof := false }

/-- Function `_condor_full_read` for a `size_t` and `ssize_t` of `bits` bits;
`nbytes` is the size asked for and `reads` the results of the successive
`read` calls.  `none` when the function needs a further `read` result. -/
def _condor_full_read (bits : Nat) (nbytes : Nat) (reads : List ReadResult) :
    Option FullReadResult :=
  (fullReadLoop (toInt nbytes) 0 0 reads).map (fun e =>
    { ret := if e.failed then -1 else toSsize bits (nbytes - e.nleft)
      calls := e.calls, delivered := e.delivered, eof := e.eof })

/-- The `read` results are those of calls that deliver no more than they were
asked for: a failing call returns -1, a successful one at most the count
`nleft` it was given; the count of the next call follows the loop. -/
def readsWithin : Int → List ReadResult → Prop
  | _, [] => True
  | nleft, r :: rest =>
    if r.value < 0 then r.value = -1 ∧ readsWithin nleft rest
    else r.value ≤ nleft ∧ readsWithin (nleft - r.value) rest

end FullRead

namespace CondorWait

/-- The event numbers `main` compares with; every other event number is `other`. -/
inductive ULogEventNumber
  | ULOG_SUBMIT
  | ULOG_JOB_TERMINATED
  | ULOG_JOB_ABORTED
  | other
deriving DecidableEq

/-- The members of `ULogEvent` that `main` reads. -/
structure ULogEvent where
  cluster : Int
  proc : Int
  subproc : Int
  eventNumber : ULogEventNumber
deriving DecidableEq

/-- The macro `ANY_NUMBER`. -/
def ANY_NUMBER : Int := -1

/-- Function `jobnum_matches`. -/
def jobnum_matches (event : ULogEvent) (cluster process subproc : Int) : Bool :=
  (event.cluster = cluster || cluster = ANY_NUMBER) &&
  (event.proc = process || process = ANY_NUMBER) &&
  (event.subproc = subproc || subproc = ANY_NUMBER)

/-- The locals of `main` that its loop reads and writes.  `table` lists the keys
held by the hash table: `insert` adds a key, `remove` takes one entry with the
key away, and the loop observes only whether the table is empty. -/
structure WaitState where
  cluster : Int
  process : Int
  subproc : Int
  minjobs : Int
  stoptime : Int
  submitted : Int
  aborted : Int
  completed : Int
  table : List String
deriving DecidableEq

/-- The locals when the loop starts, after the options `-wait waittime` (read
at time `now`) and `-num minjobs` and no job number were given. -/
def afterOptions (now waittime minjobs : Int) : WaitState :=
  { cluster := ANY_NUMBER, process := ANY_NUMBER, subproc := ANY_NUMBER
    minjobs := minjobs, stoptime := now + waittime
    submitted := 0, aborted := 0, completed := 0, table := [] }

/-- What one iteration of the loop of `main` ends in: a call of `exit` with a
status, or the next iteration with the new values of the locals after a sleep of the
given number of seconds (0 when the iteration does not sleep). -/
inductive Step
  | exit (status : Int)
  | next (st : WaitState) (slept : Int)
deriving DecidableEq

/-- The key `sprintf(key,"%d.%d.%d",...)` builds for an event. -/
def eventKey (event : ULogEvent) : String :=
  toString event.cluster ++ "." ++ toString event.proc ++ "." ++ toString event.subproc

/-- One iteration of the loop of `main` (source lines 189-248) run at time
`now`.  `outcome` is the event `readEvent` delivered with `ULOG_OK`, `none`
for every other outcome. -/
def loopIteration (st : WaitState) (outcome : Option ULogEvent) (now : Int) : Step :=
  match outcome with
  | some event =>
    let st1 : WaitState :=
      if jobnum_matches event st.cluster st.process st.subproc then
        match event.eventNumber with
        | ULogEventNumber.ULOG_SUBMIT =>
          { st with table := eventKey event :: st.table, submitted := st.submitted + 1 }
        | ULogEventNumber.ULOG_JOB_TERMINATED =>
          { st with table := st.table.erase (eventKey event), completed := st.completed + 1 }
        | ULogEventNumber.ULOG_JOB_ABORTED =>
          { st with table := st.table.erase (eventKey event), aborted := st.aborted + 1 }
        | ULogEventNumber.other => st
      else st
    if st1.minjobs ≠ 0 ∧ st1.completed + st1.aborted ≥ st1.minjobs then Step.exit 0
    else Step.next st1 0
  | none =>
    if st.table.length = 0 then
      if st.submitted > 0 then
        if st.minjobs = 0 then Step.exit 0
        else Step.next st 0
      else Step.exit 1
    else if st.stoptime ≠ 0 ∧ now > st.stoptime then Step.exit 1
    else
      let sleeptime : Int := if st.stoptime ≠ 0 then st.stoptime - now else 5
      let sleeptime : Int := if sleeptime > 5 then 5 else if sleeptime < 1 then 1 else sleeptime
      Step.next st sleeptime

/-- The loop of `main` over the given outcomes of `readEvent`, each with the
time of its iteration: the exit status, `none` when the program is still
running after the last of them. -/
def runLoop : WaitState → List (Option ULogEvent × Int) → Option Int
  | _, [] => none
  | st, (outcome, now) :: rest =>
    match loopIteration st outcome now with
    | Step.exit status => some status
    | Step.next st1 _ => runLoop st1 rest

/-- The locals after `condor_wait -wait 60 -num 2 logfile`, started at time 100,
has read the submission and the termination of job 1.0.0 from the log. -/
def oneJobDone : WaitState :=
  { afterOptions 100 60 2 with submitted := 1, completed := 1 }

end CondorWait

namespace DagmanUtils

/-- Modelled from the spec: the function `fullpath` (declared in `basename.h`;
only its test FTEST_fullpath.cpp and its caller are among the shown sources).
The test states that it returns TRUE if the path is a full pathname, which
"either begins with '/' or '\' or '*:\'", and expects TRUE for `x:/` too;
`*` stands for one character of any kind. -/
def fullpath (path : String) : Bool :=
  match path.data with
  | c0 :: rest =>
    if c0 = '/' ∨ c0 = '\\' then true
    else
      match rest with
      | c1 :: c2 :: _ => decide (c1 = ':' ∧ (c2 = '\\' ∨ c2 = '/'))
      | _ => false
  | [] => false

/-- Function `DagmanUtils::MakePathAbsolute`.  `getcwd_ok` and `currentDir` are
the result of `condor_getcwd` and the directory it stored, `DIR_DELIM_STRING`
the macro of that name, `failure` the message `formatstr` builds.  Returns the
result, `filePath` and `errMsg` afterwards. -/
def MakePathAbsolute (filePath errMsg : String) (getcwd_ok : Bool) (currentDir : String)
    (DIR_DELIM_STRING : String) (failure : String) : Bool × String × String :=
  if ¬ fullpath filePath = true then
    if ¬ getcwd_ok = true then
      (false, currentDir ++ DIR_DELIM_STRING ++ filePath, failure)
    else (true, currentDir ++ DIR_DELIM_STRING ++ filePath, errMsg)
  else (true, filePath, errMsg)

/-- The C library test `isspace` in the "C" locale. -/
def isspace (c : Char) : Bool :=
  c = ' ' ∨ c = '\t' ∨ c = '\n' ∨ c = '\x0b' ∨ c = '\x0c' ∨ c = '\r'

/-- The C library function `tolower` in the "C" locale. -/
def tolower (c : Char) : Char :=
  if 'A' ≤ c ∧ c ≤ 'Z' then Char.ofNat (c.toNat + 32) else c

/-- The C library function `strcasecmp`, as far as its callers look at it: 0
when the two strings are equal up to the case of letters, non-zero otherwise. -/
def strcasecmp (a b : String) : Int :=
  if a.data.map tolower = b.data.map tolower then 0 else 1

/-- Modelled from the spec: `MyString::trim` is declared in `MyString.h`, which is
not among the shown sources; taken by its name and use, it removes the white
space at both ends of the string. -/
def trim (s : String) : String :=
  String.mk ((s.data.dropWhile isspace).reverse.dropWhile isspace).reverse

/-- The tokens of a character list split at blanks and tabs, empty tokens left
out; `cur` holds the characters of the current token, last first. -/
def splitTokens : List Char → List Char → List String
  | cur, [] => if cur = [] then [] else [String.mk cur.reverse]
  | cur, c :: cs =>
    if c = ' ' ∨ c = '\t' then
      if cur = [] then splitTokens [] cs else String.mk cur.reverse :: splitTokens [] cs
    else splitTokens (c :: cur) cs

/-- Modelled from the spec: `MyStringTokener` is declared in `MyString.h`, which is
not among the shown sources; taken by its name and use, `Tokenize` followed by
the loop on `GetNextToken(" \t", true)` yields the tokens between blanks and
tabs, blank tokens skipped. -/
def Tokenize (s : String) : List String :=
  splitTokens [] s.data

/-- Replacement of every occurrence of `pat` in a character list, left to right;
`skip` counts the characters of a matched occurrence still to be passed over. -/
def replaceChars (pat rep : List Char) : Nat → List Char → List Char
  | _, [] => []
  | skip + 1, _ :: cs => replaceChars pat rep skip cs
  | 0, c :: cs =>
    if pat ≠ [] ∧ pat.isPrefixOf (c :: cs) = true then
      rep ++ replaceChars pat rep (pat.length - 1) cs
    else c :: replaceChars pat rep 0 cs

/-- Modelled from the spec: `MyString::replaceString` is declared in `MyString.h`,
which is not among the shown sources; taken by its name and use, it replaces
the occurrences of the text `pszToReplace`, compared character by character,
by `pszReplaceWith`. -/
def replaceString (s pszToReplace pszReplaceWith : String) : String :=
  String.mk (replaceChars pszToReplace.data pszReplaceWith.data 0 s.data)

/-- Function `AppendError` (source lines 33-38). -/
def AppendError (errMsg newError : String) : String :=
  (if errMsg ≠ "" then errMsg ++ "; " else errMsg) ++ newError

/-- What the loop over the logical lines of one DAG file reads and writes: the
local `configFiles`, the parameters `attrLines` and `errMsg`, and `result`. -/
structure FileState where
  configFiles : List String
  attrLines : List String
  errMsg : String
  result : Bool
deriving DecidableEq

/-- Body of the loop over the logical lines in `GetConfigAndAttrs` (source lines
608-664) for the line `logicalLine`.  `tokens.front()` and `tokens.pop_front()`
on an empty `std::list` are undefined behaviour: the result is `none` when the
body reaches one of them.  (`c_str()` never returns a null pointer, so the
test `!newValue` is false.) -/
def processLogicalLine (logicalLine : String) (st : FileState) : Option FileState :=
  if logicalLine ≠ "" then
    let logicalLine1 := trim logicalLine
    let tokens := Tokenize logicalLine1
    match tokens with
    | [] => none
    | firstToken :: tokens1 =>
      if strcasecmp firstToken "config" = 0 then
        match tokens1 with
        | [] => none
        | newValue :: _ =>
          if newValue = "" then
            some { st with
              errMsg := AppendError st.errMsg
                "Improperly-formatted file: value missing after keyword CONFIG"
              result := false }
          else
            let alreadyInList := st.configFiles.any (fun f => decide (f = newValue))
            if ¬ alreadyInList = true then
              some { st with configFiles := st.configFiles ++ [newValue] }
            else some st
      else if strcasecmp firstToken "SET_JOB_ATTR" = 0 then
        let logicalLine2 := trim (replaceString logicalLine1 "SET_JOB_ATTR" "")
        if logicalLine2 = "" then
          some { st with
            errMsg := AppendError st.errMsg
              "Improperly-formatted file: value missing after keyword SET_JOB_ATTR"
            result := false }
        else some { st with attrLines := st.attrLines ++ [logicalLine2] }
      else some st
  else some st

/-- The loop `while ( reader.NextLogicalLine( logicalLine ) )` over the logical
lines `reader` delivers. -/
def readLogicalLines : List String → FileState → Option FileState
  | [], st => some st
  | logicalLine :: rest, st =>
    match processLogicalLine logicalLine st with
    | none => none
    | some st1 => readLogicalLines rest st1

/-- The state at the start of a DAG file, nothing gone wrong so far. -/
def freshState : FileState :=
  { configFiles := [], attrLines := [], errMsg := "", result := true }

end DagmanUtils

namespace ViewServer

/-- Enumerator `VIEW_STATE_UNCLAIMED` of `ViewStates`, the first normal state. -/
def VIEW_STATE_UNCLAIMED : Nat := 1

/-- Enumerator `VIEW_STATE_BACKFILL` of `ViewStates`, the last normal state. -/
def VIEW_STATE_BACKFILL : Nat := 8

/-- Enumerator `VIEW_STATE_MAX`. -/
def VIEW_STATE_MAX : Nat := VIEW_STATE_BACKFILL

/-- Enumerator `VIEW_STATE_MAX_OFFSET`. -/
def VIEW_STATE_MAX_OFFSET : Nat := VIEW_STATE_MAX - 1

/-- Structure `GeneralRecord`: the array `float Data[VIEW_STATE_MAX]`.  An
element is `none` as long as nothing was assigned to it (its value is
indeterminate); assigned values are kept as exact rationals. -/
structure GeneralRecord where
  Data : List (Option ℚ)
deriving DecidableEq

/-- Constructor `GeneralRecord::GeneralRecord`: the loop
`for( int i=0; i<(int)VIEW_STATE_MAX_OFFSET; i++ ) Data[i] = 0.0;` run on the
array as allocated. -/
def GeneralRecord.ctor : GeneralRecord :=
  { Data := (List.range VIEW_STATE_MAX_OFFSET).foldl (fun Data i => Data.set i (some 0))
      (List.replicate VIEW_STATE_MAX none) }

end ViewServer

namespace TransferQueue

/-! ## Lemmas on the user map -/

theorem userRec_eq (users : QueueUserMap) (k : String) :
    userRec users k = (users.lookup k).getD {} := by
  unfold userRec GetUserRec
  cases h : users.lookup k <;> simp

theorem lookup_append_fresh (users : QueueUserMap) (k k2 : String) (u : TransferQueueUser)
    (h : users.lookup k = none) :
    (users ++ [(k, u)]).lookup k2 = if k2 = k then some u else users.lookup k2 := by
  induction users with
  | nil =>
    by_cases hk : k2 = k
    · subst hk; simp [List.lookup]
    · have : (k2 == k) = false := by simpa using hk
      simp [List.lookup, this, hk]
  | cons p rest ih =>
    obtain ⟨a, v⟩ := p
    have hka : (k == a) = false := by
      cases hb : (k == a) with
      | false => rfl
      | true => simp [List.lookup, hb] at h
    have hrest : rest.lookup k = none := by simpa [List.lookup, hka] using h
    have ih2 := ih hrest
    cases hb : (k2 == a) with
    | true =>
      have h2 : k2 = a := by simpa using hb
      have hne : k2 ≠ k := by
        intro e; subst e; simp [hb] at hka
      simp [List.lookup, hb, hne]
    | false =>
      simp only [List.cons_append, List.lookup, hb]
      exact ih2

theorem lookup_map_val (users : QueueUserMap) (g : String → TransferQueueUser → TransferQueueUser)
    (k : String) :
    (users.map (fun p => (p.1, g p.1 p.2))).lookup k = (users.lookup k).map (g k) := by
  induction users with
  | nil => rfl
  | cons p rest ih =>
    obtain ⟨a, v⟩ := p
    cases hb : (k == a) with
    | true =>
      have h2 : k = a := by simpa using hb
      subst h2
      simp [List.lookup]
    | false =>
      simp only [List.map_cons, List.lookup, hb]
      exact ih

theorem lookup_GetUserRec (users : QueueUserMap) (k k2 : String) :
    (GetUserRec users k).1.lookup k2 =
      if k2 = k then some (userRec users k) else users.lookup k2 := by
  unfold userRec GetUserRec
  cases h : users.lookup k with
  | none => simp only [lookup_append_fresh users k k2 _ h]
  | some u =>
    by_cases hk : k2 = k
    · subst hk; simp [h]
    · simp [hk]

theorem userRec_GetUserRec (users : QueueUserMap) (k k2 : String) :
    userRec (GetUserRec users k).1 k2 = userRec users k2 := by
  simp only [userRec_eq, lookup_GetUserRec]
  by_cases hk : k2 = k
  · subst hk; simp
  · simp [hk]

theorem updateUserRec_eq (users : QueueUserMap) (k : String)
    (f : TransferQueueUser → TransferQueueUser) :
    updateUserRec users k f =
      (GetUserRec users k).1.map (fun p => (p.1, (fun a v => if a = k then f v else v) p.1 p.2)) := by
  unfold updateUserRec
  congr 1
  funext p
  by_cases hp : p.1 = k <;> simp [hp]

theorem userRec_updateUserRec (users : QueueUserMap) (k k2 : String)
    (f : TransferQueueUser → TransferQueueUser) :
    userRec (updateUserRec users k f) k2 =
      if k2 = k then f (userRec users k) else userRec users k2 := by
  rw [userRec_eq, updateUserRec_eq,
    lookup_map_val _ (fun a v => if a = k then f v else v), lookup_GetUserRec]
  by_cases hk : k2 = k
  · subst hk; simp
  · simp [hk, userRec_eq]

theorem userRec_map (users : QueueUserMap) (g : TransferQueueUser → TransferQueueUser)
    (hg : g {} = {}) (k : String) :
    userRec (users.map (fun p => (p.1, g p.2))) k = g (userRec users k) := by
  rw [userRec_eq, lookup_map_val users (fun _ v => g v), userRec_eq]
  cases users.lookup k <;> simp [hg]


/-! ## Lemmas on the scans -/

theorem countTransfers_counts (q : List TransferQueueRequest) :
    ∀ (users : QueueUserMap) (up down : Int),
      (countTransfers q users up down).2.1 = up + numGranted false q ∧
      (countTransfers q users up down).2.2 = down + numGranted true q := by
  induction q with
  | nil => intro users up down; simp [countTransfers, numGranted]
  | cons c rest ih =>
    intro users up down
    unfold countTransfers
    cases hg : c.m_gave_go_ahead <;> cases hd : c.m_downloading <;>
      simp [hg, hd, ih, numGranted, List.countP_cons] <;> omega

theorem selectBest_users (m : TransferQueueManager) (up down : Int)
    (q : List TransferQueueRequest) :
    ∀ (pos : Nat) (users : QueueUserMap) (best : Option BestClient) (k : String),
      userRec (selectBest m up down q pos users best).1 k = userRec users k := by
  induction q with
  | nil => intro pos users best k; simp [selectBest]
  | cons c rest ih =>
    intro pos users best k
    unfold selectBest
    split
    · exact ih _ _ _ _
    · split
      · simp only []
        split <;> rw [ih, userRec_GetUserRec]
      · exact ih _ _ _ _

theorem selectBest_none (m : TransferQueueManager) (up down : Int)
    (q : List TransferQueueRequest) :
    ∀ (pos : Nat) (users : QueueUserMap) (best : Option BestClient),
      (selectBest m up down q pos users best).2 = none ↔
        (best = none ∧ ∀ c ∈ q, c.m_gave_go_ahead = false → ¬ hasFreeSlot m up down c) := by
  induction q with
  | nil => intro pos users best; simp [selectBest]
  | cons c rest ih =>
    intro pos users best
    unfold selectBest
    split
    · rename_i hg
      rw [ih]; simp [hg]
    · rename_i hg
      split
      · rename_i hf
        simp only []
        split
        · rename_i hb
          rw [ih]
          constructor
          · intro h; simp at h
          · intro h
            have := h.2 c (List.mem_cons_self _ _) (by simpa using hg)
            exact absurd hf this
        · rename_i hb
          rw [ih]
          constructor
          · intro h
            obtain ⟨h1, _⟩ := h
            subst h1
            simp [thisClientIsBetter] at hb
          · intro h
            have := h.2 c (List.mem_cons_self _ _) (by simpa using hg)
            exact absurd hf this
      · rename_i hf
        rw [ih]; simp [hf]

theorem selectBest_some (m : TransferQueueManager) (up down : Int)
    (q : List TransferQueueRequest) :
    ∀ (pos : Nat) (users : QueueUserMap) (best : Option BestClient) (b : BestClient),
      (selectBest m up down q pos users best).2 = some b →
        best = some b ∨
        (pos ≤ b.pos ∧ q[b.pos - pos]? = some b.client ∧ b.client.m_gave_go_ahead = false ∧
          hasFreeSlot m up down b.client) := by
  induction q with
  | nil => intro pos users best b h; left; simpa [selectBest] using h
  | cons c rest ih =>
    intro pos users best b h
    have shift : ∀ b : BestClient, (pos + 1 ≤ b.pos ∧ rest[b.pos - (pos + 1)]? = some b.client ∧
        b.client.m_gave_go_ahead = false ∧ hasFreeSlot m up down b.client) →
        (pos ≤ b.pos ∧ (c :: rest)[b.pos - pos]? = some b.client ∧
          b.client.m_gave_go_ahead = false ∧ hasFreeSlot m up down b.client) := by
      intro b ⟨h1, h2, h3, h4⟩
      refine ⟨by omega, ?_, h3, h4⟩
      have : b.pos - pos = (b.pos - (pos + 1)) + 1 := by omega
      rw [this, List.getElem?_cons_succ]; exact h2
    unfold selectBest at h
    split at h
    · rcases ih _ _ _ _ h with h1 | h1
      · exact Or.inl h1
      · exact Or.inr (shift b h1)
    · rename_i hg
      split at h
      · rename_i hf
        simp only [] at h
        split at h
        · rcases ih _ _ _ _ h with h1 | h1
          · right
            have hb := Option.some.inj h1
            subst hb
            simp [hf]
            simpa using hg
          · exact Or.inr (shift b h1)
        · rcases ih _ _ _ _ h with h1 | h1
          · exact Or.inl h1
          · exact Or.inr (shift b h1)
      · rcases ih _ _ _ _ h with h1 | h1
        · exact Or.inl h1
        · exact Or.inr (shift b h1)

theorem GetUserRec_keeps (users : QueueUserMap) (k : String) :
    ∀ p ∈ users, p ∈ (GetUserRec users k).1 := by
  intro p hp
  unfold GetUserRec
  split
  · exact hp
  · exact List.mem_append_left _ hp

theorem selectBest_keeps (m : TransferQueueManager) (up down : Int)
    (q : List TransferQueueRequest) :
    ∀ (pos : Nat) (users : QueueUserMap) (best : Option BestClient),
      ∀ p ∈ users, p ∈ (selectBest m up down q pos users best).1 := by
  induction q with
  | nil => intro pos users best p hp; simpa [selectBest] using hp
  | cons c rest ih =>
    intro pos users best p hp
    unfold selectBest
    split
    · exact ih _ _ _ p hp
    · split
      · simp only []
        split <;> exact ih _ _ _ p (GetUserRec_keeps users _ p hp)
      · exact ih _ _ _ p hp

/-! ## Field lemmas -/

@[simp] theorem TransferQueueChanged_xfer_queue (m : TransferQueueManager) :
    (TransferQueueChanged m).m_xfer_queue = m.m_xfer_queue := by
  unfold TransferQueueChanged; split <;> rfl

@[simp] theorem TransferQueueChanged_queue_users (m : TransferQueueManager) :
    (TransferQueueChanged m).m_queue_users = m.m_queue_users := by
  unfold TransferQueueChanged; split <;> rfl

@[simp] theorem TransferQueueChanged_max_uploads (m : TransferQueueManager) :
    (TransferQueueChanged m).m_max_uploads = m.m_max_uploads := by
  unfold TransferQueueChanged; split <;> rfl

@[simp] theorem TransferQueueChanged_max_downloads (m : TransferQueueManager) :
    (TransferQueueChanged m).m_max_downloads = m.m_max_downloads := by
  unfold TransferQueueChanged; split <;> rfl

@[simp] theorem TransferQueueChanged_default_max_queue_age (m : TransferQueueManager) :
    (TransferQueueChanged m).m_default_max_queue_age = m.m_default_max_queue_age := by
  unfold TransferQueueChanged; split <;> rfl

@[simp] theorem TransferQueueChanged_round_robin_counter (m : TransferQueueManager) :
    (TransferQueueChanged m).m_round_robin_counter = m.m_round_robin_counter := by
  unfold TransferQueueChanged; split <;> rfl

@[simp] theorem SetRoundRobinRecency_xfer_queue (m : TransferQueueManager) (user : String) :
    (SetRoundRobinRecency m user).m_xfer_queue = m.m_xfer_queue := by
  unfold SetRoundRobinRecency ClearRoundRobinRecency; simp only []; split <;> rfl

@[simp] theorem SetRoundRobinRecency_max_uploads (m : TransferQueueManager) (user : String) :
    (SetRoundRobinRecency m user).m_max_uploads = m.m_max_uploads := by
  unfold SetRoundRobinRecency ClearRoundRobinRecency; simp only []; split <;> rfl

@[simp] theorem SetRoundRobinRecency_max_downloads (m : TransferQueueManager) (user : String) :
    (SetRoundRobinRecency m user).m_max_downloads = m.m_max_downloads := by
  unfold SetRoundRobinRecency ClearRoundRobinRecency; simp only []; split <;> rfl

@[simp] theorem SetRoundRobinRecency_default_max_queue_age (m : TransferQueueManager)
    (user : String) :
    (SetRoundRobinRecency m user).m_default_max_queue_age = m.m_default_max_queue_age := by
  unfold SetRoundRobinRecency ClearRoundRobinRecency; simp only []; split <;> rfl

/-! ## Counting under `set` and `eraseIdx` -/

theorem countP_set_getElem (p : TransferQueueRequest → Bool) (q : List TransferQueueRequest) :
    ∀ (i : Nat) (c c2 : TransferQueueRequest), q[i]? = some c →
      (q.set i c2).countP p + (if p c then 1 else 0) = q.countP p + (if p c2 then 1 else 0) := by
  induction q with
  | nil => intro i c c2 h; simp at h
  | cons a rest ih =>
    intro i c c2 h
    cases i with
    | zero =>
      simp at h; subst h
      simp [List.countP_cons]; omega
    | succ i =>
      simp at h
      have := ih i c c2 h
      simp [List.countP_cons]; omega

theorem countP_eraseIdx_getElem (p : TransferQueueRequest → Bool) (q : List TransferQueueRequest) :
    ∀ (i : Nat) (c : TransferQueueRequest), q[i]? = some c →
      (q.eraseIdx i).countP p + (if p c then 1 else 0) = q.countP p := by
  induction q with
  | nil => intro i c h; simp at h
  | cons a rest ih =>
    intro i c h
    cases i with
    | zero =>
      simp at h; subst h
      simp [List.countP_cons]
    | succ i =>
      simp at h
      have := ih i c h
      simp [List.countP_cons]; omega

theorem numGranted_set (d : Bool) (q : List TransferQueueRequest) (i : Nat)
    (c : TransferQueueRequest) (now : Int) (h : q[i]? = some c) (hg : c.m_gave_go_ahead = false) :
    numGranted d (q.set i { c with m_gave_go_ahead := true, m_time_go_ahead := now }) =
      numGranted d q + (if c.m_downloading = d then 1 else 0) := by
  have := countP_set_getElem (fun c => c.m_gave_go_ahead && (c.m_downloading == d)) q i c
    { c with m_gave_go_ahead := true, m_time_go_ahead := now } h
  simp [hg] at this
  unfold numGranted
  omega

theorem numWaiting_set (q : List TransferQueueRequest) (i : Nat)
    (c : TransferQueueRequest) (now : Int) (h : q[i]? = some c) (hg : c.m_gave_go_ahead = false) :
    numWaiting (q.set i { c with m_gave_go_ahead := true, m_time_go_ahead := now }) + 1 =
      numWaiting q := by
  have := countP_set_getElem (fun c => !c.m_gave_go_ahead) q i c
    { c with m_gave_go_ahead := true, m_time_go_ahead := now } h
  simp [hg] at this
  unfold numWaiting
  omega

theorem numGranted_eraseIdx (d : Bool) (q : List TransferQueueRequest) (i : Nat)
    (c : TransferQueueRequest) (h : q[i]? = some c) (hg : c.m_gave_go_ahead = false) :
    numGranted d (q.eraseIdx i) = numGranted d q := by
  have := countP_eraseIdx_getElem (fun c => c.m_gave_go_ahead && (c.m_downloading == d)) q i c h
  simp [hg] at this
  unfold numGranted
  omega

theorem numWaiting_eraseIdx (q : List TransferQueueRequest) (i : Nat)
    (c : TransferQueueRequest) (h : q[i]? = some c) (hg : c.m_gave_go_ahead = false) :
    numWaiting (q.eraseIdx i) + 1 = numWaiting q := by
  have := countP_eraseIdx_getElem (fun c => !c.m_gave_go_ahead) q i c h
  simp [hg] at this
  unfold numWaiting
  omega

/-! ## One iteration of the granting loop -/

theorem grantIteration_none (now : Int) (ok : Bool) (s s1 : PassState)
    (h : grantIteration now ok s = (s1, none)) :
    ∃ users, s1 = { s with m := { s.m with m_queue_users := users } } ∧
      (∀ k, userRec users k = userRec s.m.m_queue_users k) ∧
      ∀ c ∈ s.m.m_xfer_queue, c.m_gave_go_ahead = false →
        ¬ hasFreeSlot s.m s.uploading s.downloading c := by
  unfold grantIteration at h
  generalize hsel : selectBest s.m s.uploading s.downloading s.m.m_xfer_queue 0
    s.m.m_queue_users none = r at h
  obtain ⟨users, best⟩ := r
  cases best with
  | some b => simp at h
  | none =>
    simp at h
    refine ⟨users, h.symm, ?_, ?_⟩
    · intro k
      have := selectBest_users s.m s.uploading s.downloading s.m.m_xfer_queue 0
        s.m.m_queue_users none k
      rw [hsel] at this; exact this
    · have := (selectBest_none s.m s.uploading s.downloading s.m.m_xfer_queue 0
        s.m.m_queue_users none).1 (by rw [hsel])
      exact this.2

theorem grantIteration_some (now : Int) (ok : Bool) (s s1 : PassState) (sock : Nat)
    (h : grantIteration now ok s = (s1, some sock)) :
    ∃ users b,
      selectBest s.m s.uploading s.downloading s.m.m_xfer_queue 0 s.m.m_queue_users none
        = (users, some b) ∧
      s1 = grantSelected now ok { s with m := { s.m with m_queue_users := users } } b ∧
      sock = b.client.m_sock ∧
      (∀ k, userRec users k = userRec s.m.m_queue_users k) ∧
      s.m.m_xfer_queue[b.pos]? = some b.client ∧
      b.client.m_gave_go_ahead = false ∧
      hasFreeSlot s.m s.uploading s.downloading b.client := by
  unfold grantIteration at h
  generalize hsel : selectBest s.m s.uploading s.downloading s.m.m_xfer_queue 0
    s.m.m_queue_users none = r at h
  obtain ⟨users, best⟩ := r
  cases best with
  | none => simp at h
  | some b =>
    simp at h
    have hu : ∀ k, userRec users k = userRec s.m.m_queue_users k := by
      intro k
      have := selectBest_users s.m s.uploading s.downloading s.m.m_xfer_queue 0
        s.m.m_queue_users none k
      rw [hsel] at this; exact this
    have hb := selectBest_some s.m s.uploading s.downloading s.m.m_xfer_queue 0
      s.m.m_queue_users none b (by rw [hsel])
    rcases hb with hb | hb
    · simp at hb
    · exact ⟨users, b, rfl, h.1.symm, h.2.symm, hu, by simpa using hb.2.1, hb.2.2.1, hb.2.2.2⟩

theorem grantIteration_effect (now : Int) (ok : Bool) (s s1 : PassState) (sock : Nat)
    (h : grantIteration now ok s = (s1, some sock)) :
    ∃ b : BestClient,
      s.m.m_xfer_queue[b.pos]? = some b.client ∧
      b.client.m_gave_go_ahead = false ∧
      hasFreeSlot s.m s.uploading s.downloading b.client ∧
      sock = b.client.m_sock ∧
      s1.m.m_max_uploads = s.m.m_max_uploads ∧
      s1.m.m_max_downloads = s.m.m_max_downloads ∧
      s1.m.m_default_max_queue_age = s.m.m_default_max_queue_age ∧
      (ok = false → s1.m.m_xfer_queue = s.m.m_xfer_queue.eraseIdx b.pos ∧
        s1.uploading = s.uploading ∧ s1.downloading = s.downloading) ∧
      (ok = true →
        s1.m.m_xfer_queue = s.m.m_xfer_queue.set b.pos
          { b.client with m_gave_go_ahead := true, m_time_go_ahead := now } ∧
        s1.uploading = s.uploading + (if b.client.m_downloading then 0 else 1) ∧
        s1.downloading = s.downloading + (if b.client.m_downloading then 1 else 0)) := by
  obtain ⟨users, b, _, hs1, hsock, _, hget, hg, hfree⟩ := grantIteration_some now ok s s1 sock h
  refine ⟨b, hget, hg, hfree, hsock, ?_, ?_, ?_, ?_, ?_⟩
  · subst hs1
    cases ok <;> cases hd : b.client.m_downloading <;>
      simp [grantSelected, TransferQueueRequest.SendGoAhead, hd]
  · subst hs1
    cases ok <;> cases hd : b.client.m_downloading <;>
      simp [grantSelected, TransferQueueRequest.SendGoAhead, hd]
  · subst hs1
    cases ok <;> cases hd : b.client.m_downloading <;>
      simp [grantSelected, TransferQueueRequest.SendGoAhead, hd]
  · intro hok; subst hok; subst hs1
    simp [grantSelected, TransferQueueRequest.SendGoAhead]
  · intro hok; subst hok; subst hs1
    cases hd : b.client.m_downloading <;>
      simp [grantSelected, TransferQueueRequest.SendGoAhead, hd]

theorem grantIteration_countsAgree (now : Int) (ok : Bool) (s s1 : PassState) (r : Option Nat)
    (h : grantIteration now ok s = (s1, r)) (hc : countsAgree s) : countsAgree s1 := by
  cases r with
  | none =>
    obtain ⟨users, hs1, _, _⟩ := grantIteration_none now ok s s1 h
    subst hs1; exact hc
  | some sock =>
    obtain ⟨b, hget, hg, _, _, _, _, _, hfail, hok⟩ := grantIteration_effect now ok s s1 sock h
    unfold countsAgree at *
    cases ok with
    | false =>
      obtain ⟨hq, hu, hd⟩ := hfail rfl
      rw [hq, hu, hd, numGranted_eraseIdx _ _ _ _ hget hg, numGranted_eraseIdx _ _ _ _ hget hg]
      exact hc
    | true =>
      obtain ⟨hq, hu, hd⟩ := hok rfl
      rw [hq, hu, hd, numGranted_set _ _ _ _ _ hget hg, numGranted_set _ _ _ _ _ hget hg]
      cases hdir : b.client.m_downloading <;> simp [hc.1, hc.2]

theorem grantIteration_ceiling (now : Int) (ok : Bool) (s s1 : PassState) (r : Option Nat)
    (d : Bool) (h : grantIteration now ok s = (s1, r)) (hc : countsAgree s)
    (hpos : 0 < maxTransfers s.m d)
    (hle : (numGranted d s.m.m_xfer_queue : Int) ≤ maxTransfers s.m d) :
    maxTransfers s1.m d = maxTransfers s.m d ∧
    (numGranted d s1.m.m_xfer_queue : Int) ≤ maxTransfers s1.m d := by
  cases r with
  | none =>
    obtain ⟨users, hs1, _, _⟩ := grantIteration_none now ok s s1 h
    subst hs1; exact ⟨rfl, hle⟩
  | some sock =>
    obtain ⟨b, hget, hg, hfree, _, hmu, hmd, _, hfail, hok⟩ :=
      grantIteration_effect now ok s s1 sock h
    have hmax : maxTransfers s1.m d = maxTransfers s.m d := by
      unfold maxTransfers; rw [hmu, hmd]
    refine ⟨hmax, ?_⟩
    rw [hmax]
    cases ok with
    | false =>
      obtain ⟨hq, _, _⟩ := hfail rfl
      rw [hq, numGranted_eraseIdx _ _ _ _ hget hg]; exact hle
    | true =>
      obtain ⟨hq, _, _⟩ := hok rfl
      rw [hq, numGranted_set _ _ _ _ _ hget hg]
      unfold countsAgree at hc
      unfold hasFreeSlot at hfree
      unfold maxTransfers at *
      cases d <;> cases hdir : b.client.m_downloading <;> simp [hdir] at hfree hpos hle ⊢ <;>
        omega

theorem grantIteration_numWaiting (now : Int) (ok : Bool) (s s1 : PassState) (sock : Nat)
    (h : grantIteration now ok s = (s1, some sock)) :
    numWaiting s1.m.m_xfer_queue + 1 = numWaiting s.m.m_xfer_queue := by
  obtain ⟨b, hget, hg, _, _, _, _, _, hfail, hok⟩ := grantIteration_effect now ok s s1 sock h
  cases ok with
  | false => rw [(hfail rfl).1]; exact numWaiting_eraseIdx _ _ _ hget hg
  | true => rw [(hok rfl).1]; exact numWaiting_set _ _ _ _ hget hg

/-! ## The granting loop -/

theorem grantLoop_invariant (now : Int) (P : PassState → Prop)
    (hstep : ∀ (s s1 : PassState) (ok : Bool) (r : Option Nat),
      P s → grantIteration now ok s = (s1, r) → P s1) :
    ∀ (fuel : Nat) (sendOk : Nat → Bool) (s : PassState) (res : PassState × List Nat),
      P s → grantLoop now fuel sendOk s = some res → P res.1 := by
  intro fuel
  induction fuel with
  | zero => intro sendOk s res _ h; simp [grantLoop] at h
  | succ fuel ih =>
    intro sendOk s res hP h
    unfold grantLoop at h
    split at h
    · generalize hit : grantIteration now (sendOk 0) s = it at h
      obtain ⟨s1, r⟩ := it
      have hP1 := hstep s s1 (sendOk 0) r hP hit
      cases r with
      | none => simp at h; subst h; exact hP1
      | some sock =>
        simp only [Option.map_eq_some'] at h
        obtain ⟨res1, hres1, hres⟩ := h
        subst hres
        exact ih _ s1 res1 hP1 hres1
    · simp at h; subst h; exact hP

theorem grantLoop_total (now : Int) :
    ∀ (fuel : Nat) (sendOk : Nat → Bool) (s : PassState),
      numWaiting s.m.m_xfer_queue < fuel → ∃ res, grantLoop now fuel sendOk s = some res := by
  intro fuel
  induction fuel with
  | zero => intro sendOk s h; omega
  | succ fuel ih =>
    intro sendOk s hlt
    unfold grantLoop
    split
    · generalize hit : grantIteration now (sendOk 0) s = it
      obtain ⟨s1, r⟩ := it
      cases r with
      | none => exact ⟨_, rfl⟩
      | some sock =>
        have := grantIteration_numWaiting now (sendOk 0) s s1 sock hit
        obtain ⟨res1, hres1⟩ := ih (fun n => sendOk (n + 1)) s1 (by omega)
        exact ⟨(res1.1, sock :: res1.2), by simp [hres1]⟩
    · exact ⟨_, rfl⟩

theorem grantLoop_exit (now : Int) :
    ∀ (fuel : Nat) (sendOk : Nat → Bool) (s : PassState) (res : PassState × List Nat),
      grantLoop now fuel sendOk s = some res →
      ∀ c ∈ res.1.m.m_xfer_queue, c.m_gave_go_ahead = false →
        ¬ hasFreeSlot res.1.m res.1.uploading res.1.downloading c := by
  intro fuel
  induction fuel with
  | zero => intro sendOk s res h; simp [grantLoop] at h
  | succ fuel ih =>
    intro sendOk s res h
    unfold grantLoop at h
    split at h
    · generalize hit : grantIteration now (sendOk 0) s = it at h
      obtain ⟨s1, r⟩ := it
      cases r with
      | none =>
        simp at h; subst h
        obtain ⟨users, hs1, _, hno⟩ := grantIteration_none now (sendOk 0) s s1 hit
        subst hs1
        exact hno
      | some sock =>
        simp only [Option.map_eq_some'] at h
        obtain ⟨res1, hres1, hres⟩ := h
        subst hres
        exact ih _ s1 res1 hres1
    · rename_i hcond
      simp at h; subst h
      intro c _ _ hfree
      apply hcond
      unfold grantLoopCond
      unfold hasFreeSlot at hfree
      rcases hfree with ⟨_, h1 | h1⟩ | ⟨_, h1 | h1⟩
      · exact Or.inr (Or.inr (Or.inl h1))
      · exact Or.inr (Or.inr (Or.inr h1))
      · exact Or.inl h1
      · exact Or.inr (Or.inl h1)

/-! ## Start and end of a pass -/

@[simp] theorem startPass_xfer_queue (m : TransferQueueManager) :
    (startPass m).m.m_xfer_queue = m.m_xfer_queue := rfl

@[simp] theorem startPass_max_uploads (m : TransferQueueManager) :
    (startPass m).m.m_max_uploads = m.m_max_uploads := rfl

@[simp] theorem startPass_max_downloads (m : TransferQueueManager) :
    (startPass m).m.m_max_downloads = m.m_max_downloads := rfl

theorem startPass_countsAgree (m : TransferQueueManager) : countsAgree (startPass m) := by
  unfold countsAgree startPass
  have := countTransfers_counts m.m_xfer_queue
    (ClearTransferCounts { m with m_check_queue_timer := -1 }).m_queue_users 0 0
  simp only [zero_add] at this
  exact this

theorem examineWaiting_sublist (now up down : Int) (q : List TransferQueueRequest) :
    ∀ w : WaitScan, (examineWaiting now up down q w).1.Sublist q := by
  induction q with
  | nil => intro w; simp [examineWaiting]
  | cons c rest ih =>
    intro w
    unfold examineWaiting
    split
    · exact (ih _).cons c
    · split
      · exact (ih _).cons₂ c
      · exact (ih _).cons₂ c

theorem examineWaiting_fields (now up down : Int) (q : List TransferQueueRequest) :
    ∀ w : WaitScan,
      (examineWaiting now up down q w).2.m.m_max_uploads = w.m.m_max_uploads ∧
      (examineWaiting now up down q w).2.m.m_max_downloads = w.m.m_max_downloads ∧
      (examineWaiting now up down q w).2.m.m_default_max_queue_age = w.m.m_default_max_queue_age ∧
      (examineWaiting now up down q w).2.m.m_queue_users = w.m.m_queue_users ∧
      (examineWaiting now up down q w).2.m.m_round_robin_counter = w.m.m_round_robin_counter := by
  induction q with
  | nil => intro w; simp [examineWaiting]
  | cons c rest ih =>
    intro w
    unfold examineWaiting
    split
    · have := ih { w with m := TransferQueueChanged w.m }
      simpa using this
    · split
      · simp only []
        split
        · have := ih { m := { w.m with
              m_waiting_to_download := w.m.m_waiting_to_download + 1
              m_download_wait_time :=
                if now - c.m_time_born > w.m.m_download_wait_time then now - c.m_time_born
                else w.m.m_download_wait_time }, clients_waiting := true }
          simpa using this
        · have := ih { m := { w.m with
              m_waiting_to_upload := w.m.m_waiting_to_upload + 1
              m_upload_wait_time :=
                if now - c.m_time_born > w.m.m_upload_wait_time then now - c.m_time_born
                else w.m.m_upload_wait_time }, clients_waiting := true }
          simpa using this
      · exact ih w

theorem evictAncient_sublist (now : Int) (q : List TransferQueueRequest) :
    (evictAncient now q).1.Sublist q := by
  induction q with
  | nil => simp [evictAncient]
  | cons c rest ih =>
    unfold evictAncient
    split
    · exact List.sublist_cons_self c rest
    · exact ih.cons₂ c

theorem finishPass_sublist (now : Int) (s : PassState) :
    (finishPass now s).m_xfer_queue.Sublist s.m.m_xfer_queue := by
  unfold finishPass
  simp only []
  split
  · split
    · simp only [TransferQueueChanged_xfer_queue]
      exact (evictAncient_sublist now _).trans (examineWaiting_sublist _ _ _ _ _)
    · exact examineWaiting_sublist _ _ _ _ _
  · exact examineWaiting_sublist _ _ _ _ _

theorem finishPass_fields (now : Int) (s : PassState) :
    (finishPass now s).m_max_uploads = s.m.m_max_uploads ∧
    (finishPass now s).m_max_downloads = s.m.m_max_downloads ∧
    (finishPass now s).m_default_max_queue_age = s.m.m_default_max_queue_age ∧
    (finishPass now s).m_queue_users = s.m.m_queue_users ∧
    (finishPass now s).m_round_robin_counter = s.m.m_round_robin_counter := by
  have := examineWaiting_fields now s.uploading s.downloading s.m.m_xfer_queue
    { m := s.m, clients_waiting := false }
  unfold finishPass
  simp only []
  split
  · split <;> simpa using this
  · simpa using this

theorem numGranted_sublist (d : Bool) (q1 q2 : List TransferQueueRequest) (h : q1.Sublist q2) :
    numGranted d q1 ≤ numGranted d q2 :=
  h.countP_le _

theorem grantPhase_total (m : TransferQueueManager) (now : Int) (sendOk : Nat → Bool) :
    ∃ res, grantPhase m now sendOk = some res := by
  unfold grantPhase
  apply grantLoop_total
  have : numWaiting (startPass m).m.m_xfer_queue ≤ (startPass m).m.m_xfer_queue.length :=
    List.countP_le_length _
  omega

theorem CheckTransferQueue_total (m : TransferQueueManager) (now : Int) (sendOk : Nat → Bool) :
    ∃ res, CheckTransferQueue m now sendOk = some res := by
  obtain ⟨res, h⟩ := grantPhase_total m now sendOk
  exact ⟨(finishPass now res.1, res.2), by simp [CheckTransferQueue, h]⟩

theorem CheckTransferQueue_eq (m : TransferQueueManager) (now : Int) (sendOk : Nat → Bool)
    (res : TransferQueueManager × List Nat) (h : CheckTransferQueue m now sendOk = some res) :
    ∃ s, grantPhase m now sendOk = some (s, res.2) ∧ res.1 = finishPass now s := by
  unfold CheckTransferQueue at h
  simp only [Option.map_eq_some'] at h
  obtain ⟨r, hr, hres⟩ := h
  subst hres
  exact ⟨r.1, hr, rfl⟩

theorem grantPhase_ceiling (m : TransferQueueManager) (now : Int) (sendOk : Nat → Bool)
    (d : Bool) (res : PassState × List Nat) (h : grantPhase m now sendOk = some res)
    (hpos : 0 < maxTransfers m d)
    (hle : (numGranted d m.m_xfer_queue : Int) ≤ maxTransfers m d) :
    maxTransfers res.1.m d = maxTransfers m d ∧
    (numGranted d res.1.m.m_xfer_queue : Int) ≤ maxTransfers m d := by
  have key := grantLoop_invariant now
    (fun s => countsAgree s ∧ maxTransfers s.m d = maxTransfers m d ∧
      (numGranted d s.m.m_xfer_queue : Int) ≤ maxTransfers m d)
    (by
      intro s s1 ok r ⟨hc, hm, hl⟩ hit
      have h1 := grantIteration_countsAgree now ok s s1 r hit hc
      have h2 := grantIteration_ceiling now ok s s1 r d hit hc (by rw [hm]; exact hpos)
        (by rw [hm]; exact hl)
      exact ⟨h1, by rw [h2.1, hm], by rw [← hm, ← h2.1]; exact h2.2⟩)
    _ sendOk (startPass m) res
    ⟨startPass_countsAgree m, by simp [maxTransfers], by simpa using hle⟩ h
  exact ⟨key.2.1, key.2.2⟩

/-- Claim C1.  Take a direction (`d = true` for downloads, `false` for uploads)
whose configured ceiling is `C > 0`.  A `CheckTransferQueue` pass started with
at most `C` granted requests of that direction always returns, and ends with
at most `C` of them, whatever the outcome of each `SendGoAhead`.  Hence in
every state reachable from the empty start state through `AddRequest`,
`HandleReport` and `CheckTransferQueue` under that configuration, the number
of granted requests of the direction is at most `C`. -/
theorem granted_never_exceeds_ceiling (max_downloads max_uploads max_queue_age : Int)
    (d : Bool) (C : Int) (hC : 0 < C)
    (hcfg : (if d then max_downloads else max_uploads) = C) :
    (∀ (m : TransferQueueManager) (now : Int) (sendOk : Nat → Bool),
      maxTransfers m d = C → (numGranted d m.m_xfer_queue : Int) ≤ C →
      ∃ m1 sent, CheckTransferQueue m now sendOk = some (m1, sent) ∧
        maxTransfers m1 d = C ∧ (numGranted d m1.m_xfer_queue : Int) ≤ C) ∧
    (∀ m : TransferQueueManager, Reachable max_downloads max_uploads max_queue_age m →
      maxTransfers m d = C ∧ (numGranted d m.m_xfer_queue : Int) ≤ C) := by
  have pass : ∀ (m : TransferQueueManager) (now : Int) (sendOk : Nat → Bool)
      (res : TransferQueueManager × List Nat),
      maxTransfers m d = C → (numGranted d m.m_xfer_queue : Int) ≤ C →
      CheckTransferQueue m now sendOk = some res →
        maxTransfers res.1 d = C ∧ (numGranted d res.1.m_xfer_queue : Int) ≤ C := by
    intro m now sendOk res hm hle hres
    obtain ⟨s, hs, hfin⟩ := CheckTransferQueue_eq m now sendOk res hres
    have hg := grantPhase_ceiling m now sendOk d (s, res.2) hs (by rw [hm]; exact hC)
      (by rw [hm]; exact hle)
    have hf := finishPass_fields now s
    have hsub := numGranted_sublist d _ _ (finishPass_sublist now s)
    rw [hfin]
    constructor
    · have : maxTransfers (finishPass now s) d = maxTransfers s.m d := by
        unfold maxTransfers; rw [hf.1, hf.2.1]
      rw [this, hg.1, hm]
    · have h2 := hg.2
      rw [hm] at h2
      have : (numGranted d (finishPass now s).m_xfer_queue : Int) ≤
          (numGranted d s.m.m_xfer_queue : Int) := by exact_mod_cast hsub
      simp only [] at h2
      omega
  constructor
  · intro m now sendOk hm hle
    obtain ⟨res, hres⟩ := CheckTransferQueue_total m now sendOk
    have := pass m now sendOk res hm hle hres
    exact ⟨res.1, res.2, hres, this.1, this.2⟩
  · intro m hreach
    induction hreach with
    | init now =>
      constructor
      · simpa [maxTransfers, InitAndReconfig, TransferQueueManager.ctor] using hcfg
      · simp [numGranted, InitAndReconfig, TransferQueueManager.ctor]; omega
    | addRequest m sock fname jobid queue_user downloading now overloaded rc _ ih =>
      unfold AddRequest
      split
      · exact ih
      · split
        · exact ih
        · constructor
          · have := ih.1
            simpa [maxTransfers] using this
          · have := ih.2
            simpa [numGranted, TransferQueueRequest.ctor, List.countP_append] using this
    | handleReport m m1 sock report _ hrep ih =>
      unfold HandleReport at hrep
      split at hrep
      · simp at hrep
      · rename_i i _
        split at hrep
        · simp at hrep
        · simp at hrep
          subst hrep
          constructor
          · have := ih.1
            simpa [maxTransfers] using this
          · have hsub := numGranted_sublist d _ _ (List.eraseIdx_sublist m.m_xfer_queue i)
            have := ih.2
            simp only [TransferQueueChanged_xfer_queue]
            omega
        · simp at hrep
          subst hrep
          exact ⟨by simpa [maxTransfers, AddRecentIOStats] using ih.1,
            by simpa [AddRecentIOStats] using ih.2⟩
    | checkTransferQueue m m1 now sendOk sent _ hchk ih =>
      exact pass m now sendOk (m1, sent) ih.1 ih.2 hchk

theorem granted_never_exceeds_ceiling_witness :
    (0 : Int) < 1 ∧ (if true then (1 : Int) else 10) = 1 ∧
    ∃ m1 sent, CheckTransferQueue twoDownloads 200 (fun _ => true) = some (m1, sent) ∧
      maxTransfers m1 true = 1 ∧ (numGranted true m1.m_xfer_queue : Int) ≤ 1 :=
  ⟨by decide, by decide,
    (granted_never_exceeds_ceiling 1 10 7200 true 1 (by decide) (by decide)).1
      twoDownloads 200 (fun _ => true) (by decide) (by decide)⟩

/-- Claim C2 at a failing input.  The state `fairnessState` is reached from the
start state: bob and alice are granted one download each, alice's ends, and
both ask again.  In the next pass both waiting downloads are eligible; alice's
account has 0 running and bob's has 1, yet the first iteration of the granting
loop selects bob's request (position 2, socket 4), because his recency 1 is
lower than alice's 2. -/
theorem selection_prefers_lower_recency_over_fewer_running :
    Reachable 10 10 7200 fairnessState ∧
    (userRec (startPass fairnessState).m.m_queue_users "Dalice").running = 0 ∧
    (userRec (startPass fairnessState).m.m_queue_users "Dbob").running = 1 ∧
    (∀ c ∈ (startPass fairnessState).m.m_xfer_queue, c.m_gave_go_ahead = false →
      hasFreeSlot (startPass fairnessState).m (startPass fairnessState).uploading
        (startPass fairnessState).downloading c) ∧
    (grantIteration 200 true (startPass fairnessState)).2 = some 4 ∧
    ((selectBest (startPass fairnessState).m (startPass fairnessState).uploading
        (startPass fairnessState).downloading (startPass fairnessState).m.m_xfer_queue 0
        (startPass fairnessState).m.m_queue_users none).2.map
      (fun b => (b.pos, b.client.m_up_down_queue_user, b.best_running_count))) =
      some (2, "Dbob", 1) :=
  ⟨Reachable.addRequest _ 4 "input.dat" "4.0" "bob" true 160 false 0
    (Reachable.addRequest _ 3 "input.dat" "3.0" "alice" true 150 false 0
      (Reachable.handleReport fairGranted fairAliceDone 2 none
        (Reachable.checkTransferQueue fairQueued fairGranted 110 (fun _ => true) [1, 2]
          (Reachable.addRequest _ 2 "input.dat" "2.0" "alice" true 100 false 0
            (Reachable.addRequest _ 1 "input.dat" "1.0" "bob" true 100 false 0
              (Reachable.init 0)))
          (by decide))
        (by decide))),
   by decide⟩

/-- Claim C3 at a failing input.  Alice's recency `2 ^ 31 - 1` is smaller (older)
than bob's `2 ^ 31`, the running counts are equal, and in either queue order
the selection picks bob's request (socket 2): read as `int`, bob's recency is
negative. -/
theorem selection_compares_recency_as_signed :
    (∀ aliceFirst : Bool,
      (userRec (startPass (recencyState aliceFirst)).m.m_queue_users "Dalice").running =
        (userRec (startPass (recencyState aliceFirst)).m.m_queue_users "Dbob").running ∧
      (userRec (startPass (recencyState aliceFirst)).m.m_queue_users "Dalice").recency
        = 2147483647 ∧
      (userRec (startPass (recencyState aliceFirst)).m.m_queue_users "Dbob").recency
        = 2147483648 ∧
      (grantIteration 200 true (startPass (recencyState aliceFirst))).2 = some 2) ∧
    toInt32 2147483648 = -2147483648 := by
  decide

theorem mem_of_lookup (users : QueueUserMap) (k : String) (u : TransferQueueUser)
    (h : users.lookup k = some u) : (k, u) ∈ users := by
  induction users with
  | nil => simp at h
  | cons p rest ih =>
    obtain ⟨a, v⟩ := p
    cases hb : (k == a) with
    | true =>
      have hka : k = a := by simpa using hb
      simp [List.lookup, hb] at h
      subst hka; subst h
      exact List.mem_cons_self _ _
    | false =>
      simp [List.lookup, hb] at h
      exact List.mem_cons_of_mem _ (ih h)

theorem GetUserRec_mem (users : QueueUserMap) (k : String) :
    (k, userRec users k) ∈ (GetUserRec users k).1 :=
  mem_of_lookup _ _ _ (by rw [lookup_GetUserRec]; simp)

theorem updateUserRec_mem (users : QueueUserMap) (k : String)
    (f : TransferQueueUser → TransferQueueUser) :
    (k, f (userRec users k)) ∈ updateUserRec users k f := by
  unfold updateUserRec
  apply List.mem_map.2
  exact ⟨(k, userRec users k), GetUserRec_mem users k, by simp⟩

theorem grantPhase_maxTransfers (m : TransferQueueManager) (now : Int) (sendOk : Nat → Bool)
    (res : PassState × List Nat) (h : grantPhase m now sendOk = some res) :
    res.1.m.m_max_uploads = m.m_max_uploads ∧ res.1.m.m_max_downloads = m.m_max_downloads ∧
    res.1.m.m_default_max_queue_age = m.m_default_max_queue_age := by
  have key := grantLoop_invariant now
    (fun s => s.m.m_max_uploads = m.m_max_uploads ∧ s.m.m_max_downloads = m.m_max_downloads ∧
      s.m.m_default_max_queue_age = m.m_default_max_queue_age)
    (by
      intro s s1 ok r ⟨h1, h2, h3⟩ hit
      cases r with
      | none =>
        obtain ⟨users, hs1, _, _⟩ := grantIteration_none now ok s s1 hit
        subst hs1; exact ⟨h1, h2, h3⟩
      | some sock =>
        obtain ⟨b, _, _, _, _, hmu, hmd, hma, _, _⟩ := grantIteration_effect now ok s s1 sock hit
        exact ⟨hmu.trans h1, hmd.trans h2, hma.trans h3⟩)
    _ sendOk (startPass m) res ⟨rfl, rfl, rfl⟩ h
  exact key

/-- Claim C4.  When the ceiling of a direction (`d = true` for downloads) is
`<= 0`, every `CheckTransferQueue` pass returns and leaves no request of that
direction in the live set with `m_gave_go_ahead = false`. -/
theorem unlimited_direction_leaves_none_waiting (m : TransferQueueManager) (now : Int)
    (sendOk : Nat → Bool) (d : Bool) (hmax : maxTransfers m d ≤ 0) :
    ∃ m1 sent, CheckTransferQueue m now sendOk = some (m1, sent) ∧
      ∀ c ∈ m1.m_xfer_queue, c.m_downloading = d → c.m_gave_go_ahead = true := by
  obtain ⟨res, hres⟩ := CheckTransferQueue_total m now sendOk
  obtain ⟨s, hs, hfin⟩ := CheckTransferQueue_eq m now sendOk res hres
  refine ⟨res.1, res.2, hres, ?_⟩
  intro c hc hd
  rw [hfin] at hc
  have hcs : c ∈ s.m.m_xfer_queue := (finishPass_sublist now s).subset hc
  have hexit := grantLoop_exit now _ sendOk (startPass m) (s, res.2) hs c hcs
  obtain ⟨hmu, hmd, _⟩ := grantPhase_maxTransfers m now sendOk (s, res.2) hs
  by_contra hg
  have hg2 : c.m_gave_go_ahead = false := by simpa using hg
  apply hexit hg2
  unfold hasFreeSlot
  unfold maxTransfers at hmax
  simp only [] at hmu hmd
  cases d with
  | true =>
    left
    simp only [if_true] at hmax
    exact ⟨hd, Or.inr (by rw [hmd]; exact hmax)⟩
  | false =>
    right
    simp at hmax
    exact ⟨hd, Or.inr (by rw [hmu]; exact hmax)⟩

theorem unlimited_direction_leaves_none_waiting_witness :
    maxTransfers (sampleManager 0 1
      [sampleRequest 1 "alice" true false, sampleRequest 2 "bob" true false,
       sampleRequest 3 "bob" false false, sampleRequest 4 "bob" false false] [] 0) true ≤ 0 ∧
    ∃ m1 sent, CheckTransferQueue (sampleManager 0 1
      [sampleRequest 1 "alice" true false, sampleRequest 2 "bob" true false,
       sampleRequest 3 "bob" false false, sampleRequest 4 "bob" false false] [] 0)
        200 (fun n => decide (n ≠ 1)) = some (m1, sent) ∧
      ∀ c ∈ m1.m_xfer_queue, c.m_downloading = true → c.m_gave_go_ahead = true :=
  ⟨by decide, unlimited_direction_leaves_none_waiting _ 200 _ true (by decide)⟩

/-- Claim C5.  When `m_round_robin_counter` holds `2 ^ 32 - 1`,
`SetRoundRobinRecency(u)` leaves the counter at 0 and the recency of every
user record at 0; `u` has a record, so its recency is 0 too; and a
`CheckTransferQueue` pass run from the resulting state returns. -/
theorem recency_wraparound_clears_all (m : TransferQueueManager) (u : String) (now : Int)
    (sendOk : Nat → Bool) (hmax : m.m_round_robin_counter = 4294967295) :
    (SetRoundRobinRecency m u).m_round_robin_counter = 0 ∧
    (∀ p ∈ (SetRoundRobinRecency m u).m_queue_users, p.2.recency = 0) ∧
    (∃ p ∈ (SetRoundRobinRecency m u).m_queue_users, p.1 = u) ∧
    (userRec (SetRoundRobinRecency m u).m_queue_users u).recency = 0 ∧
    ∃ res, CheckTransferQueue (SetRoundRobinRecency m u) now sendOk = some res := by
  have hset : SetRoundRobinRecency m u =
      ClearRoundRobinRecency { m with
        m_round_robin_counter := 0
        m_queue_users := updateUserRec m.m_queue_users u (fun r => { r with recency := 0 }) } := by
    unfold SetRoundRobinRecency
    simp [hmax]
  refine ⟨?_, ?_, ?_, ?_, CheckTransferQueue_total _ now sendOk⟩
  · rw [hset]; rfl
  · rw [hset]
    intro p hp
    simp only [ClearRoundRobinRecency, List.mem_map] at hp
    obtain ⟨p0, _, hp0⟩ := hp
    subst hp0; rfl
  · rw [hset]
    simp only [ClearRoundRobinRecency]
    exact ⟨_, List.mem_map.2 ⟨_, updateUserRec_mem m.m_queue_users u _, rfl⟩, rfl⟩
  · rw [hset]
    simp only [ClearRoundRobinRecency]
    rw [userRec_map _ (fun r => { r with recency := 0 }) rfl]

theorem recency_wraparound_clears_all_witness :
    wrapState.m_round_robin_counter = 4294967295 ∧
    (SetRoundRobinRecency wrapState "Dbob").m_round_robin_counter = 0 ∧
    (∀ p ∈ (SetRoundRobinRecency wrapState "Dbob").m_queue_users, p.2.recency = 0) ∧
    (∃ p ∈ (SetRoundRobinRecency wrapState "Dbob").m_queue_users, p.1 = "Dbob") ∧
    (userRec (SetRoundRobinRecency wrapState "Dbob").m_queue_users "Dbob").recency = 0 ∧
    ∃ res, CheckTransferQueue (SetRoundRobinRecency wrapState "Dbob") 200 (fun _ => true)
      = some res :=
  ⟨by decide, recency_wraparound_clears_all wrapState "Dbob" 200 (fun _ => true) (by decide)⟩

/-! ## Account counters -/

theorem numOfUser_eq (k : String) (q : List TransferQueueRequest) :
    numOfUser k q = numRunning k q + numIdle k q := by
  unfold numOfUser numRunning numIdle
  induction q with
  | nil => rfl
  | cons c rest ih =>
    simp only [List.map_cons, List.count_cons, List.countP_cons, ih]
    cases c.m_gave_go_ahead <;> by_cases hk : c.m_up_down_queue_user = k <;> simp [hk] <;> omega

theorem countTransfers_users (q : List TransferQueueRequest) :
    ∀ (users : QueueUserMap) (up down : Int) (k : String),
      (userRec (countTransfers q users up down).1 k).running =
        (userRec users k).running + numRunning k q ∧
      (userRec (countTransfers q users up down).1 k).idle =
        (userRec users k).idle + numIdle k q ∧
      (userRec (countTransfers q users up down).1 k).recency = (userRec users k).recency := by
  induction q with
  | nil => intro users up down k; simp [countTransfers, numRunning, numIdle]
  | cons c rest ih =>
    intro users up down k
    unfold countTransfers
    cases hg : c.m_gave_go_ahead <;> cases hd : c.m_downloading <;>
      by_cases hk : k = c.m_up_down_queue_user <;>
      simp [hg, hd, ih, numRunning, numIdle, List.countP_cons, userRec_updateUserRec, hk] <;>
      first
        | omega
        | (have hk2 : ¬ c.m_up_down_queue_user = k := fun e => hk e.symm
           simp [hk2])

theorem startPass_users (m : TransferQueueManager) (k : String) :
    (userRec (startPass m).m.m_queue_users k).running = numRunning k m.m_xfer_queue ∧
    (userRec (startPass m).m.m_queue_users k).idle = numIdle k m.m_xfer_queue ∧
    (userRec (startPass m).m.m_queue_users k).recency = (userRec m.m_queue_users k).recency := by
  have h := countTransfers_users m.m_xfer_queue
    (ClearTransferCounts { m with m_check_queue_timer := -1 }).m_queue_users 0 0 k
  have hc : userRec (ClearTransferCounts { m with m_check_queue_timer := -1 }).m_queue_users k =
      { userRec m.m_queue_users k with running := 0, idle := 0 } := by
    unfold ClearTransferCounts
    exact userRec_map _ (fun u => { u with running := 0, idle := 0 }) rfl k
  rw [hc] at h
  simpa [startPass] using h

theorem SetRoundRobinRecency_users (m : TransferQueueManager) (u k : String) :
    (userRec (SetRoundRobinRecency m u).m_queue_users k).running =
      (userRec m.m_queue_users k).running ∧
    (userRec (SetRoundRobinRecency m u).m_queue_users k).idle =
      (userRec m.m_queue_users k).idle := by
  unfold SetRoundRobinRecency
  simp only []
  split
  · unfold ClearRoundRobinRecency
    simp only []
    rw [userRec_map _ (fun r => { r with recency := 0 }) rfl, userRec_updateUserRec]
    by_cases hk : k = u <;> simp [hk]
  · simp only [userRec_updateUserRec]
    by_cases hk : k = u <;> simp [hk]

theorem SetRoundRobinRecency_counter (m : TransferQueueManager) (u : String) :
    (SetRoundRobinRecency m u).m_round_robin_counter =
      (m.m_round_robin_counter + 1) % 4294967296 := by
  unfold SetRoundRobinRecency ClearRoundRobinRecency
  simp only []
  split <;> rfl

theorem map_set_same {β : Type} (f : TransferQueueRequest → β)
    (q : List TransferQueueRequest) :
    ∀ (i : Nat) (c c2 : TransferQueueRequest), q[i]? = some c → f c2 = f c →
      (q.set i c2).map f = q.map f := by
  induction q with
  | nil => intro i c c2 h; simp at h
  | cons a rest ih =>
    intro i c c2 h hf
    cases i with
    | zero => simp at h; subst h; simp [hf]
    | succ i => simp at h; simp [ih i c c2 h hf]

/-- Claim C9.  When `SendGoAhead` fails for the request selected in an iteration
of the granting loop, the live set afterwards is the one before with exactly
that request (the one at the selected position, of the socket the message was
tried on, not yet granted) removed; `uploading`, `downloading` and the
round-robin counter are as before, every user record of the map is still in
it unchanged, and `GetUserRec` returns for every key the record (recency,
running, idle) it returned before. -/
theorem failed_send_removes_only_the_selected (now : Int) (s s1 : PassState) (sock : Nat)
    (h : grantIteration now false s = (s1, some sock)) :
    (∃ pos c, s.m.m_xfer_queue[pos]? = some c ∧ c.m_sock = sock ∧ c.m_gave_go_ahead = false ∧
      s1.m.m_xfer_queue = s.m.m_xfer_queue.eraseIdx pos ∧
      s1.m.m_xfer_queue.length + 1 = s.m.m_xfer_queue.length) ∧
    s1.uploading = s.uploading ∧ s1.downloading = s.downloading ∧
    s1.m.m_round_robin_counter = s.m.m_round_robin_counter ∧
    (∀ p ∈ s.m.m_queue_users, p ∈ s1.m.m_queue_users) ∧
    (∀ k, userRec s1.m.m_queue_users k = userRec s.m.m_queue_users k) := by
  obtain ⟨users, b, hsel, hs1, hsock, hu, hget, hg, _⟩ :=
    grantIteration_some now false s s1 sock h
  subst hs1
  have hlt : b.pos < s.m.m_xfer_queue.length := by
    rcases Nat.lt_or_ge b.pos s.m.m_xfer_queue.length with h1 | h1
    · exact h1
    · rw [List.getElem?_eq_none h1] at hget; simp at hget
  refine ⟨⟨b.pos, b.client, hget, hsock.symm, hg, ?_, ?_⟩, ?_, ?_, ?_, ?_, ?_⟩
  · simp [grantSelected, TransferQueueRequest.SendGoAhead]
  · simp [grantSelected, TransferQueueRequest.SendGoAhead, List.length_eraseIdx, hlt]
    omega
  · simp [grantSelected, TransferQueueRequest.SendGoAhead]
  · simp [grantSelected, TransferQueueRequest.SendGoAhead]
  · simp [grantSelected, TransferQueueRequest.SendGoAhead]
  · intro p hp
    have hk := selectBest_keeps s.m s.uploading s.downloading s.m.m_xfer_queue 0
      s.m.m_queue_users none p hp
    rw [hsel] at hk
    simpa [grantSelected, TransferQueueRequest.SendGoAhead] using hk
  · intro k
    simp [grantSelected, TransferQueueRequest.SendGoAhead, hu]

theorem failed_send_removes_only_the_selected_witness :
    grantIteration 200 false (startPass fairnessState) =
      ((grantIteration 200 false (startPass fairnessState)).1, some 4) ∧
    (∃ pos c, (startPass fairnessState).m.m_xfer_queue[pos]? = some c ∧ c.m_sock = 4 ∧
      c.m_gave_go_ahead = false ∧
      (grantIteration 200 false (startPass fairnessState)).1.m.m_xfer_queue =
        (startPass fairnessState).m.m_xfer_queue.eraseIdx pos ∧
      (grantIteration 200 false (startPass fairnessState)).1.m.m_xfer_queue.length + 1 =
        (startPass fairnessState).m.m_xfer_queue.length) ∧
    (grantIteration 200 false (startPass fairnessState)).1.uploading =
      (startPass fairnessState).uploading ∧
    (grantIteration 200 false (startPass fairnessState)).1.downloading =
      (startPass fairnessState).downloading ∧
    (grantIteration 200 false (startPass fairnessState)).1.m.m_round_robin_counter =
      (startPass fairnessState).m.m_round_robin_counter ∧
    (∀ p ∈ (startPass fairnessState).m.m_queue_users,
      p ∈ (grantIteration 200 false (startPass fairnessState)).1.m.m_queue_users) ∧
    (∀ k, userRec (grantIteration 200 false (startPass fairnessState)).1.m.m_queue_users k =
      userRec (startPass fairnessState).m.m_queue_users k) :=
  ⟨by decide, failed_send_removes_only_the_selected 200 (startPass fairnessState) _ 4
    (by decide)⟩

theorem numOfUser_le (k : String) (q q0 : List TransferQueueRequest)
    (h : (q.map (fun c => c.m_up_down_queue_user)).Sublist
      (q0.map (fun c => c.m_up_down_queue_user))) :
    numOfUser k q ≤ numOfUser k q0 :=
  h.count_le k

theorem numIdle_pos (q : List TransferQueueRequest) (i : Nat) (c : TransferQueueRequest)
    (h : q[i]? = some c) (hg : c.m_gave_go_ahead = false) :
    0 < numIdle c.m_up_down_queue_user q := by
  unfold numIdle
  apply List.countP_pos_iff.2
  exact ⟨c, List.getElem?_mem h, by simp [hg]⟩

theorem grantSelected_ok_queue (now : Int) (s : PassState) (b : BestClient) :
    (grantSelected now true s b).m.m_xfer_queue = s.m.m_xfer_queue.set b.pos
      { b.client with m_gave_go_ahead := true, m_time_go_ahead := now } := by
  cases hd : b.client.m_downloading <;>
    simp [grantSelected, TransferQueueRequest.SendGoAhead, hd]

theorem grantSelected_ok_users (now : Int) (s : PassState) (b : BestClient) (k : String) :
    (userRec (grantSelected now true s b).m.m_queue_users k).running =
      (userRec s.m.m_queue_users k).running +
        (if k = b.client.m_up_down_queue_user then 1 else 0) ∧
    (userRec (grantSelected now true s b).m.m_queue_users k).idle =
      (if k = b.client.m_up_down_queue_user then
        (if (userRec s.m.m_queue_users k).idle = 0 then 4294967295
          else (userRec s.m.m_queue_users k).idle - 1)
       else (userRec s.m.m_queue_users k).idle) := by
  cases hd : b.client.m_downloading <;>
    by_cases hk : k = b.client.m_up_down_queue_user <;>
    simp [grantSelected, TransferQueueRequest.SendGoAhead, hd, userRec_updateUserRec, hk,
      SetRoundRobinRecency_users]

theorem grantIteration_accountsAgree (q0 : List TransferQueueRequest) (now : Int) (ok : Bool)
    (s s1 : PassState) (r : Option Nat) (h : grantIteration now ok s = (s1, r))
    (hI : accountsAgree q0 s) : accountsAgree q0 s1 := by
  cases r with
  | none =>
    obtain ⟨users, hs1, hu, _⟩ := grantIteration_none now ok s s1 h
    subst hs1
    refine ⟨?_, hI.2⟩
    intro k
    simp only [hu]
    exact hI.1 k
  | some sock =>
    obtain ⟨users, b, _, hs1, _, hu, hget, hg, _⟩ := grantIteration_some now ok s s1 sock h
    subst hs1
    cases ok with
    | false =>
      constructor
      · intro k
        have := hI.1 k
        simp only [grantSelected, TransferQueueRequest.SendGoAhead, Bool.false_eq_true,
          if_false, if_true, TransferQueueChanged_queue_users, TransferQueueChanged_xfer_queue,
          hu]
        refine ⟨?_, this.2⟩
        rw [this.1]
        have := countP_eraseIdx_getElem
          (fun c => c.m_gave_go_ahead && (c.m_up_down_queue_user == k)) s.m.m_xfer_queue
          b.pos b.client hget
        simp [hg] at this
        unfold numRunning
        omega
      · simp only [grantSelected, TransferQueueRequest.SendGoAhead, Bool.false_eq_true,
          if_false, if_true, TransferQueueChanged_xfer_queue]
        exact ((List.eraseIdx_sublist _ _).map _).trans hI.2
    | true =>
      have hidle : 0 < (userRec s.m.m_queue_users b.client.m_up_down_queue_user).idle := by
        have h1 := hI.1 b.client.m_up_down_queue_user
        have h2 := numOfUser_le b.client.m_up_down_queue_user _ _ hI.2
        have h3 := numOfUser_eq b.client.m_up_down_queue_user s.m.m_xfer_queue
        have h4 := numIdle_pos s.m.m_xfer_queue b.pos b.client hget hg
        omega
      constructor
      · intro k
        have hk0 := hI.1 k
        obtain ⟨hr, hi⟩ := grantSelected_ok_users now
          { s with m := { s.m with m_queue_users := users } } b k
        simp only [hu] at hr hi
        have hcnt := countP_set_getElem
          (fun c => c.m_gave_go_ahead && (c.m_up_down_queue_user == k)) s.m.m_xfer_queue
          b.pos b.client { b.client with m_gave_go_ahead := true, m_time_go_ahead := now } hget
        rw [hr, hi, grantSelected_ok_queue]
        unfold numRunning at *
        by_cases hk : k = b.client.m_up_down_queue_user
        · subst hk
          simp [hg] at hcnt
          simp only [if_true]
          have hne : (userRec s.m.m_queue_users b.client.m_up_down_queue_user).idle ≠ 0 := by
            omega
          simp only [hne, if_false]
          omega
        · have hk2 : ¬ b.client.m_up_down_queue_user = k := fun e => hk e.symm
          simp [hg, hk2] at hcnt
          simp only [hk, if_false]
          omega
      · rw [grantSelected_ok_queue]
        rw [map_set_same (fun c => c.m_up_down_queue_user) s.m.m_xfer_queue b.pos b.client
          { b.client with m_gave_go_ahead := true, m_time_go_ahead := now } hget rfl]
        exact hI.2

theorem startPass_accountsAgree (m : TransferQueueManager) :
    accountsAgree m.m_xfer_queue (startPass m) := by
  refine ⟨?_, by simp⟩
  intro k
  obtain ⟨h1, h2, _⟩ := startPass_users m k
  rw [h1, h2, numOfUser_eq]
  exact ⟨rfl, rfl⟩

theorem numRunning_sublist (k : String) (q1 q2 : List TransferQueueRequest)
    (h : q1.Sublist q2) : numRunning k q1 ≤ numRunning k q2 :=
  h.countP_le _

theorem numIdle_sublist (k : String) (q1 q2 : List TransferQueueRequest)
    (h : q1.Sublist q2) : numIdle k q1 ≤ numIdle k q2 :=
  h.countP_le _

theorem grantPhase_accountsAgree (m : TransferQueueManager) (now : Int) (sendOk : Nat → Bool)
    (res : PassState × List Nat) (h : grantPhase m now sendOk = some res) :
    accountsAgree m.m_xfer_queue res.1 :=
  grantLoop_invariant now (accountsAgree m.m_xfer_queue)
    (fun s s1 ok r hI hit => grantIteration_accountsAgree _ now ok s s1 r hit hI)
    _ sendOk (startPass m) res (startPass_accountsAgree m) h

/-- Claim C6, refuted as stated.  A pass over the single waiting download of
alice in which `SendGoAhead` fails removes the request, yet ends with
`idle = 1` in alice's record while no waiting request of hers is in the live
set. -/
theorem idle_count_stale_after_failed_send :
    ∃ m1 sent, CheckTransferQueue oneDownload 200 (fun _ => false) = some (m1, sent) ∧
      m1.m_xfer_queue = [] ∧
      (userRec m1.m_queue_users "Dalice").idle = 1 ∧
      numIdle "Dalice" m1.m_xfer_queue = 0 := by
  refine ⟨(CheckTransferQueue oneDownload 200 (fun _ => false)).get (by decide)|>.1,
    (CheckTransferQueue oneDownload 200 (fun _ => false)).get (by decide)|>.2, ?_, ?_, ?_, ?_⟩ <;>
    decide

/-- Claim C6, amended.  Every `CheckTransferQueue` pass returns, and at its end,
for every account key `k`: `running(k) + idle(k)` is the number of requests
with key `k` in the live set at the start of the pass; `running(k)` is at least
the number of granted and `idle(k)` at least the number of waiting requests
with key `k` in the live set at the end; and both are equal to those numbers
when no request was removed during the pass. -/
theorem account_counts_after_pass (m : TransferQueueManager) (now : Int)
    (sendOk : Nat → Bool) :
    ∃ m1 sent, CheckTransferQueue m now sendOk = some (m1, sent) ∧
      ∀ k,
        (userRec m1.m_queue_users k).running + (userRec m1.m_queue_users k).idle
          = numOfUser k m.m_xfer_queue ∧
        numRunning k m1.m_xfer_queue ≤ (userRec m1.m_queue_users k).running ∧
        numIdle k m1.m_xfer_queue ≤ (userRec m1.m_queue_users k).idle ∧
        (m1.m_xfer_queue.length = m.m_xfer_queue.length →
          (userRec m1.m_queue_users k).running = numRunning k m1.m_xfer_queue ∧
          (userRec m1.m_queue_users k).idle = numIdle k m1.m_xfer_queue) := by
  obtain ⟨res, hres⟩ := CheckTransferQueue_total m now sendOk
  obtain ⟨s, hs, hfin⟩ := CheckTransferQueue_eq m now sendOk res hres
  refine ⟨res.1, res.2, hres, ?_⟩
  intro k
  obtain ⟨hacc, hkeys⟩ := grantPhase_accountsAgree m now sendOk (s, res.2) hs
  simp only [] at hacc hkeys
  have husers := (finishPass_fields now s).2.2.2.1
  have hsub := finishPass_sublist now s
  rw [hfin, husers]
  obtain ⟨hrun, hsum⟩ := hacc k
  have h1 := numRunning_sublist k _ _ hsub
  have h2 := numIdle_sublist k _ _ hsub
  have h3 := numOfUser_eq k s.m.m_xfer_queue
  have h4 := numOfUser_le k _ _ hkeys
  refine ⟨hsum, by omega, by omega, ?_⟩
  intro hlen
  have hl1 := hsub.length_le
  have hl2 := hkeys.length_le
  simp only [List.length_map] at hl2
  have e1 : (finishPass now s).m_xfer_queue = s.m.m_xfer_queue :=
    hsub.eq_of_length (by omega)
  have e2 : s.m.m_xfer_queue.map (fun c => c.m_up_down_queue_user) =
      m.m_xfer_queue.map (fun c => c.m_up_down_queue_user) :=
    hkeys.eq_of_length (by simp only [List.length_map]; omega)
  have e3 : numOfUser k s.m.m_xfer_queue = numOfUser k m.m_xfer_queue := by
    unfold numOfUser; rw [e2]
  rw [e1]
  omega

/-! ## The scans after the granting loop -/

theorem examineWaiting_keep (now up down : Int) (q : List TransferQueueRequest)
    (h : ∀ c ∈ q, c.m_gave_go_ahead = false →
      ¬ ((c.m_downloading = true ∧ down = 0) ∨ (c.m_downloading = false ∧ up = 0))) :
    ∀ w : WaitScan,
      (examineWaiting now up down q w).1 = q ∧
      (examineWaiting now up down q w).2.clients_waiting =
        (w.clients_waiting || q.any (fun c => !c.m_gave_go_ahead)) := by
  induction q with
  | nil => intro w; simp [examineWaiting]
  | cons c rest ih =>
    intro w
    have ih2 := ih (fun c2 hc2 => h c2 (List.mem_cons_of_mem _ hc2))
    unfold examineWaiting
    split
    · rename_i hcond
      exact absurd hcond.2 (h c (List.mem_cons_self _ _) hcond.1)
    · split
      · rename_i hg
        simp only []
        split <;> simp [ih2, hg]
      · rename_i hg
        have hg2 : c.m_gave_go_ahead = true := by simpa using hg
        simp [ih2, hg2]

theorem grantPhase_no_policy_eviction (m : TransferQueueManager) (now : Int)
    (sendOk : Nat → Bool) (res : PassState × List Nat)
    (h : grantPhase m now sendOk = some res) :
    ∀ c ∈ res.1.m.m_xfer_queue, c.m_gave_go_ahead = false →
      ¬ ((c.m_downloading = true ∧ res.1.downloading = 0) ∨
         (c.m_downloading = false ∧ res.1.uploading = 0)) := by
  intro c hc hg hcond
  have hexit := grantLoop_exit now _ sendOk (startPass m) res h c hc hg
  apply hexit
  unfold hasFreeSlot
  rcases hcond with ⟨hd, h0⟩ | ⟨hd, h0⟩
  · left
    refine ⟨hd, ?_⟩
    rw [h0]
    omega
  · right
    refine ⟨hd, ?_⟩
    rw [h0]
    omega

theorem evictAncient_first (now : Int) (q : List TransferQueueRequest) :
    ∀ (i : Nat) (c : TransferQueueRequest), q[i]? = some c → isAncient now c →
      (∀ j c2, j < i → q[j]? = some c2 → ¬ isAncient now c2) →
      evictAncient now q = (q.eraseIdx i, true) := by
  induction q with
  | nil => intro i c h; simp at h
  | cons a rest ih =>
    intro i c h hanc hfirst
    cases i with
    | zero =>
      simp at h; subst h
      simp [evictAncient, hanc]
    | succ i =>
      simp at h
      have ha : ¬ isAncient now a := hfirst 0 a (by omega) (by simp)
      have := ih i c h hanc (fun j c2 hj hget => hfirst (j + 1) c2 (by omega) (by simpa using hget))
      simp [evictAncient, ha, this]

/-- Claim C8.  Take a pass whose granting loop ends in state `s` with some
request still waiting, and let `c`, at position `i` of the live set, be the
first granted request with `m_max_queue_age > 0` and
`now - m_time_go_ahead > m_max_queue_age`.  Then the pass ends with the live
set of `s` less exactly the element at position `i`: one request is evicted,
and the number of qualifying requests left is one less than before. -/
theorem stale_scan_evicts_first_ancient_only (m : TransferQueueManager) (now : Int)
    (sendOk : Nat → Bool) (s : PassState) (sent : List Nat)
    (hs : grantPhase m now sendOk = some (s, sent))
    (w : TransferQueueRequest) (hw : w ∈ s.m.m_xfer_queue) (hwg : w.m_gave_go_ahead = false)
    (i : Nat) (c : TransferQueueRequest) (hi : s.m.m_xfer_queue[i]? = some c)
    (hanc : c.m_gave_go_ahead = true ∧ 0 < c.m_max_queue_age ∧
      now - c.m_time_go_ahead > c.m_max_queue_age)
    (hfirst : ∀ j c2, j < i → s.m.m_xfer_queue[j]? = some c2 →
      ¬ (c2.m_gave_go_ahead = true ∧ 0 < c2.m_max_queue_age ∧
        now - c2.m_time_go_ahead > c2.m_max_queue_age)) :
    ∃ m1, CheckTransferQueue m now sendOk = some (m1, sent) ∧
      m1.m_xfer_queue = s.m.m_xfer_queue.eraseIdx i ∧
      m1.m_xfer_queue.length + 1 = s.m.m_xfer_queue.length ∧
      m1.m_xfer_queue.countP (fun r => decide (isAncient now r)) + 1 =
        s.m.m_xfer_queue.countP (fun r => decide (isAncient now r)) := by
  have hkeep := examineWaiting_keep now s.uploading s.downloading s.m.m_xfer_queue
    (grantPhase_no_policy_eviction m now sendOk (s, sent) hs)
    { m := s.m, clients_waiting := false }
  have hcw : (examineWaiting now s.uploading s.downloading s.m.m_xfer_queue
      { m := s.m, clients_waiting := false }).2.clients_waiting = true := by
    rw [hkeep.2]
    simp only [Bool.false_or, List.any_eq_true]
    exact ⟨w, hw, by simp [hwg]⟩
  have hev := evictAncient_first now s.m.m_xfer_queue i c hi hanc hfirst
  have hq : (finishPass now s).m_xfer_queue = s.m.m_xfer_queue.eraseIdx i := by
    unfold finishPass
    simp only [hcw, hkeep.1, hev, if_true, TransferQueueChanged_xfer_queue]
  have hlt : i < s.m.m_xfer_queue.length := by
    rcases Nat.lt_or_ge i s.m.m_xfer_queue.length with h1 | h1
    · exact h1
    · rw [List.getElem?_eq_none h1] at hi; simp at hi
  refine ⟨finishPass now s, by simp [CheckTransferQueue, hs], hq, ?_, ?_⟩
  · rw [hq, List.length_eraseIdx]; simp [hlt]; omega
  · rw [hq]
    have := countP_eraseIdx_getElem (fun r => decide (isAncient now r)) s.m.m_xfer_queue i c hi
    have hc : isAncient now c := hanc
    simpa [hc] using this

theorem stale_scan_evicts_first_ancient_only_witness :
    ∃ m1, CheckTransferQueue ancientState 8000 (fun _ => true) = some (m1, []) ∧
      m1.m_xfer_queue = (startPass ancientState).m.m_xfer_queue.eraseIdx 0 ∧
      m1.m_xfer_queue.length + 1 = (startPass ancientState).m.m_xfer_queue.length ∧
      m1.m_xfer_queue.countP (fun r => decide (isAncient 8000 r)) + 1 =
        (startPass ancientState).m.m_xfer_queue.countP (fun r => decide (isAncient 8000 r)) :=
  stale_scan_evicts_first_ancient_only ancientState 8000 (fun _ => true)
    (startPass ancientState) [] (by decide)
    (sampleRequest 3 "carol" true false) (by decide) (by decide)
    0 (sampleRequest 1 "alice" true true) (by decide) (by decide)
    (fun j c2 hj => absurd hj (Nat.not_lt_zero j))

theorem selectBest_keep (m : TransferQueueManager) (up down : Int) (b : BestClient)
    (rest : List TransferQueueRequest) :
    ∀ (pos : Nat) (users : QueueUserMap),
      (∀ c ∈ rest, c.m_gave_go_ahead = false → hasFreeSlot m up down c →
        thisClientIsBetter (some b) c (userRec users c.m_up_down_queue_user).running
          (toInt32 (userRec users c.m_up_down_queue_user).recency) = false) →
      (selectBest m up down rest pos users (some b)).2 = some b := by
  induction rest with
  | nil => intro pos users _; simp [selectBest]
  | cons c rest ih =>
    intro pos users h
    have hrest : ∀ users2 : QueueUserMap, (∀ k, userRec users2 k = userRec users k) →
        (selectBest m up down rest (pos + 1) users2 (some b)).2 = some b := by
      intro users2 hu
      apply ih
      intro c2 hc2 hg hf
      rw [hu]
      exact h c2 (List.mem_cons_of_mem _ hc2) hg hf
    unfold selectBest
    split
    · exact hrest users (fun _ => rfl)
    · rename_i hg
      split
      · rename_i hf
        have := h c (List.mem_cons_self _ _) (by simpa using hg) hf
        unfold userRec at this
        simp only [this, Bool.false_eq_true, if_false]
        exact hrest _ (fun k => userRec_GetUserRec users c.m_up_down_queue_user k)
      · exact hrest users (fun _ => rfl)

theorem grantIteration_no_candidate (now : Int) (ok : Bool) (s : PassState)
    (h : ∀ c ∈ s.m.m_xfer_queue, c.m_gave_go_ahead = false →
      ¬ hasFreeSlot s.m s.uploading s.downloading c) :
    (grantIteration now ok s).2 = none ∧
    (grantIteration now ok s).1.m.m_xfer_queue = s.m.m_xfer_queue ∧
    (grantIteration now ok s).1.uploading = s.uploading ∧
    (grantIteration now ok s).1.downloading = s.downloading ∧
    (grantIteration now ok s).1.m.m_max_uploads = s.m.m_max_uploads ∧
    (grantIteration now ok s).1.m.m_max_downloads = s.m.m_max_downloads := by
  have hsel := (selectBest_none s.m s.uploading s.downloading s.m.m_xfer_queue 0
    s.m.m_queue_users none).2 ⟨rfl, h⟩
  unfold grantIteration
  generalize selectBest s.m s.uploading s.downloading s.m.m_xfer_queue 0
    s.m.m_queue_users none = r at hsel
  obtain ⟨users, best⟩ := r
  simp only [] at hsel
  subst hsel
  simp

theorem grantLoop_no_candidate (now : Int) (fuel : Nat) (sendOk : Nat → Bool) (s : PassState)
    (h : ∀ c ∈ s.m.m_xfer_queue, c.m_gave_go_ahead = false →
      ¬ hasFreeSlot s.m s.uploading s.downloading c) :
    ∃ s1, grantLoop now (fuel + 1) sendOk s = some (s1, []) ∧
      s1.m.m_xfer_queue = s.m.m_xfer_queue ∧ s1.uploading = s.uploading ∧
      s1.downloading = s.downloading ∧ s1.m.m_max_uploads = s.m.m_max_uploads ∧
      s1.m.m_max_downloads = s.m.m_max_downloads := by
  unfold grantLoop
  split
  · have hit := grantIteration_no_candidate now (sendOk 0) s h
    generalize grantIteration now (sendOk 0) s = it at hit
    obtain ⟨s1, r⟩ := it
    simp only [] at hit
    obtain ⟨hr, hrest⟩ := hit
    subst hr
    exact ⟨s1, rfl, hrest⟩
  · exact ⟨s, rfl, rfl, rfl, rfl, rfl, rfl⟩

theorem evictAncient_none (now : Int) (q : List TransferQueueRequest)
    (h : ∀ c ∈ q, ¬ isAncient now c) : evictAncient now q = (q, false) := by
  induction q with
  | nil => rfl
  | cons c rest ih =>
    have hc := h c (List.mem_cons_self _ _)
    have := ih (fun c2 hc2 => h c2 (List.mem_cons_of_mem _ hc2))
    simp [evictAncient, hc, this]

theorem grantSelected_ok_counts (now : Int) (s : PassState) (b : BestClient) :
    (grantSelected now true s b).uploading =
      s.uploading + (if b.client.m_downloading then 0 else 1) ∧
    (grantSelected now true s b).downloading =
      s.downloading + (if b.client.m_downloading then 1 else 0) ∧
    (grantSelected now true s b).m.m_max_uploads = s.m.m_max_uploads ∧
    (grantSelected now true s b).m.m_max_downloads = s.m.m_max_downloads := by
  cases hd : b.client.m_downloading <;>
    simp [grantSelected, TransferQueueRequest.SendGoAhead, hd]

theorem numGranted_of_waiting (d : Bool) (q : List TransferQueueRequest)
    (h : ∀ c ∈ q, c.m_gave_go_ahead = false) : numGranted d q = 0 := by
  unfold numGranted
  rw [List.countP_eq_zero]
  intro c hc
  simp [h c hc]

theorem numRunning_of_waiting (k : String) (q : List TransferQueueRequest)
    (h : ∀ c ∈ q, c.m_gave_go_ahead = false) : numRunning k q = 0 := by
  unfold numRunning
  rw [List.countP_eq_zero]
  intro c hc
  simp [h c hc]

theorem pass_grants_head (m : TransferQueueManager) (now : Int) (sendOk : Nat → Bool)
    (A : TransferQueueRequest) (rest : List TransferQueueRequest)
    (hq : m.m_xfer_queue = A :: rest) (hmax : m.m_max_downloads = 1)
    (hA : A.m_gave_go_ahead = false) (hAd : A.m_downloading = true)
    (hrest : ∀ c ∈ rest, c.m_gave_go_ahead = false ∧ c.m_downloading = true ∧
      toInt32 (userRec m.m_queue_users A.m_up_down_queue_user).recency ≤
        toInt32 (userRec m.m_queue_users c.m_up_down_queue_user).recency)
    (hok : sendOk 0 = true) :
    ∃ m1, CheckTransferQueue m now sendOk = some (m1, [A.m_sock]) ∧
      m1.m_xfer_queue = { A with m_gave_go_ahead := true, m_time_go_ahead := now } :: rest ∧
      m1.m_max_downloads = 1 := by
  have hwait : ∀ c ∈ m.m_xfer_queue, c.m_gave_go_ahead = false := by
    rw [hq]
    intro c hc
    rcases List.mem_cons.1 hc with h1 | h1
    · rw [h1]; exact hA
    · exact (hrest c h1).1
  have hs0q : (startPass m).m.m_xfer_queue = A :: rest := by simp [hq]
  obtain ⟨hup0, hdown0⟩ := startPass_countsAgree m
  rw [startPass_xfer_queue, numGranted_of_waiting _ _ hwait] at hup0 hdown0
  simp only [Nat.cast_zero] at hup0 hdown0
  have hrun0 : ∀ k, (userRec (startPass m).m.m_queue_users k).running = 0 := by
    intro k
    rw [(startPass_users m k).1, numRunning_of_waiting _ _ hwait]
  have hrec0 : ∀ k, (userRec (startPass m).m.m_queue_users k).recency =
      (userRec m.m_queue_users k).recency := fun k => (startPass_users m k).2.2
  have hfreeA : hasFreeSlot (startPass m).m (startPass m).uploading (startPass m).downloading A := by
    unfold hasFreeSlot
    left
    refine ⟨hAd, Or.inl ?_⟩
    rw [hdown0, startPass_max_downloads, hmax]
    decide
  -- the selection scan keeps the head of the queue
  have hsel : (selectBest (startPass m).m (startPass m).uploading (startPass m).downloading
      (startPass m).m.m_xfer_queue 0 (startPass m).m.m_queue_users none).2 =
      some { pos := 0, client := A
             best_running_count :=
               (userRec (startPass m).m.m_queue_users A.m_up_down_queue_user).running
             best_recency :=
               toInt32 (userRec (startPass m).m.m_queue_users A.m_up_down_queue_user).recency } := by
    rw [hs0q]
    unfold selectBest
    simp only [hA, Bool.false_eq_true, if_false, hfreeA, if_true, thisClientIsBetter]
    apply selectBest_keep
    intro c hc hg _
    obtain ⟨_, hcd, hcr⟩ := hrest c hc
    simp only [userRec_GetUserRec, thisClientIsBetter, hAd, hcd, ne_eq, not_true_eq_false,
      if_false]
    have e : ∀ (u : QueueUserMap) (k : String), (GetUserRec u k).2 = userRec u k :=
      fun _ _ => rfl
    simp only [e, hrun0, hrec0, gt_iff_lt, lt_self_iff_false, if_false]
    have hnot : ¬ toInt32 (userRec m.m_queue_users c.m_up_down_queue_user).recency <
        toInt32 (userRec m.m_queue_users A.m_up_down_queue_user).recency := by omega
    simp only [hnot, if_false]
  -- the first iteration grants the head
  obtain ⟨s1, hit⟩ : ∃ s1, grantIteration now true (startPass m) = (s1, some A.m_sock) ∧
      s1.m.m_xfer_queue = { A with m_gave_go_ahead := true, m_time_go_ahead := now } :: rest ∧
      s1.uploading = 0 ∧ s1.downloading = 1 ∧ s1.m.m_max_downloads = 1 := by
    unfold grantIteration
    generalize hr : selectBest (startPass m).m (startPass m).uploading (startPass m).downloading
      (startPass m).m.m_xfer_queue 0 (startPass m).m.m_queue_users none = r at hsel
    obtain ⟨users, best⟩ := r
    simp only [] at hsel
    subst hsel
    refine ⟨_, rfl, ?_, ?_, ?_, ?_⟩
    · rw [grantSelected_ok_queue]
      simp [hq]
    · rw [(grantSelected_ok_counts _ _ _).1]
      simp [hAd, hup0]
    · rw [(grantSelected_ok_counts _ _ _).2.1]
      simp [hAd, hdown0]
    · rw [(grantSelected_ok_counts _ _ _).2.2.2]
      simpa using hmax
  obtain ⟨hit, hs1q, hs1u, hs1d, hs1m⟩ := hit
  -- no candidate is left for the next iteration
  have hnone : ∀ c ∈ s1.m.m_xfer_queue, c.m_gave_go_ahead = false →
      ¬ hasFreeSlot s1.m s1.uploading s1.downloading c := by
    rw [hs1q]
    intro c hc hg
    rcases List.mem_cons.1 hc with h1 | h1
    · rw [h1] at hg; simp at hg
    · obtain ⟨_, hcd, _⟩ := hrest c h1
      unfold hasFreeSlot
      rw [hs1d, hs1m]
      simp [hcd]
  obtain ⟨s2, hloop2, hs2q, hs2u, hs2d, _, hs2m⟩ :=
    grantLoop_no_candidate now rest.length (fun n => sendOk (n + 1)) s1 hnone
  have hphase : grantPhase m now sendOk = some (s2, [A.m_sock]) := by
    unfold grantPhase
    rw [hs0q]
    simp only [List.length_cons]
    unfold grantLoop
    have hcond : grantLoopCond (startPass m) := by
      unfold grantLoopCond
      right; right; left
      rw [hdown0, startPass_max_downloads, hmax]
      decide
    simp only [hcond, if_true, hok, hit, hloop2, Option.map_some']
  -- the scans after the loop keep every request
  have hkeep := examineWaiting_keep now s2.uploading s2.downloading s2.m.m_xfer_queue
    (by
      rw [hs2q, hs1q, hs2d, hs1d]
      intro c hc hg
      rcases List.mem_cons.1 hc with h1 | h1
      · rw [h1] at hg; simp at hg
      · obtain ⟨_, hcd, _⟩ := hrest c h1
        simp [hcd])
    { m := s2.m, clients_waiting := false }
  have hanc : evictAncient now s2.m.m_xfer_queue = (s2.m.m_xfer_queue, false) := by
    apply evictAncient_none
    rw [hs2q, hs1q]
    intro c hc
    rcases List.mem_cons.1 hc with h1 | h1
    · rw [h1]
      unfold isAncient
      simp only [true_and, not_and, not_lt]
      intro hpos
      omega
    · unfold isAncient
      simp [(hrest c h1).1]
  have hfq : (finishPass now s2).m_xfer_queue = s2.m.m_xfer_queue := by
    unfold finishPass
    simp only [hkeep.1, hanc]
    split <;> simp
  refine ⟨finishPass now s2, by simp [CheckTransferQueue, hphase], ?_, ?_⟩
  · rw [hfq, hs2q, hs1q]
  · rw [(finishPass_fields now s2).2.1, hs2m, hs1m]

/-- Claim C7.  Download ceiling 1, live set `[A, B]` of two waiting downloads
whose accounts have equal recency (their running counts are recomputed by the
pass and are both 0).  A pass whose first `SendGoAhead` succeeds sends the
go-ahead to `A` alone and ends with live set `[A granted, B]`.  When `A` is
then removed (its connection reports a disconnect to `HandleReport`), the live
set is `[B]`, and the next pass, if its send succeeds, grants `B`. -/
theorem one_slot_two_downloads (m : TransferQueueManager) (now now2 : Int)
    (sendOk sendOk2 : Nat → Bool) (A B : TransferQueueRequest)
    (hq : m.m_xfer_queue = [A, B]) (hmax : m.m_max_downloads = 1)
    (hA : A.m_gave_go_ahead = false) (hAd : A.m_downloading = true)
    (hB : B.m_gave_go_ahead = false) (hBd : B.m_downloading = true)
    (hrec : (userRec m.m_queue_users A.m_up_down_queue_user).recency =
      (userRec m.m_queue_users B.m_up_down_queue_user).recency)
    (hok : sendOk 0 = true) (hok2 : sendOk2 0 = true) :
    ∃ m1, CheckTransferQueue m now sendOk = some (m1, [A.m_sock]) ∧
      m1.m_xfer_queue = [{ A with m_gave_go_ahead := true, m_time_go_ahead := now }, B] ∧
      ∃ m2, HandleReport m1 A.m_sock none = some m2 ∧ m2.m_xfer_queue = [B] ∧
        ∃ m3, CheckTransferQueue m2 now2 sendOk2 = some (m3, [B.m_sock]) ∧
          m3.m_xfer_queue = [{ B with m_gave_go_ahead := true, m_time_go_ahead := now2 }] := by
  obtain ⟨m1, h1, hq1, hmax1⟩ := pass_grants_head m now sendOk A [B] hq hmax hA hAd
    (by
      intro c hc
      have : c = B := by simpa using hc
      subst this
      exact ⟨hB, hBd, by rw [hrec]⟩)
    hok
  refine ⟨m1, h1, hq1, ?_⟩
  have hrep : HandleReport m1 A.m_sock none =
      some (TransferQueueChanged { m1 with m_xfer_queue := [B] }) := by
    unfold HandleReport
    rw [hq1]
    simp
  refine ⟨_, hrep, by simp, ?_⟩
  obtain ⟨m3, h3, hq3, _⟩ := pass_grants_head
    (TransferQueueChanged { m1 with m_xfer_queue := [B] }) now2 sendOk2 B []
    (by simp) (by simpa using hmax1) hB hBd (by intro c hc; simp at hc) hok2
  exact ⟨m3, h3, hq3⟩

theorem one_slot_two_downloads_witness :
    ∃ m1, CheckTransferQueue twoDownloads 200 (fun _ => true) = some (m1, [1]) ∧
      m1.m_xfer_queue = [{ sampleRequest 1 "alice" true false with
          m_gave_go_ahead := true, m_time_go_ahead := 200 }, sampleRequest 2 "bob" true false] ∧
      ∃ m2, HandleReport m1 1 none = some m2 ∧
        m2.m_xfer_queue = [sampleRequest 2 "bob" true false] ∧
        ∃ m3, CheckTransferQueue m2 300 (fun _ => true) = some (m3, [2]) ∧
          m3.m_xfer_queue = [{ sampleRequest 2 "bob" true false with
            m_gave_go_ahead := true, m_time_go_ahead := 300 }] :=
  one_slot_two_downloads twoDownloads 200 300 (fun _ => true) (fun _ => true)
    (sampleRequest 1 "alice" true false) (sampleRequest 2 "bob" true false)
    (by decide) (by decide) (by decide) (by decide) (by decide) (by decide) (by decide)
    (by decide) (by decide)

/-! ## Admission messages -/

theorem mem_set_cases (q : List TransferQueueRequest) :
    ∀ (i : Nat) (c2 x : TransferQueueRequest), x ∈ q.set i c2 → x = c2 ∨ x ∈ q.eraseIdx i := by
  induction q with
  | nil => intro i c2 x h; simp at h
  | cons a rest ih =>
    intro i c2 x h
    cases i with
    | zero =>
      simp only [List.set_cons_zero, List.mem_cons] at h
      rcases h with h | h
      · exact Or.inl h
      · exact Or.inr (by simpa using h)
    | succ i =>
      simp only [List.set_cons_succ, List.mem_cons] at h
      rcases h with h | h
      · exact Or.inr (by simp [h])
      · rcases ih i c2 x h with h1 | h1
        · exact Or.inl h1
        · exact Or.inr (by simp [h1])

theorem sock_ne_of_mem_eraseIdx (q : List TransferQueueRequest) :
    ∀ (i : Nat) (c x : TransferQueueRequest),
      (q.map (fun r => r.m_sock)).Nodup → q[i]? = some c → x ∈ q.eraseIdx i →
      x ∈ q ∧ x.m_sock ≠ c.m_sock := by
  induction q with
  | nil => intro i c x _ h; simp at h
  | cons a rest ih =>
    intro i c x hnd hget hx
    simp only [List.map_cons, List.nodup_cons, List.mem_map, not_exists, not_and] at hnd
    cases i with
    | zero =>
      simp at hget; subst hget
      simp only [List.eraseIdx_cons_zero] at hx
      exact ⟨List.mem_cons_of_mem _ hx, fun e => hnd.1 x hx e⟩
    | succ i =>
      simp at hget
      simp only [List.eraseIdx_cons_succ, List.mem_cons] at hx
      rcases hx with hx | hx
      · subst hx
        exact ⟨List.mem_cons_self _ _, fun e => hnd.1 c (List.getElem?_mem hget) e.symm⟩
      · have := ih i c x hnd.2 hget hx
        exact ⟨List.mem_cons_of_mem _ this.1, this.2⟩

theorem grantIteration_socks (now : Int) (ok : Bool) (s s1 : PassState) (sock : Nat)
    (h : grantIteration now ok s = (s1, some sock))
    (hnd : (s.m.m_xfer_queue.map (fun r => r.m_sock)).Nodup) :
    (∃ c ∈ s.m.m_xfer_queue, c.m_sock = sock ∧ c.m_gave_go_ahead = false) ∧
    (s1.m.m_xfer_queue.map (fun r => r.m_sock)).Sublist
      (s.m.m_xfer_queue.map (fun r => r.m_sock)) ∧
    (∀ x ∈ s1.m.m_xfer_queue, x.m_gave_go_ahead = false →
      x ∈ s.m.m_xfer_queue ∧ x.m_sock ≠ sock) := by
  obtain ⟨b, hget, hg, _, hsock, _, _, _, hfail, hok⟩ := grantIteration_effect now ok s s1 sock h
  refine ⟨⟨b.client, List.getElem?_mem hget, hsock.symm, hg⟩, ?_, ?_⟩
  · cases ok with
    | false =>
      rw [(hfail rfl).1]
      exact (List.eraseIdx_sublist _ _).map _
    | true =>
      rw [(hok rfl).1, map_set_same (fun r => r.m_sock) s.m.m_xfer_queue b.pos b.client
        { b.client with m_gave_go_ahead := true, m_time_go_ahead := now } hget rfl]
  · intro x hx hxg
    rw [hsock]
    cases ok with
    | false =>
      rw [(hfail rfl).1] at hx
      exact sock_ne_of_mem_eraseIdx _ _ _ _ hnd hget hx
    | true =>
      rw [(hok rfl).1] at hx
      rcases mem_set_cases _ _ _ _ hx with h1 | h1
      · rw [h1] at hxg; simp at hxg
      · exact sock_ne_of_mem_eraseIdx _ _ _ _ hnd hget h1

theorem grantLoop_socks (now : Int) :
    ∀ (fuel : Nat) (sendOk : Nat → Bool) (s : PassState) (res : PassState × List Nat),
      grantLoop now fuel sendOk s = some res →
      (s.m.m_xfer_queue.map (fun r => r.m_sock)).Nodup →
      (∀ sock ∈ res.2, ∃ c ∈ s.m.m_xfer_queue, c.m_sock = sock ∧ c.m_gave_go_ahead = false) ∧
      res.2.Nodup ∧
      (res.1.m.m_xfer_queue.map (fun r => r.m_sock)).Sublist
        (s.m.m_xfer_queue.map (fun r => r.m_sock)) ∧
      (∀ x ∈ res.1.m.m_xfer_queue, x.m_gave_go_ahead = false →
        x ∈ s.m.m_xfer_queue ∧ x.m_sock ∉ res.2) := by
  intro fuel
  induction fuel with
  | zero => intro sendOk s res h; simp [grantLoop] at h
  | succ fuel ih =>
    intro sendOk s res h hnd
    unfold grantLoop at h
    split at h
    · generalize hit : grantIteration now (sendOk 0) s = it at h
      obtain ⟨s1, r⟩ := it
      cases r with
      | none =>
        simp at h; subst h
        obtain ⟨users, hs1, _, _⟩ := grantIteration_none now (sendOk 0) s s1 hit
        subst hs1
        exact ⟨by simp, by simp, List.Sublist.refl _, fun x hx _ => ⟨hx, by simp⟩⟩
      | some sock =>
        simp only [Option.map_eq_some'] at h
        obtain ⟨res1, hres1, hres⟩ := h
        subst hres
        obtain ⟨hc, hsub, hwait⟩ := grantIteration_socks now (sendOk 0) s s1 sock hit hnd
        obtain ⟨i1, i2, i3, i4⟩ := ih _ s1 res1 hres1 (hnd.sublist hsub)
        refine ⟨?_, ?_, i3.trans hsub, ?_⟩
        · intro sk hsk
          rcases List.mem_cons.1 hsk with h1 | h1
          · rw [h1]; exact hc
          · obtain ⟨c1, hc1, hs, hg⟩ := i1 sk h1
            exact ⟨c1, (hwait c1 hc1 hg).1, hs, hg⟩
        · refine List.nodup_cons.2 ⟨?_, i2⟩
          intro hmem
          obtain ⟨c1, hc1, hs, hg⟩ := i1 sock hmem
          exact (hwait c1 hc1 hg).2 hs
        · intro x hx hxg
          obtain ⟨hx1, hx2⟩ := i4 x hx hxg
          obtain ⟨hx3, hx4⟩ := hwait x hx1 hxg
          refine ⟨hx3, ?_⟩
          intro hmem
          rcases List.mem_cons.1 hmem with h1 | h1
          · exact hx4 h1
          · exact hx2 h1
    · simp at h; subst h
      exact ⟨by simp, by simp, List.Sublist.refl _, fun x hx _ => ⟨hx, by simp⟩⟩

theorem CheckTransferQueue_socks (m m1 : TransferQueueManager) (now : Int)
    (sendOk : Nat → Bool) (sent : List Nat)
    (h : CheckTransferQueue m now sendOk = some (m1, sent))
    (hnd : (m.m_xfer_queue.map (fun r => r.m_sock)).Nodup) :
    (∀ sock ∈ sent, ∃ c ∈ m.m_xfer_queue, c.m_sock = sock ∧ c.m_gave_go_ahead = false) ∧
    sent.Nodup ∧
    (m1.m_xfer_queue.map (fun r => r.m_sock)).Sublist (m.m_xfer_queue.map (fun r => r.m_sock)) ∧
    (∀ x ∈ m1.m_xfer_queue, x.m_gave_go_ahead = false →
      x ∈ m.m_xfer_queue ∧ x.m_sock ∉ sent) := by
  obtain ⟨s, hs, hfin⟩ := CheckTransferQueue_eq m now sendOk (m1, sent) h
  simp only [] at hs hfin
  obtain ⟨i1, i2, i3, i4⟩ := grantLoop_socks now _ sendOk (startPass m) (s, sent) hs
    (by simpa using hnd)
  simp only [startPass_xfer_queue] at i1 i3 i4
  have hsub := finishPass_sublist now s
  rw [← hfin] at hsub
  exact ⟨i1, i2, (hsub.map _).trans i3, fun x hx hxg => i4 x (hsub.subset hx) hxg⟩

theorem Run_invariant (m : TransferQueueManager) (log used : List Nat) (h : Run m log used) :
    (∀ c ∈ m.m_xfer_queue, c.m_sock ∈ used) ∧
    (m.m_xfer_queue.map (fun r => r.m_sock)).Nodup ∧
    (∀ sock ∈ log, sock ∈ used) ∧
    (∀ c ∈ m.m_xfer_queue, c.m_gave_go_ahead = false → c.m_sock ∉ log) ∧
    log.Nodup := by
  induction h with
  | init now d u a =>
    simp [InitAndReconfig, TransferQueueManager.ctor]
  | addRequest m log used sock fname jobid queue_user downloading now overloaded rc _ hfresh ih =>
    obtain ⟨ja, jb, jc, jd, je⟩ := ih
    have hlog : sock ∉ log := fun hm => hfresh (jc sock hm)
    unfold AddRequest
    split
    · refine ⟨fun c hc => List.mem_cons_of_mem _ (ja c hc), jb, ?_, ?_, ?_⟩
      · intro sk hsk
        rcases List.mem_append.1 hsk with h1 | h1
        · exact List.mem_cons_of_mem _ (jc sk h1)
        · have : sk = sock := by simpa [TransferQueueRequest.ctor] using h1
          rw [this]; exact List.mem_cons_self _ _
      · intro c hc hg hmem
        rcases List.mem_append.1 hmem with h1 | h1
        · exact jd c hc hg h1
        · have : c.m_sock = sock := by simpa [TransferQueueRequest.ctor] using h1
          exact hfresh (this ▸ ja c hc)
      · simp only [TransferQueueRequest.ctor]
        exact List.Nodup.append je (by simp) (by simpa using hlog)
    · split
      · simp only [List.append_nil]
        exact ⟨fun c hc => List.mem_cons_of_mem _ (ja c hc), jb,
          fun sk hsk => List.mem_cons_of_mem _ (jc sk hsk), jd, je⟩
      · simp only [List.append_nil, TransferQueueChanged_xfer_queue]
        refine ⟨?_, ?_, fun sk hsk => List.mem_cons_of_mem _ (jc sk hsk), ?_, je⟩
        · intro c hc
          rcases List.mem_append.1 hc with h1 | h1
          · exact List.mem_cons_of_mem _ (ja c h1)
          · rw [List.mem_singleton.1 h1]
            simp [TransferQueueRequest.ctor]
        · rw [List.map_append]
          refine List.Nodup.append jb (by simp) ?_
          intro sk h1 h2
          obtain ⟨c, hc, e⟩ := List.mem_map.1 h1
          have e2 : sk = sock := by simpa [TransferQueueRequest.ctor] using h2
          rw [← e2, ← e] at hfresh
          exact hfresh (ja c hc)
        · intro c hc hg
          rcases List.mem_append.1 hc with h1 | h1
          · exact jd c h1 hg
          · rw [List.mem_singleton.1 h1]
            simpa [TransferQueueRequest.ctor] using hlog
  | handleReport m m1 log used sock report _ hrep ih =>
    obtain ⟨ja, jb, jc, jd, je⟩ := ih
    unfold HandleReport at hrep
    split at hrep
    · simp at hrep
    · rename_i i _
      split at hrep
      · simp at hrep
      · simp at hrep
        subst hrep
        have hsub := List.eraseIdx_sublist m.m_xfer_queue i
        simp only [TransferQueueChanged_xfer_queue]
        exact ⟨fun c hc => ja c (hsub.subset hc), jb.sublist (hsub.map _), jc,
          fun c hc hg => jd c (hsub.subset hc) hg, je⟩
      · simp at hrep
        subst hrep
        exact ⟨ja, jb, jc, jd, je⟩
  | checkTransferQueue m m1 log used now sendOk sent _ hchk ih =>
    obtain ⟨ja, jb, jc, jd, je⟩ := ih
    obtain ⟨p1, p2, p3, p4⟩ := CheckTransferQueue_socks m m1 now sendOk sent hchk jb
    have hsubset : ∀ c ∈ m1.m_xfer_queue, c.m_sock ∈ used := by
      intro c hc
      have : c.m_sock ∈ m1.m_xfer_queue.map (fun r => r.m_sock) :=
        List.mem_map.2 ⟨c, hc, rfl⟩
      obtain ⟨c0, hc0, e⟩ := List.mem_map.1 (p3.subset this)
      have e2 : c0.m_sock = c.m_sock := e
      rw [← e2]
      exact ja c0 hc0
    refine ⟨hsubset, jb.sublist p3, ?_, ?_, ?_⟩
    · intro sk hsk
      rcases List.mem_append.1 hsk with h1 | h1
      · exact jc sk h1
      · obtain ⟨c, hc, e, _⟩ := p1 sk h1
        exact e ▸ ja c hc
    · intro c hc hg hmem
      obtain ⟨hc0, hns⟩ := p4 c hc hg
      rcases List.mem_append.1 hmem with h1 | h1
      · exact jd c hc0 hg h1
      · exact hns h1
    · refine List.Nodup.append je p2 ?_
      intro sk hl hs
      obtain ⟨c, hc, e, hg⟩ := p1 sk hs
      exact jd c hc hg (e ▸ hl)

/-- Claim C10.  Along every run of `AddRequest`, `HandleReport` and
`CheckTransferQueue` from the start state, no connection appears twice in the
record of `SendGoAhead` calls, and no request still waiting in the live set
has been sent a message.  In a `CheckTransferQueue` pass run from such a
state, `SendGoAhead` is called only on requests of the live set that have
`m_gave_go_ahead = false`, on each at most once, and when the pass ends each
of them is either granted or no longer in the live set. -/
theorem admission_message_sent_once (m : TransferQueueManager) (log used : List Nat)
    (h : Run m log used) :
    log.Nodup ∧
    (∀ c ∈ m.m_xfer_queue, c.m_gave_go_ahead = false → c.m_sock ∉ log) ∧
    (∀ (now : Int) (sendOk : Nat → Bool) (m1 : TransferQueueManager) (sent : List Nat),
      CheckTransferQueue m now sendOk = some (m1, sent) →
      (log ++ sent).Nodup ∧
      (∀ sock ∈ sent, ∃ c ∈ m.m_xfer_queue, c.m_sock = sock ∧ c.m_gave_go_ahead = false) ∧
      (∀ sock ∈ sent, ∀ c ∈ m1.m_xfer_queue, c.m_sock = sock → c.m_gave_go_ahead = true)) := by
  obtain ⟨_, jb, _, jd, je⟩ := Run_invariant m log used h
  refine ⟨je, jd, ?_⟩
  intro now sendOk m1 sent hchk
  obtain ⟨p1, _, _, p4⟩ := CheckTransferQueue_socks m m1 now sendOk sent hchk jb
  have hnext := Run_invariant m1 (log ++ sent) used
    (Run.checkTransferQueue m m1 log used now sendOk sent h hchk)
  refine ⟨hnext.2.2.2.2, p1, ?_⟩
  intro sk hsk c hc e
  by_contra hg
  have hg2 : c.m_gave_go_ahead = false := by simpa using hg
  exact (p4 c hc hg2).2 (e ▸ hsk)

theorem admission_message_sent_once_witness :
    (([] : List Nat) ++ (AddRequest startState (TransferQueueRequest.ctor 1 "input.dat" "1.0"
        "alice" true startState.m_default_max_queue_age 100) false 0).2.2).Nodup ∧
    (∀ c ∈ (AddRequest startState (TransferQueueRequest.ctor 1 "input.dat" "1.0"
        "alice" true startState.m_default_max_queue_age 100) false 0).1.m_xfer_queue,
      c.m_gave_go_ahead = false →
      c.m_sock ∉ ([] : List Nat) ++ (AddRequest startState (TransferQueueRequest.ctor 1
        "input.dat" "1.0" "alice" true startState.m_default_max_queue_age 100) false 0).2.2) ∧
    (∀ (now : Int) (sendOk : Nat → Bool) (m1 : TransferQueueManager) (sent : List Nat),
      CheckTransferQueue (AddRequest startState (TransferQueueRequest.ctor 1 "input.dat" "1.0"
        "alice" true startState.m_default_max_queue_age 100) false 0).1 now sendOk
          = some (m1, sent) →
      ((([] : List Nat) ++ (AddRequest startState (TransferQueueRequest.ctor 1 "input.dat" "1.0"
        "alice" true startState.m_default_max_queue_age 100) false 0).2.2) ++ sent).Nodup ∧
      (∀ sock ∈ sent, ∃ c ∈ (AddRequest startState (TransferQueueRequest.ctor 1 "input.dat"
          "1.0" "alice" true startState.m_default_max_queue_age 100) false 0).1.m_xfer_queue,
        c.m_sock = sock ∧ c.m_gave_go_ahead = false) ∧
      (∀ sock ∈ sent, ∀ c ∈ m1.m_xfer_queue, c.m_sock = sock → c.m_gave_go_ahead = true)) :=
  admission_message_sent_once _ _ [1]
    (Run.addRequest startState [] [] 1 "input.dat" "1.0" "alice" true 100 false 0
      (Run.init 0 1 1 7200) (by decide))

/-! ## Reports and admission of requests -/

theorem findIdx?_none_iff (q : List TransferQueueRequest) (sock : Nat) :
    q.findIdx? (fun c => c.m_sock = sock) = none ↔ ∀ c ∈ q, c.m_sock ≠ sock := by
  simp [List.findIdx?_eq_none_iff]

theorem findIdx?_first (q : List TransferQueueRequest) (sock : Nat) :
    ∀ (i : Nat) (c : TransferQueueRequest), q[i]? = some c → c.m_sock = sock →
      (∀ j c2, j < i → q[j]? = some c2 → c2.m_sock ≠ sock) →
      q.findIdx? (fun c => decide (c.m_sock = sock)) = some i := by
  induction q with
  | nil => intro i c h; simp at h
  | cons a rest ih =>
    intro i c h hs hfirst
    cases i with
    | zero =>
      simp at h; subst h
      simp [List.findIdx?_cons, hs]
    | succ i =>
      simp at h
      have ha : a.m_sock ≠ sock := hfirst 0 a (by omega) (by simp)
      have := ih i c h hs (fun j c2 hj hget => hfirst (j + 1) c2 (by omega) (by simpa using hget))
      simp [List.findIdx?_cons, ha, this]

/-- Claim C13.  `HandleReport(sock)` ends in `EXCEPT` exactly when no request of
the live set owns `sock`.  When the first request owning it is `c`, at
position `i`, the function returns: if `ReadReport` failed, the live set loses
exactly the element at position `i`, a re-check is pending afterwards and the
user map is as before; if `ReadReport` succeeded, the live set and the timer
are as before. -/
theorem HandleReport_fatal_iff_no_owner (m : TransferQueueManager) (sock : Nat)
    (report : Option IOStats) :
    (HandleReport m sock report = none ↔ ∀ c ∈ m.m_xfer_queue, c.m_sock ≠ sock) ∧
    (∀ (i : Nat) (c : TransferQueueRequest), m.m_xfer_queue[i]? = some c → c.m_sock = sock →
      (∀ j c2, j < i → m.m_xfer_queue[j]? = some c2 → c2.m_sock ≠ sock) →
      ∃ m1, HandleReport m sock report = some m1 ∧
        (report = none →
          m1.m_xfer_queue = m.m_xfer_queue.eraseIdx i ∧
          m1.m_xfer_queue.length + 1 = m.m_xfer_queue.length ∧
          m1.m_check_queue_timer ≠ -1 ∧
          m1.m_queue_users = m.m_queue_users) ∧
        (∀ s, report = some s →
          m1 = AddRecentIOStats m s c.m_up_down_queue_user ∧
          m1.m_xfer_queue = m.m_xfer_queue ∧
          m1.m_check_queue_timer = m.m_check_queue_timer)) := by
  constructor
  · unfold HandleReport
    constructor
    · intro h
      split at h
      · rename_i hnone
        exact (findIdx?_none_iff _ _).1 hnone
      · rename_i i hsome
        have hlt := (List.findIdx?_eq_some_iff_findIdx_eq.1 hsome).1
        have hget : m.m_xfer_queue.get? i = some (m.m_xfer_queue[i]) := by
          simp [List.getElem?_eq_getElem hlt]
        rw [hget] at h
        cases report <;> simp at h
    · intro h
      rw [(findIdx?_none_iff _ _).2 h]
  · intro i c hget hs hfirst
    have hidx := findIdx?_first m.m_xfer_queue sock i c hget hs hfirst
    have hlt : i < m.m_xfer_queue.length := by
      rcases Nat.lt_or_ge i m.m_xfer_queue.length with h1 | h1
      · exact h1
      · rw [List.getElem?_eq_none h1] at hget; simp at hget
    have hget2 : m.m_xfer_queue.get? i = some c := by simpa using hget
    cases report with
    | none =>
      refine ⟨TransferQueueChanged { m with m_xfer_queue := m.m_xfer_queue.eraseIdx i }, ?_,
        ?_, ?_⟩
      · unfold HandleReport
        simp only [hidx, hget2]
      · intro _
        refine ⟨by simp, ?_, ?_, by simp⟩
        · simp only [TransferQueueChanged_xfer_queue, List.length_eraseIdx, hlt, if_true]
          omega
        · unfold TransferQueueChanged Register_Timer
          split
          · assumption
          · simp
      · intro s hs2; simp at hs2
    | some s =>
      refine ⟨AddRecentIOStats m s c.m_up_down_queue_user, ?_, ?_, ?_⟩
      · unfold HandleReport
        simp only [hidx, hget2]
      · intro h; simp at h
      · intro s2 hs2
        have : s = s2 := by simpa using hs2
        subst this
        exact ⟨rfl, rfl, rfl⟩

/-- Claim C14.  When `TooManyRegisteredSockets` reports an overload with the
description `error_desc`, `AddRequest` writes one message to the client's
socket, the denial `XFER_QUEUE_NO_GO` carrying `error_desc`, returns false,
and leaves the manager (live set, user map, re-check timer) as it was. -/
theorem AddRequest_denies_when_overloaded (m : TransferQueueManager)
    (client : TransferQueueRequest) (error_desc : String) (rc : Int) (report_interval : Int) :
    AddRequestWithMessages m client (some error_desc) rc report_interval =
      (m, false, [(client.m_sock,
        { result := XFER_QUEUE_ENUM.XFER_QUEUE_NO_GO, error_string := some error_desc,
          report_interval := report_interval })]) ∧
    AddRequest m client true rc = (m, false, [client.m_sock]) ∧
    (AddRequest m client true rc).1.m_xfer_queue = m.m_xfer_queue ∧
    (AddRequest m client true rc).1.m_queue_users = m.m_queue_users ∧
    (AddRequest m client true rc).1.m_check_queue_timer = m.m_check_queue_timer ∧
    (∀ overloaded : Option String,
      AddRequest m client overloaded.isSome rc =
        ((AddRequestWithMessages m client overloaded rc report_interval).1,
         (AddRequestWithMessages m client overloaded rc report_interval).2.1,
         (AddRequestWithMessages m client overloaded rc report_interval).2.2.map Prod.fst)) := by
  refine ⟨rfl, rfl, rfl, rfl, rfl, ?_⟩
  intro overloaded
  cases overloaded with
  | some d => rfl
  | none =>
    unfold AddRequest AddRequestWithMessages
    simp only [Option.isSome_none, Bool.false_eq_true, if_false]
    split <;> rfl

/-! ## Garbage collection of user records -/

@[simp] theorem TransferQueueChanged_garbage_time (m : TransferQueueManager) :
    (TransferQueueChanged m).m_round_robin_garbage_time = m.m_round_robin_garbage_time := by
  unfold TransferQueueChanged; split <;> rfl

@[simp] theorem SetRoundRobinRecency_garbage_time (m : TransferQueueManager) (user : String) :
    (SetRoundRobinRecency m user).m_round_robin_garbage_time = m.m_round_robin_garbage_time := by
  unfold SetRoundRobinRecency ClearRoundRobinRecency; simp only []; split <;> rfl

theorem grantSelected_garbage_time (now : Int) (ok : Bool) (s : PassState) (b : BestClient) :
    (grantSelected now ok s b).m.m_round_robin_garbage_time = s.m.m_round_robin_garbage_time := by
  cases ok <;> cases hd : b.client.m_downloading <;>
    simp [grantSelected, TransferQueueRequest.SendGoAhead, hd]

theorem grantIteration_garbage_time (now : Int) (ok : Bool) (s s1 : PassState)
    (r : Option Nat) (h : grantIteration now ok s = (s1, r)) :
    s1.m.m_round_robin_garbage_time = s.m.m_round_robin_garbage_time := by
  cases r with
  | none =>
    obtain ⟨users, hs1, _, _⟩ := grantIteration_none now ok s s1 h
    subst hs1; rfl
  | some sock =>
    obtain ⟨users, b, _, hs1, _⟩ := grantIteration_some now ok s s1 sock h
    subst hs1
    rw [grantSelected_garbage_time]

theorem examineWaiting_garbage_time (now up down : Int) (q : List TransferQueueRequest) :
    ∀ w : WaitScan,
      (examineWaiting now up down q w).2.m.m_round_robin_garbage_time =
        w.m.m_round_robin_garbage_time := by
  induction q with
  | nil => intro w; simp [examineWaiting]
  | cons c rest ih =>
    intro w
    unfold examineWaiting
    split
    · rw [ih]; simp
    · split
      · simp only []
        split <;> rw [ih]
      · exact ih w

theorem finishPass_garbage_time (now : Int) (s : PassState) :
    (finishPass now s).m_round_robin_garbage_time = s.m.m_round_robin_garbage_time := by
  have := examineWaiting_garbage_time now s.uploading s.downloading s.m.m_xfer_queue
    { m := s.m, clients_waiting := false }
  unfold finishPass
  simp only []
  split
  · split <;> simpa using this
  · simpa using this

theorem CheckTransferQueue_garbage_time (m m1 : TransferQueueManager) (now : Int)
    (sendOk : Nat → Bool) (sent : List Nat)
    (h : CheckTransferQueue m now sendOk = some (m1, sent)) :
    m1.m_round_robin_garbage_time = m.m_round_robin_garbage_time := by
  obtain ⟨s, hs, hfin⟩ := CheckTransferQueue_eq m now sendOk (m1, sent) h
  simp only [] at hs hfin
  have key := grantLoop_invariant now
    (fun s => s.m.m_round_robin_garbage_time = m.m_round_robin_garbage_time)
    (fun s s1 ok r hP hit => (grantIteration_garbage_time now ok s s1 r hit).trans hP)
    _ sendOk (startPass m) (s, sent) rfl hs
  rw [hfin, finishPass_garbage_time]
  exact key

theorem Evolves_garbage_time (m m1 : TransferQueueManager) (h : Evolves m m1) :
    m1.m_round_robin_garbage_time = m.m_round_robin_garbage_time := by
  induction h with
  | refl => rfl
  | addRequest m1 client overloaded rc _ ih =>
    rw [← ih]
    unfold AddRequest
    split
    · rfl
    · split
      · rfl
      · simp
  | handleReport m1 m2 sock report _ hrep ih =>
    rw [← ih]
    unfold HandleReport at hrep
    split at hrep
    · simp at hrep
    · split at hrep
      · simp at hrep
      · simp at hrep; subst hrep; simp
      · simp at hrep; subst hrep; rfl
  | checkTransferQueue m1 m2 now sendOk sent _ hchk ih =>
    rw [← ih]
    exact CheckTransferQueue_garbage_time m1 m2 now sendOk sent hchk

theorem castInt32_small (x : Int) (h1 : -2147483648 ≤ x) (h2 : x < 2147483648) :
    castInt32 x = x := by
  unfold castInt32
  omega

theorem Stale_iff (u : TransferQueueUser) (rates : EMARates) (stale_recency : Nat) :
    u.Stale rates stale_recency = true ↔
      (u.recency < stale_recency ∧ u.running = 0 ∧ u.idle = 0 ∧
        rates.bytes_sent ≤ 100000 ∧ rates.bytes_received ≤ 100000 ∧
        rates.file_read ≤ 0.1 ∧ rates.file_write ≤ 0.1 ∧
        rates.net_read ≤ 0.1 ∧ rates.net_write ≤ 0.1) := by
  unfold TransferQueueUser.Stale
  by_cases hc : u.recency < stale_recency ∧ u.running = 0 ∧ u.idle = 0
  · rw [if_neg (not_not.2 hc)]
    by_cases hr : rates.bytes_sent > 100000 ∨ rates.bytes_received > 100000 ∨
        rates.file_read > 0.1 ∨ rates.file_write > 0.1 ∨
        rates.net_read > 0.1 ∨ rates.net_write > 0.1
    · rw [if_pos hr]
      constructor
      · intro h; cases h
      · rintro ⟨_, _, _, r1, r2, r3, r4, r5, r6⟩
        rcases hr with h | h | h | h | h | h
        · exact absurd r1 (not_le.2 h)
        · exact absurd r2 (not_le.2 h)
        · exact absurd r3 (not_le.2 h)
        · exact absurd r4 (not_le.2 h)
        · exact absurd r5 (not_le.2 h)
        · exact absurd r6 (not_le.2 h)
    · rw [if_neg hr]
      simp only [not_or, not_lt, gt_iff_lt] at hr
      exact ⟨fun _ => ⟨hc.1, hc.2.1, hc.2.2, hr.1, hr.2.1, hr.2.2.1, hr.2.2.2.1, hr.2.2.2.2.1,
        hr.2.2.2.2.2⟩, fun _ => rfl⟩
  · rw [if_pos hc]
    constructor
    · intro h; cases h
    · rintro ⟨h1, h2, h3, _⟩
      exact absurd ⟨h1, h2, h3⟩ hc

/-- Claim C15.  When `CollectUserRecGarbage` runs a collection, the user records
left in the map are exactly those of the map before, in the same order and
unchanged, that fail one of: recency below the snapshot of the previous
collection, `running = 0`, `idle = 0`, and each peak rate within its threshold
(100000 for the two byte series, 0.1 for the four time series).  The snapshot
becomes the current counter and the collection time becomes `now`. -/
theorem garbage_collection_removes_exactly_stale (m : TransferQueueManager) (now : Int)
    (BiggestEMARate : String → EMARates) (hdue : collectionDue m now) :
    (∀ p : String × TransferQueueUser,
      p ∈ (CollectUserRecGarbage m now BiggestEMARate).m_queue_users ↔
        p ∈ m.m_queue_users ∧
        ¬ (p.2.recency < m.m_round_robin_garbage_counter ∧ p.2.running = 0 ∧ p.2.idle = 0 ∧
            (BiggestEMARate p.1).bytes_sent ≤ 100000 ∧
            (BiggestEMARate p.1).bytes_received ≤ 100000 ∧
            (BiggestEMARate p.1).file_read ≤ 0.1 ∧
            (BiggestEMARate p.1).file_write ≤ 0.1 ∧
            (BiggestEMARate p.1).net_read ≤ 0.1 ∧
            (BiggestEMARate p.1).net_write ≤ 0.1)) ∧
    (CollectUserRecGarbage m now BiggestEMARate).m_queue_users.Sublist m.m_queue_users ∧
    (CollectUserRecGarbage m now BiggestEMARate).m_round_robin_garbage_counter =
      m.m_round_robin_counter ∧
    (CollectUserRecGarbage m now BiggestEMARate).m_round_robin_garbage_time = now ∧
    (CollectUserRecGarbage m now BiggestEMARate).m_xfer_queue = m.m_xfer_queue := by
  unfold CollectUserRecGarbage
  rw [if_pos hdue]
  refine ⟨?_, List.filter_sublist _, rfl, rfl, rfl⟩
  intro p
  rw [List.mem_filter, ← Stale_iff]
  simp

theorem garbage_collection_removes_exactly_stale_witness :
    collectionDue garbageState 5000 ∧
    (∀ p : String × TransferQueueUser,
      p ∈ (CollectUserRecGarbage garbageState 5000 garbageRates).m_queue_users ↔
        p ∈ garbageState.m_queue_users ∧
        ¬ (p.2.recency < garbageState.m_round_robin_garbage_counter ∧ p.2.running = 0 ∧
            p.2.idle = 0 ∧
            (garbageRates p.1).bytes_sent ≤ 100000 ∧
            (garbageRates p.1).bytes_received ≤ 100000 ∧
            (garbageRates p.1).file_read ≤ 0.1 ∧
            (garbageRates p.1).file_write ≤ 0.1 ∧
            (garbageRates p.1).net_read ≤ 0.1 ∧
            (garbageRates p.1).net_write ≤ 0.1)) ∧
    (CollectUserRecGarbage garbageState 5000 garbageRates).m_queue_users.Sublist
      garbageState.m_queue_users ∧
    (CollectUserRecGarbage garbageState 5000 garbageRates).m_round_robin_garbage_counter =
      garbageState.m_round_robin_counter ∧
    (CollectUserRecGarbage garbageState 5000 garbageRates).m_round_robin_garbage_time = 5000 ∧
    (CollectUserRecGarbage garbageState 5000 garbageRates).m_xfer_queue =
      garbageState.m_xfer_queue :=
  ⟨by decide, garbage_collection_removes_exactly_stale garbageState 5000 garbageRates
    (by decide)⟩

/-- Claim C16.  Let a call of `CollectUserRecGarbage` at time `t` perform a
collection, and let `m` be any state reached afterwards through `AddRequest`,
`HandleReport` and `CheckTransferQueue`.  A call at a time `t2` with
`|t2 - t| <= 3600` returns `m` as it is: no record is removed, and the user
map, the recency snapshot and the collection time (still `t`) are unchanged. -/
theorem no_collection_within_the_hour (m0 : TransferQueueManager) (t : Int)
    (rates0 : String → EMARates) (hdue : collectionDue m0 t)
    (m : TransferQueueManager) (hev : Evolves (CollectUserRecGarbage m0 t rates0) m)
    (t2 : Int) (rates : String → EMARates) (hclose : |t2 - t| ≤ 3600) :
    CollectUserRecGarbage m t2 rates = m ∧
    (CollectUserRecGarbage m t2 rates).m_queue_users = m.m_queue_users ∧
    (CollectUserRecGarbage m t2 rates).m_round_robin_garbage_counter =
      m.m_round_robin_garbage_counter ∧
    (CollectUserRecGarbage m t2 rates).m_round_robin_garbage_time = t := by
  have ht0 : (CollectUserRecGarbage m0 t rates0).m_round_robin_garbage_time = t := by
    unfold CollectUserRecGarbage
    rw [if_pos hdue]
  have ht : m.m_round_robin_garbage_time = t := by
    rw [Evolves_garbage_time _ _ hev, ht0]
  have hnot : ¬ collectionDue m t2 := by
    unfold collectionDue
    rw [ht]
    obtain ⟨h1, h2⟩ := abs_le.1 hclose
    rw [castInt32_small _ (by omega) (by omega)]
    omega
  have hsame : CollectUserRecGarbage m t2 rates = m := by
    unfold CollectUserRecGarbage
    rw [if_neg hnot]
  rw [hsame]
  exact ⟨rfl, rfl, rfl, ht⟩

theorem no_collection_within_the_hour_witness :
    CollectUserRecGarbage
        (AddRequest (CollectUserRecGarbage garbageState 5000 garbageRates)
          (sampleRequest 1 "alice" true false) false 0).1 8000 (fun _ => {}) =
      (AddRequest (CollectUserRecGarbage garbageState 5000 garbageRates)
          (sampleRequest 1 "alice" true false) false 0).1 ∧
    (CollectUserRecGarbage
        (AddRequest (CollectUserRecGarbage garbageState 5000 garbageRates)
          (sampleRequest 1 "alice" true false) false 0).1 8000 (fun _ => {})).m_queue_users =
      (AddRequest (CollectUserRecGarbage garbageState 5000 garbageRates)
          (sampleRequest 1 "alice" true false) false 0).1.m_queue_users ∧
    (CollectUserRecGarbage
        (AddRequest (CollectUserRecGarbage garbageState 5000 garbageRates)
          (sampleRequest 1 "alice" true false) false 0).1 8000
          (fun _ => {})).m_round_robin_garbage_counter =
      (AddRequest (CollectUserRecGarbage garbageState 5000 garbageRates)
          (sampleRequest 1 "alice" true false) false 0).1.m_round_robin_garbage_counter ∧
    (CollectUserRecGarbage
        (AddRequest (CollectUserRecGarbage garbageState 5000 garbageRates)
          (sampleRequest 1 "alice" true false) false 0).1 8000
          (fun _ => {})).m_round_robin_garbage_time = 5000 :=
  no_collection_within_the_hour garbageState 5000 garbageRates (by decide) _
    (Evolves.addRequest _ _ (sampleRequest 1 "alice" true false) false 0 (Evolves.refl _))
    8000 (fun _ => {}) (by decide)

/-! ## The report scanner -/

theorem dropWhile_append_all (p : Char → Bool) (w t : List Char) (h : ∀ c ∈ w, p c = true) :
    (w ++ t).dropWhile p = t.dropWhile p := by
  induction w with
  | nil => rfl
  | cons a rest ih =>
    have ha := h a (List.mem_cons_self _ _)
    simp only [List.cons_append, List.dropWhile_cons, ha, if_true]
    exact ih (fun c hc => h c (List.mem_cons_of_mem _ hc))

theorem takeWhile_append_all (p : Char → Bool) (w t : List Char) (h : ∀ c ∈ w, p c = true) :
    (w ++ t).takeWhile p = w ++ t.takeWhile p := by
  induction w with
  | nil => rfl
  | cons a rest ih =>
    have ha := h a (List.mem_cons_self _ _)
    simp only [List.cons_append, List.takeWhile_cons, ha, if_true]
    rw [ih (fun c hc => h c (List.mem_cons_of_mem _ hc))]

theorem dropWhile_of_head (p : Char → Bool) (t : List Char)
    (h : ∀ c, t.head? = some c → p c = false) : t.dropWhile p = t := by
  cases t with
  | nil => rfl
  | cons a rest =>
    have ha := h a rfl
    simp [List.dropWhile_cons, ha]

theorem takeWhile_of_head (p : Char → Bool) (t : List Char)
    (h : ∀ c, t.head? = some c → p c = false) : t.takeWhile p = [] := by
  cases t with
  | nil => rfl
  | cons a rest =>
    have ha := h a rfl
    simp [List.takeWhile_cons, ha]

theorem head_dropWhile (p : Char → Bool) (t : List Char) :
    ∀ c, (t.dropWhile p).head? = some c → p c = false := by
  induction t with
  | nil => intro c h; simp at h
  | cons a rest ih =>
    intro c h
    by_cases ha : p a = true
    · simp only [List.dropWhile_cons, ha, if_true] at h
      exact ih c h
    · simp only [List.dropWhile_cons, ha, if_false] at h
      simp at h
      subst h
      simpa using ha

theorem all_takeWhile (p : Char → Bool) (t : List Char) :
    ∀ c ∈ t.takeWhile p, p c = true := by
  intro c hc
  exact (List.mem_takeWhile_imp hc)

theorem isspace_of_isdigit (c : Char) (h : isdigit c = true) : isspace c = false := by
  by_contra hs
  have hs2 : isspace c = true := by simpa using hs
  unfold isspace at hs2
  simp only [Bool.or_eq_true, decide_eq_true_eq] at hs2
  rcases hs2 with ((((rfl | rfl) | rfl) | rfl) | rfl) | rfl <;> revert h <;> decide

theorem scanUnsigned_field (w sg ds rest : List Char)
    (hw : ∀ c ∈ w, isspace c = true) (hsg : sg = [] ∨ sg = ['+'] ∨ sg = ['-'])
    (hne : ds ≠ []) (hds : ∀ c ∈ ds, isdigit c = true)
    (hrest : ∀ c, rest.head? = some c → isdigit c = false) :
    scanUnsigned (w ++ sg ++ ds ++ rest) =
      some (unsignedValue (decide (sg = ['-'])) ds, rest) := by
  obtain ⟨d, ds2, hd⟩ : ∃ d ds2, ds = d :: ds2 := by
    cases ds with
    | nil => exact absurd rfl hne
    | cons d ds2 => exact ⟨d, ds2, rfl⟩
  have hdd : isdigit d = true := hds d (by rw [hd]; exact List.mem_cons_self _ _)
  have hp : d ≠ '+' := by
    intro e; rw [e] at hdd; revert hdd; decide
  have hm : d ≠ '-' := by
    intro e; rw [e] at hdd; revert hdd; decide
  have hdrop : (w ++ sg ++ ds ++ rest).dropWhile isspace = sg ++ (ds ++ rest) := by
    rw [List.append_assoc, List.append_assoc, dropWhile_append_all _ _ _ hw]
    apply dropWhile_of_head
    intro c hc
    rcases hsg with h | h | h
    · subst h
      rw [hd] at hc
      simp at hc
      subst hc
      exact isspace_of_isdigit _ hdd
    · subst h
      simp at hc
      subst hc
      decide
    · subst h
      simp at hc
      subst hc
      decide
  have hafter : afterSign (sg ++ (ds ++ rest)) = ds ++ rest := by
    unfold afterSign
    rcases hsg with h | h | h
    · subst h
      have h1 : (([] : List Char) ++ (ds ++ rest)).head? = some d := by rw [hd]; rfl
      rw [h1, if_neg]
      · rfl
      · rintro (e | e)
        · exact hp (Option.some.inj e)
        · exact hm (Option.some.inj e)
    · subst h; rfl
    · subst h; rfl
  have hneg : decide ((sg ++ (ds ++ rest)).head? = some '-') = decide (sg = ['-']) := by
    rcases hsg with h | h | h
    · subst h
      have h1 : (([] : List Char) ++ (ds ++ rest)).head? = some d := by rw [hd]; rfl
      rw [h1]
      have : ¬ some d = some '-' := fun e => hm (Option.some.inj e)
      simp [this]
    · subst h; simp
    · subst h; simp
  have htake : (ds ++ rest).takeWhile isdigit = ds := by
    rw [takeWhile_append_all _ _ _ hds, takeWhile_of_head _ _ hrest, List.append_nil]
  have hdrop2 : (ds ++ rest).dropWhile isdigit = rest := by
    rw [dropWhile_append_all _ _ _ hds, dropWhile_of_head _ _ hrest]
  unfold scanUnsigned
  simp only [hdrop, hafter, htake, hdrop2, hneg]
  rw [if_neg hne]

theorem scanUnsigned_some (s rest : List Char) (v : Nat)
    (h : scanUnsigned s = some (v, rest)) :
    ∃ w sg ds, s = w ++ sg ++ ds ++ rest ∧ (∀ c ∈ w, isspace c = true) ∧
      (sg = [] ∨ sg = ['+'] ∨ sg = ['-']) ∧ ds ≠ [] ∧ (∀ c ∈ ds, isdigit c = true) ∧
      (∀ c, rest.head? = some c → isdigit c = false) ∧
      v = unsignedValue (decide (sg = ['-'])) ds := by
  unfold scanUnsigned at h
  simp only [] at h
  have hsplit : s = s.takeWhile isspace ++ s.dropWhile isspace :=
    (List.takeWhile_append_dropWhile isspace s).symm
  generalize hs1 : s.dropWhile isspace = s1 at h hsplit
  by_cases hne : (afterSign s1).takeWhile isdigit = []
  · rw [if_pos hne] at h; simp at h
  · rw [if_neg hne] at h
    simp only [Option.some.injEq, Prod.mk.injEq] at h
    obtain ⟨hv, hrest⟩ := h
    have h2 : afterSign s1 = (afterSign s1).takeWhile isdigit ++ rest := by
      rw [← hrest]; exact (List.takeWhile_append_dropWhile isdigit _).symm
    have hrd : ∀ c, rest.head? = some c → isdigit c = false := by
      rw [← hrest]; exact head_dropWhile isdigit _
    by_cases hsign : s1.head? = some '+' ∨ s1.head? = some '-'
    · have haft : afterSign s1 = s1.tail := by unfold afterSign; rw [if_pos hsign]
      rcases hsign with hp | hm
      · have hs1eq : s1 = '+' :: afterSign s1 := by
          rw [haft]
          cases s1 with
          | nil => simp at hp
          | cons a t => simp at hp; rw [hp]; rfl
        refine ⟨s.takeWhile isspace, ['+'], (afterSign s1).takeWhile isdigit, ?_,
          all_takeWhile _ _, Or.inr (Or.inl rfl), hne, all_takeWhile _ _, hrd, ?_⟩
        · rw [List.append_assoc, List.append_assoc, ← h2]
          conv_lhs => rw [hsplit, hs1eq]
          simp
        · rw [← hv, hp]; rfl
      · have hs1eq : s1 = '-' :: afterSign s1 := by
          rw [haft]
          cases s1 with
          | nil => simp at hm
          | cons a t => simp at hm; rw [hm]; rfl
        refine ⟨s.takeWhile isspace, ['-'], (afterSign s1).takeWhile isdigit, ?_,
          all_takeWhile _ _, Or.inr (Or.inr rfl), hne, all_takeWhile _ _, hrd, ?_⟩
        · rw [List.append_assoc, List.append_assoc, ← h2]
          conv_lhs => rw [hsplit, hs1eq]
          simp
        · rw [← hv, hm]; rfl
    · have haft : afterSign s1 = s1 := by unfold afterSign; rw [if_neg hsign]
      rw [haft] at h2 hne hv
      refine ⟨s.takeWhile isspace, [], s1.takeWhile isdigit, ?_, all_takeWhile _ _,
        Or.inl rfl, hne, all_takeWhile _ _, hrd, ?_⟩
      · rw [List.append_nil, List.append_assoc, ← h2]
        exact hsplit
      · rw [← hv]
        have : s1.head? ≠ some '-' := fun e => hsign (Or.inr e)
        simp [this]

theorem sscanfUnsigned_of_fields (s : List Char) (vs : List Nat) (h : ReportFields s vs) :
    sscanfUnsigned vs.length s = vs := by
  induction h with
  | done s => rfl
  | field w sg ds rest vs hw hsg hne hds hrest _ ih =>
    simp only [List.length_cons, sscanfUnsigned]
    rw [scanUnsigned_field w sg ds rest hw hsg hne hds hrest]
    simp only [ih]

theorem fields_of_sscanfUnsigned :
    ∀ (n : Nat) (s : List Char), (sscanfUnsigned n s).length = n →
      ReportFields s (sscanfUnsigned n s) := by
  intro n
  induction n with
  | zero => intro s _; exact ReportFields.done s
  | succ n ih =>
    intro s hlen
    unfold sscanfUnsigned at hlen ⊢
    cases hscan : scanUnsigned s with
    | none => rw [hscan] at hlen; simp at hlen
    | some r =>
      obtain ⟨v, rest⟩ := r
      rw [hscan] at hlen
      simp only [List.length_cons, Nat.add_right_cancel_iff] at hlen
      obtain ⟨w, sg, ds, hs, hw, hsg, hne, hds, hrest, hv⟩ := scanUnsigned_some s rest v hscan
      simp only []
      rw [hs, hv]
      exact ReportFields.field w sg ds rest _ hw hsg hne hds hrest (ih rest hlen)

theorem sscanfUnsigned_length_iff (n : Nat) (s : List Char) :
    (sscanfUnsigned n s).length = n ↔ ∃ vs : List Nat, vs.length = n ∧ ReportFields s vs := by
  constructor
  · intro h
    exact ⟨_, h, fields_of_sscanfUnsigned n s h⟩
  · rintro ⟨vs, hlen, hf⟩
    rw [← hlen, sscanfUnsigned_of_fields s vs hf]

theorem parseReport_isSome_iff (line : String) :
    (parseReport (some line)).isSome = true ↔ (sscanfUnsigned 8 line.data).length = 8 := by
  unfold parseReport
  by_cases he : line.data = []
  · simp [he, sscanfUnsigned, scanUnsigned, afterSign]
  · simp only [he, if_false]
    generalize sscanfUnsigned 8 line.data = l
    rcases l with _ | ⟨a1, _ | ⟨a2, _ | ⟨a3, _ | ⟨a4, _ | ⟨a5, _ | ⟨a6, _ | ⟨a7, _ | ⟨a8, _ | ⟨a9, l⟩⟩⟩⟩⟩⟩⟩⟩⟩ <;>
      simp

/-- Claim C11, refuted as stated.  `ReadReport` returns success for a line of
nine fields, for a line with text after the eighth field, and for a line
whose first field carries a sign. -/
theorem ReadReport_accepts_more_than_eight_fields :
    ((sampleRequest 1 "alice" true true).ReadReport twoDownloads
      (some "1 2 3 4 5 6 7 8 9")).1 = true ∧
    ((sampleRequest 1 "alice" true true).ReadReport twoDownloads
      (some "1 2 3 4 5 6 7 8 and more")).1 = true ∧
    ((sampleRequest 1 "alice" true true).ReadReport twoDownloads
      (some "-1 2 3 4 5 6 7 8")).1 = true := by
  decide

/-- Claim C11, amended.  `ReadReport` returns success exactly when a line was
received that starts with eight decimal integers, each optionally preceded by
white space and by a sign; whatever follows the eighth integer is ignored.
In every other case (no line received, an empty line, fewer than eight
integers, a field among the first eight that is not a number) it returns
failure and leaves the manager, and so every accumulator, as it was. -/
theorem ReadReport_success_iff (c : TransferQueueRequest) (m : TransferQueueManager)
    (received : Option String) :
    ((c.ReadReport m received).1 = true ↔
      ∃ (line : String) (vs : List Nat),
        received = some line ∧ vs.length = 8 ∧ ReportFields line.data vs) ∧
    ((c.ReadReport m received).1 = false → (c.ReadReport m received).2 = m) := by
  have hres : (c.ReadReport m received).1 = (parseReport received).isSome := by
    unfold TransferQueueRequest.ReadReport
    cases parseReport received <;> rfl
  constructor
  · rw [hres]
    cases received with
    | none => simp [parseReport]
    | some line =>
      rw [parseReport_isSome_iff, sscanfUnsigned_length_iff]
      constructor
      · rintro ⟨vs, h1, h2⟩
        exact ⟨line, vs, rfl, h1, h2⟩
      · rintro ⟨line2, vs, h0, h1, h2⟩
        have : line = line2 := by simpa using h0
        subst this
        exact ⟨vs, h1, h2⟩
  · intro hf
    unfold TransferQueueRequest.ReadReport at hf ⊢
    cases hp : parseReport received with
    | none => rfl
    | some s => rw [hp] at hf; simp at hf

/-! ## Well-formed reports -/

theorem sscanfUnsigned_joinFields (ds : List (List Char)) :
    (∀ d ∈ ds, d ≠ [] ∧ (∀ ch ∈ d, isdigit ch = true) ∧ decimalValue d < 4294967296) →
    ∀ w : List Char, (∀ c ∈ w, isspace c = true) →
      sscanfUnsigned ds.length (w ++ joinFields ds) = ds.map decimalValue := by
  induction ds with
  | nil => intro _ w _; rfl
  | cons d rest ih =>
    intro hnum w hw
    obtain ⟨hne, hdig, hlt⟩ := hnum d (List.mem_cons_self _ _)
    have hval : unsignedValue (decide (([] : List Char) = ['-'])) d = decimalValue d := by
      simp [unsignedValue, Nat.mod_eq_of_lt hlt]
    have hrest := ih (fun d2 hd2 => hnum d2 (List.mem_cons_of_mem _ hd2))
    cases rest with
    | nil =>
      have hs : w ++ joinFields [d] = w ++ [] ++ d ++ [] := by simp [joinFields]
      simp only [List.length_cons, List.length_nil, sscanfUnsigned]
      rw [hs, scanUnsigned_field w [] d [] hw (Or.inl rfl) hne hdig (by simp), hval]
      rfl
    | cons d2 r =>
      have hs : w ++ joinFields (d :: d2 :: r) =
          w ++ [] ++ d ++ ([' '] ++ joinFields (d2 :: r)) := by simp [joinFields]
      have hscan := scanUnsigned_field w [] d ([' '] ++ joinFields (d2 :: r)) hw (Or.inl rfl)
        hne hdig (by
          intro c hc
          simp at hc
          subst hc
          decide)
      have hnext := hrest [' '] (by
        intro c hc
        simp at hc
        subst hc
        decide)
      rw [hs]
      simp only [List.length_cons, sscanfUnsigned] at hnext ⊢
      rw [hscan, hval]
      simp only [List.map_cons] at hnext ⊢
      rw [hnext]

theorem parseReport_well_formed (ds : List (List Char)) (hlen : ds.length = 8)
    (hnum : ∀ d ∈ ds, d ≠ [] ∧ (∀ ch ∈ d, isdigit ch = true) ∧ decimalValue d < 4294967296) :
    parseReport (some (String.mk (joinFields ds))) = some (reportStats (ds.map decimalValue)) := by
  have hscan := sscanfUnsigned_joinFields ds hnum [] (by simp)
  rw [hlen, List.nil_append] at hscan
  rcases ds with _ | ⟨d1, _ | ⟨d2, _ | ⟨d3, _ | ⟨d4, _ | ⟨d5, _ | ⟨d6, _ | ⟨d7, _ | ⟨d8, _ | ⟨d9, l⟩⟩⟩⟩⟩⟩⟩⟩⟩ <;>
    simp at hlen
  have hne : joinFields [d1, d2, d3, d4, d5, d6, d7, d8] ≠ [] := by
    have := (hnum d1 (by simp)).1
    simp [joinFields, this]
  unfold parseReport
  simp only [hne, if_false, hscan, List.map_cons, List.map_nil]
  simp [reportStats]

theorem updateUserRec_other (users : QueueUserMap) (k : String)
    (f : TransferQueueUser → TransferQueueUser) (p : String × TransferQueueUser)
    (hp : p.1 ≠ k) : p ∈ updateUserRec users k f ↔ p ∈ users := by
  unfold updateUserRec
  constructor
  · intro h
    obtain ⟨p0, hp0, e⟩ := List.mem_map.1 h
    by_cases hk : p0.1 = k
    · rw [if_pos hk] at e
      rw [← e] at hp
      exact absurd hk hp
    · rw [if_neg hk] at e
      subst e
      unfold GetUserRec at hp0
      split at hp0
      · exact hp0
      · rcases List.mem_append.1 hp0 with h1 | h1
        · exact h1
        · simp at h1
          rw [h1] at hk
          exact absurd rfl hk
  · intro h
    apply List.mem_map.2
    exact ⟨p, GetUserRec_keeps users k p h, by rw [if_neg hp]⟩

theorem AddRecentIOStats_effect (m : TransferQueueManager) (s : IOStats) (key : String) :
    (AddRecentIOStats m s key).m_iostats = m.m_iostats.Add s ∧
    userRec (AddRecentIOStats m s key).m_queue_users key =
      { userRec m.m_queue_users key with iostats := (userRec m.m_queue_users key).iostats.Add s } ∧
    (∃ p ∈ (AddRecentIOStats m s key).m_queue_users, p.1 = key) ∧
    (∀ k, k ≠ key →
      userRec (AddRecentIOStats m s key).m_queue_users k = userRec m.m_queue_users k) ∧
    (∀ p : String × TransferQueueUser, p.1 ≠ key →
      (p ∈ (AddRecentIOStats m s key).m_queue_users ↔ p ∈ m.m_queue_users)) ∧
    (AddRecentIOStats m s key).m_xfer_queue = m.m_xfer_queue := by
  have hu : (AddRecentIOStats m s key).m_queue_users =
      updateUserRec m.m_queue_users key (fun u => { u with iostats := u.iostats.Add s }) := rfl
  rw [hu]
  refine ⟨rfl, ?_, ?_, ?_, ?_, rfl⟩
  · simp only [userRec_updateUserRec, if_true]
  · exact ⟨(key, _), updateUserRec_mem m.m_queue_users key _, rfl⟩
  · intro k hk
    simp only [userRec_updateUserRec, hk, if_false]
  · intro p hp
    exact updateUserRec_other _ _ _ p hp

/-- Claim C12.  Let the line consist of eight non-empty runs of decimal digits,
each denoting a value below `2 ^ 32`, separated by single blanks, with values
`t i bs br fr fw nr nw`.  `ReadReport` of a request `c` returns success, adds
`(bs, br, fr/10^6, fw/10^6, nr/10^6, nw/10^6)` to the totals of the
process-wide accumulator and to those of the user record stored under `c`'s
key, which exists afterwards, and changes no other record and not the live
set.  The key of a request built by the constructor is `"D"` or `"U"`
followed by the user name.  For the line `"1000 1000000 500 0 0 0 0 0"` the
statistics added are 500 bytes sent and 0 in the five other series. -/
theorem well_formed_report_is_added (c : TransferQueueRequest) (m : TransferQueueManager)
    (ds : List (List Char)) (hlen : ds.length = 8)
    (hnum : ∀ d ∈ ds, d ≠ [] ∧ (∀ ch ∈ d, isdigit ch = true) ∧ decimalValue d < 4294967296) :
    c.ReadReport m (some (String.mk (joinFields ds))) =
      (true, AddRecentIOStats m (reportStats (ds.map decimalValue)) c.m_up_down_queue_user) ∧
    (c.ReadReport m (some (String.mk (joinFields ds)))).2.m_iostats =
      m.m_iostats.Add (reportStats (ds.map decimalValue)) ∧
    userRec (c.ReadReport m (some (String.mk (joinFields ds)))).2.m_queue_users
        c.m_up_down_queue_user =
      { userRec m.m_queue_users c.m_up_down_queue_user with
        iostats := (userRec m.m_queue_users c.m_up_down_queue_user).iostats.Add
          (reportStats (ds.map decimalValue)) } ∧
    (∃ p ∈ (c.ReadReport m (some (String.mk (joinFields ds)))).2.m_queue_users,
      p.1 = c.m_up_down_queue_user) ∧
    (∀ k, k ≠ c.m_up_down_queue_user →
      userRec (c.ReadReport m (some (String.mk (joinFields ds)))).2.m_queue_users k =
        userRec m.m_queue_users k) ∧
    (∀ p : String × TransferQueueUser, p.1 ≠ c.m_up_down_queue_user →
      (p ∈ (c.ReadReport m (some (String.mk (joinFields ds)))).2.m_queue_users ↔
        p ∈ m.m_queue_users)) ∧
    (c.ReadReport m (some (String.mk (joinFields ds)))).2.m_xfer_queue = m.m_xfer_queue ∧
    (∀ (sock : Nat) (fname jobid queue_user : String) (downloading : Bool)
        (max_queue_age born : Int),
      (TransferQueueRequest.ctor sock fname jobid queue_user downloading max_queue_age
        born).m_up_down_queue_user = (if downloading then "D" else "U") ++ queue_user) ∧
    c.ReadReport m (some "1000 1000000 500 0 0 0 0 0") =
      (true, AddRecentIOStats m
        { bytes_sent := 500, bytes_received := 0, file_read := 0, file_write := 0,
          net_read := 0, net_write := 0 } c.m_up_down_queue_user) := by
  have hparse := parseReport_well_formed ds hlen hnum
  have hread : c.ReadReport m (some (String.mk (joinFields ds))) =
      (true, AddRecentIOStats m (reportStats (ds.map decimalValue)) c.m_up_down_queue_user) := by
    unfold TransferQueueRequest.ReadReport
    rw [hparse]
  obtain ⟨e1, e2, e3, e4, e5, e6⟩ :=
    AddRecentIOStats_effect m (reportStats (ds.map decimalValue)) c.m_up_down_queue_user
  rw [hread]
  refine ⟨rfl, e1, e2, e3, e4, e5, e6, fun _ _ _ _ _ _ _ => rfl, ?_⟩
  have hp : parseReport (some "1000 1000000 500 0 0 0 0 0") =
      some { bytes_sent := 500, bytes_received := 0, file_read := 0, file_write := 0,
             net_read := 0, net_write := 0 } := by
    have h8 : sscanfUnsigned 8 "1000 1000000 500 0 0 0 0 0".data =
        [1000, 1000000, 500, 0, 0, 0, 0, 0] := by decide
    have hne : ¬ "1000 1000000 500 0 0 0 0 0".data = [] := by decide
    unfold parseReport
    simp only [hne, if_false, h8]
    norm_num
  unfold TransferQueueRequest.ReadReport
  rw [hp]

theorem well_formed_report_is_added_witness :
    (sampleRequest 1 "alice" true true).ReadReport twoDownloads
        (some (String.mk (joinFields ["17".data, "2000000".data, "500".data, "250".data,
          "1000000".data, "0".data, "3".data, "4".data]))) =
      (true, AddRecentIOStats twoDownloads
        { bytes_sent := 500, bytes_received := 250, file_read := 1, file_write := 0,
          net_read := 3 / 1000000, net_write := 4 / 1000000 } "Dalice") := by
  have h := (well_formed_report_is_added (sampleRequest 1 "alice" true true) twoDownloads
    ["17".data, "2000000".data, "500".data, "250".data, "1000000".data, "0".data, "3".data,
      "4".data] (by decide) (by decide)).1
  rw [h]
  have hk : (sampleRequest 1 "alice" true true).m_up_down_queue_user = "Dalice" := by decide
  rw [hk]
  have hv : List.map decimalValue ["17".data, "2000000".data, "500".data, "250".data,
      "1000000".data, "0".data, "3".data, "4".data] =
      [17, 2000000, 500, 250, 1000000, 0, 3, 4] := by decide
  rw [hv]
  congr 2
  simp only [reportStats]
  norm_num

/-! ## Preference for downloads -/

theorem selectBest_download (m : TransferQueueManager) (up down : Int)
    (q : List TransferQueueRequest) :
    ∀ (pos : Nat) (users : QueueUserMap) (best : Option BestClient),
      ((∃ b0, best = some b0 ∧ b0.client.m_downloading = true) ∨
        ∃ c ∈ q, c.m_gave_go_ahead = false ∧ c.m_downloading = true ∧
          hasFreeSlot m up down c) →
      ∃ b, (selectBest m up down q pos users best).2 = some b ∧
        b.client.m_downloading = true := by
  induction q with
  | nil =>
    intro pos users best h
    rcases h with ⟨b0, hb, hd⟩ | ⟨c, hc, _⟩
    · exact ⟨b0, by simp [selectBest, hb], hd⟩
    · cases hc
  | cons c rest ih =>
    intro pos users best h
    unfold selectBest
    by_cases hg : c.m_gave_go_ahead = true
    · rw [if_pos hg]
      apply ih
      rcases h with h | ⟨c2, hc2, hg2, hd2, hf2⟩
      · exact Or.inl h
      · rcases List.mem_cons.1 hc2 with heq | hin
        · subst heq; rw [hg] at hg2; cases hg2
        · exact Or.inr ⟨c2, hin, hg2, hd2, hf2⟩
    · rw [if_neg hg]
      by_cases hf : hasFreeSlot m up down c
      · rw [if_pos hf]
        simp only []
        by_cases hb : thisClientIsBetter best c
            (GetUserRec users c.m_up_down_queue_user).2.running
            (toInt32 (GetUserRec users c.m_up_down_queue_user).2.recency) = true
        · rw [if_pos hb]
          apply ih
          by_cases hd : c.m_downloading = true
          · exact Or.inl ⟨_, rfl, hd⟩
          · right
            rcases h with ⟨b0, hb0, hd0⟩ | ⟨c2, hc2, hg2, hd2, hf2⟩
            · subst hb0
              have hdf : c.m_downloading = false := by simpa using hd
              simp [thisClientIsBetter, hd0, hdf] at hb
            · rcases List.mem_cons.1 hc2 with heq | hin
              · subst heq; exact absurd hd2 hd
              · exact ⟨c2, hin, hg2, hd2, hf2⟩
        · rw [if_neg hb]
          apply ih
          rcases h with h | ⟨c2, hc2, hg2, hd2, hf2⟩
          · exact Or.inl h
          · rcases List.mem_cons.1 hc2 with heq | hin
            · subst heq
              cases best with
              | none => simp [thisClientIsBetter] at hb
              | some b0 =>
                by_cases hd0 : b0.client.m_downloading = true
                · exact Or.inl ⟨b0, rfl, hd0⟩
                · have hdf : b0.client.m_downloading = false := by simpa using hd0
                  simp [thisClientIsBetter, hdf, hd2] at hb
            · exact Or.inr ⟨c2, hin, hg2, hd2, hf2⟩
      · rw [if_neg hf]
        apply ih
        rcases h with h | ⟨c2, hc2, hg2, hd2, hf2⟩
        · exact Or.inl h
        · rcases List.mem_cons.1 hc2 with heq | hin
          · subst heq; exact absurd hf2 hf
          · exact Or.inr ⟨c2, hin, hg2, hd2, hf2⟩

/-- Claim C22.  In an iteration of the granting loop, when the live set holds a
request without go-ahead that is a download and the download capacity is free
(`downloading < m_max_downloads` or `m_max_downloads <= 0`), the selection scan
ends with a `best_client`; it is a request of the live set without go-ahead
and it is a download, so `SendGoAhead` is called on a download request. -/
theorem download_selected_when_eligible (now : Int) (ok : Bool) (s : PassState)
    (h : ∃ c ∈ s.m.m_xfer_queue, c.m_gave_go_ahead = false ∧ c.m_downloading = true ∧
      (s.downloading < s.m.m_max_downloads ∨ s.m.m_max_downloads ≤ 0)) :
    ∃ users b,
      selectBest s.m s.uploading s.downloading s.m.m_xfer_queue 0 s.m.m_queue_users none
        = (users, some b) ∧
      b.client.m_downloading = true ∧ b.client.m_gave_go_ahead = false ∧
      s.m.m_xfer_queue[b.pos]? = some b.client ∧
      (grantIteration now ok s).2 = some b.client.m_sock := by
  obtain ⟨c, hc, hg, hd, hfree⟩ := h
  obtain ⟨b, hb, hbd⟩ := selectBest_download s.m s.uploading s.downloading s.m.m_xfer_queue 0
    s.m.m_queue_users none (Or.inr ⟨c, hc, hg, hd, Or.inl ⟨hd, hfree⟩⟩)
  generalize hsel : selectBest s.m s.uploading s.downloading s.m.m_xfer_queue 0
    s.m.m_queue_users none = r at hb
  obtain ⟨users, best⟩ := r
  simp only [] at hb
  subst hb
  have hs := selectBest_some s.m s.uploading s.downloading s.m.m_xfer_queue 0
    s.m.m_queue_users none b (by rw [hsel])
  rcases hs with hs | hs
  · cases hs
  · refine ⟨users, b, rfl, hbd, hs.2.2.1, by simpa using hs.2.1, ?_⟩
    unfold grantIteration
    rw [hsel]

theorem download_selected_when_eligible_witness :
    (∃ c ∈ mixedState.m.m_xfer_queue, c.m_gave_go_ahead = false ∧ c.m_downloading = true ∧
      (mixedState.downloading < mixedState.m.m_max_downloads ∨
        mixedState.m.m_max_downloads ≤ 0)) ∧
    ∃ users b,
      selectBest mixedState.m mixedState.uploading mixedState.downloading
        mixedState.m.m_xfer_queue 0 mixedState.m.m_queue_users none = (users, some b) ∧
      b.client.m_downloading = true ∧ b.client.m_gave_go_ahead = false ∧
      mixedState.m.m_xfer_queue[b.pos]? = some b.client ∧
      (grantIteration 200 true mixedState).2 = some b.client.m_sock :=
  ⟨⟨sampleRequest 4 "bob" true false, by decide, by decide⟩,
   download_selected_when_eligible 200 true mixedState
    ⟨sampleRequest 4 "bob" true false, by decide, by decide⟩⟩

/-! ## The state after the granting loop -/

theorem grantPhase_countsAgree (m : TransferQueueManager) (now : Int) (sendOk : Nat → Bool)
    (res : PassState × List Nat) (h : grantPhase m now sendOk = some res) :
    countsAgree res.1 :=
  grantLoop_invariant now countsAgree
    (fun s s1 ok r hc hit => grantIteration_countsAgree now ok s s1 r hit hc)
    _ sendOk (startPass m) res (startPass_countsAgree m) h

/-- Claim C23.  The granting loop of a `CheckTransferQueue` pass always ends.
When it has ended, the locals `uploading` and `downloading` are the numbers
of requests with go-ahead of each direction, and for each direction (`d = true`
for downloads) either every request of that direction in the live set has its
go-ahead, or the ceiling of the direction is `> 0` and the number of requests
of the direction with go-ahead is at least the ceiling. -/
theorem no_free_slot_left_while_waiting (m : TransferQueueManager) (now : Int)
    (sendOk : Nat → Bool) :
    ∃ s sent, grantPhase m now sendOk = some (s, sent) ∧
      s.uploading = numGranted false s.m.m_xfer_queue ∧
      s.downloading = numGranted true s.m.m_xfer_queue ∧
      ∀ d : Bool, maxTransfers s.m d = maxTransfers m d ∧
        ((∀ c ∈ s.m.m_xfer_queue, c.m_downloading = d → c.m_gave_go_ahead = true) ∨
         (0 < maxTransfers m d ∧
           maxTransfers m d ≤ (numGranted d s.m.m_xfer_queue : Int))) := by
  obtain ⟨res, hres⟩ := grantPhase_total m now sendOk
  obtain ⟨s, sent⟩ := res
  have hc := grantPhase_countsAgree m now sendOk (s, sent) hres
  obtain ⟨hmu, hmd, _⟩ := grantPhase_maxTransfers m now sendOk (s, sent) hres
  have hexit := grantLoop_exit now _ sendOk (startPass m) (s, sent) hres
  simp only [] at hmu hmd hexit
  refine ⟨s, sent, hres, hc.1, hc.2, ?_⟩
  intro d
  have hmax : maxTransfers s.m d = maxTransfers m d := by
    unfold maxTransfers; rw [hmu, hmd]
  refine ⟨hmax, ?_⟩
  by_cases hall : ∀ c ∈ s.m.m_xfer_queue, c.m_downloading = d → c.m_gave_go_ahead = true
  · exact Or.inl hall
  · right
    push_neg at hall
    obtain ⟨c, hcq, hd, hg⟩ := hall
    have hg2 : c.m_gave_go_ahead = false := by simpa using hg
    have hno := hexit c hcq hg2
    unfold hasFreeSlot at hno
    unfold countsAgree at hc
    simp only [] at hc
    unfold maxTransfers
    cases d with
    | true =>
      have h1 : ¬ (s.downloading < s.m.m_max_downloads ∨ s.m.m_max_downloads ≤ 0) :=
        fun hh => hno (Or.inl ⟨hd, hh⟩)
      rw [hmd, hc.2] at h1
      simp only [if_true]
      omega
    | false =>
      have h1 : ¬ (s.uploading < s.m.m_max_uploads ∨ s.m.m_max_uploads ≤ 0) :=
        fun hh => hno (Or.inr ⟨hd, hh⟩)
      rw [hmu, hc.1] at h1
      simp only [Bool.false_eq_true, if_false]
      omega

/-- Claim C24.  The granting loop of a `CheckTransferQueue` pass always ends,
and then no request of the live set without go-ahead has a direction whose
local count (`downloading` for a download, `uploading` for an upload) is zero.
So the scan of the waiting requests keeps every request: the test of its
forced-removal branch is false for each of them, whatever the ceilings and the
live set. -/
theorem policy_scan_removes_nothing (m : TransferQueueManager) (now : Int)
    (sendOk : Nat → Bool) :
    ∃ s sent, grantPhase m now sendOk = some (s, sent) ∧
      CheckTransferQueue m now sendOk = some (finishPass now s, sent) ∧
      (∀ c ∈ s.m.m_xfer_queue, c.m_gave_go_ahead = false →
        (if c.m_downloading then s.downloading else s.uploading) ≠ 0) ∧
      (∀ c ∈ s.m.m_xfer_queue,
        ¬ (c.m_gave_go_ahead = false ∧
            ((c.m_downloading = true ∧ s.downloading = 0) ∨
             (c.m_downloading = false ∧ s.uploading = 0)))) ∧
      ∀ w : WaitScan,
        (examineWaiting now s.uploading s.downloading s.m.m_xfer_queue w).1
          = s.m.m_xfer_queue := by
  obtain ⟨res, hres⟩ := grantPhase_total m now sendOk
  obtain ⟨s, sent⟩ := res
  have hno := grantPhase_no_policy_eviction m now sendOk (s, sent) hres
  simp only [] at hno
  refine ⟨s, sent, hres, by simp [CheckTransferQueue, hres], ?_, ?_, ?_⟩
  · intro c hc hg h0
    apply hno c hc hg
    cases hd : c.m_downloading with
    | true => rw [hd] at h0; exact Or.inl ⟨rfl, by simpa using h0⟩
    | false => rw [hd] at h0; exact Or.inr ⟨rfl, by simpa using h0⟩
  · intro c hc ⟨hg, h0⟩
    exact hno c hc hg h0
  · intro w
    exact (examineWaiting_keep now s.uploading s.downloading s.m.m_xfer_queue hno w).1

/-! ## Termination of the granting loop -/

theorem grantLoop_mono (now : Int) :
    ∀ (fuel : Nat) (sendOk : Nat → Bool) (s : PassState) (res : PassState × List Nat),
      grantLoop now fuel sendOk s = some res →
      ∀ fuel2, fuel ≤ fuel2 → grantLoop now fuel2 sendOk s = some res := by
  intro fuel
  induction fuel with
  | zero => intro sendOk s res h; simp [grantLoop] at h
  | succ fuel ih =>
    intro sendOk s res h fuel2 hle
    obtain ⟨f2, rfl⟩ : ∃ f2, fuel2 = f2 + 1 := ⟨fuel2 - 1, by omega⟩
    unfold grantLoop at h ⊢
    by_cases hcond : grantLoopCond s
    · rw [if_pos hcond] at h ⊢
      generalize hit : grantIteration now (sendOk 0) s = it at h ⊢
      obtain ⟨s1, r⟩ := it
      cases r with
      | none => exact h
      | some sock =>
        simp only [Option.map_eq_some'] at h ⊢
        obtain ⟨res1, hres1, hres⟩ := h
        exact ⟨res1, ih _ s1 res1 hres1 f2 (by omega), hres⟩
    · rw [if_neg hcond] at h ⊢
      exact h

theorem grantLoop_sent_length (now : Int) :
    ∀ (fuel : Nat) (sendOk : Nat → Bool) (s : PassState) (res : PassState × List Nat),
      grantLoop now fuel sendOk s = some res →
      res.2.length + numWaiting res.1.m.m_xfer_queue = numWaiting s.m.m_xfer_queue := by
  intro fuel
  induction fuel with
  | zero => intro sendOk s res h; simp [grantLoop] at h
  | succ fuel ih =>
    intro sendOk s res h
    unfold grantLoop at h
    by_cases hcond : grantLoopCond s
    · rw [if_pos hcond] at h
      generalize hit : grantIteration now (sendOk 0) s = it at h
      obtain ⟨s1, r⟩ := it
      cases r with
      | none =>
        simp at h; subst h
        obtain ⟨users, hs1, _, _⟩ := grantIteration_none now (sendOk 0) s s1 hit
        subst hs1
        simp
      | some sock =>
        simp only [Option.map_eq_some'] at h
        obtain ⟨res1, hres1, hres⟩ := h
        subst hres
        have h1 := ih _ s1 res1 hres1
        have h2 := grantIteration_numWaiting now (sendOk 0) s s1 sock hit
        simp only [List.length_cons]
        omega
    · rw [if_neg hcond] at h
      simp at h; subst h
      simp

/-- Claim C27.  `CheckTransferQueue` returns for every live set and every
configuration.  An iteration of the granting loop either leaves the loop
(`break`, no client selected) or lowers the number of requests without
go-ahead by one; so, with `n` such requests at the start of the pass, `n + 1`
iterations are enough for the loop to end, it calls `SendGoAhead` at most `n`
times, and the pass gives the same result. -/
theorem granting_loop_terminates (m : TransferQueueManager) (now : Int)
    (sendOk : Nat → Bool) :
    (∀ (s : PassState) (ok : Bool),
      (grantIteration now ok s).2 = none ∨
      numWaiting (grantIteration now ok s).1.m.m_xfer_queue + 1
        = numWaiting s.m.m_xfer_queue) ∧
    ∃ s sent,
      grantLoop now (numWaiting m.m_xfer_queue + 1) sendOk (startPass m) = some (s, sent) ∧
      sent.length ≤ numWaiting m.m_xfer_queue ∧
      grantPhase m now sendOk = some (s, sent) ∧
      CheckTransferQueue m now sendOk = some (finishPass now s, sent) := by
  constructor
  · intro s ok
    generalize hit : grantIteration now ok s = it
    obtain ⟨s1, r⟩ := it
    cases r with
    | none => exact Or.inl rfl
    | some sock => exact Or.inr (grantIteration_numWaiting now ok s s1 sock hit)
  · obtain ⟨res, hres⟩ := grantLoop_total now (numWaiting m.m_xfer_queue + 1) sendOk
      (startPass m) (by simp)
    obtain ⟨s, sent⟩ := res
    have hlen := grantLoop_sent_length now _ sendOk (startPass m) (s, sent) hres
    have hph : grantPhase m now sendOk = some (s, sent) := by
      unfold grantPhase
      apply grantLoop_mono now _ sendOk (startPass m) (s, sent) hres
      have : numWaiting m.m_xfer_queue ≤ m.m_xfer_queue.length := List.countP_le_length _
      simp only [startPass_xfer_queue]
      omega
    refine ⟨s, sent, hres, ?_, hph, by simp [CheckTransferQueue, hph]⟩
    simp only [startPass_xfer_queue] at hlen
    omega

/-! ## Requests that hold a go-ahead during a pass -/

theorem grantedRequests_eraseIdx (q : List TransferQueueRequest) :
    ∀ (i : Nat) (c : TransferQueueRequest), q[i]? = some c → c.m_gave_go_ahead = false →
      grantedRequests (q.eraseIdx i) = grantedRequests q := by
  induction q with
  | nil => intro i c h; simp at h
  | cons a rest ih =>
    intro i c h hg
    cases i with
    | zero =>
      simp at h; subst h
      simp [grantedRequests, hg]
    | succ i =>
      simp at h
      have := ih i c h hg
      unfold grantedRequests at this ⊢
      simp only [List.eraseIdx_cons_succ, List.filter_cons]
      rw [this]

theorem grantedRequests_set (q : List TransferQueueRequest) :
    ∀ (i : Nat) (c c2 : TransferQueueRequest), q[i]? = some c → c.m_gave_go_ahead = false →
      (grantedRequests q).Sublist (grantedRequests (q.set i c2)) := by
  induction q with
  | nil => intro i c c2 h; simp at h
  | cons a rest ih =>
    intro i c c2 h hg
    cases i with
    | zero =>
      simp at h; subst h
      unfold grantedRequests
      simp only [List.set_cons_zero, List.filter_cons, hg]
      simp only [Bool.false_eq_true, if_false]
      split
      · exact List.sublist_cons_self _ _
      · exact List.Sublist.refl _
    | succ i =>
      simp at h
      have := ih i c c2 h hg
      unfold grantedRequests at this ⊢
      simp only [List.set_cons_succ, List.filter_cons]
      split
      · exact this.cons₂ a
      · exact this

theorem grantIteration_grantedRequests (now : Int) (ok : Bool) (s s1 : PassState)
    (r : Option Nat) (h : grantIteration now ok s = (s1, r)) :
    (grantedRequests s.m.m_xfer_queue).Sublist (grantedRequests s1.m.m_xfer_queue) := by
  cases r with
  | none =>
    obtain ⟨users, hs1, _, _⟩ := grantIteration_none now ok s s1 h
    subst hs1
    exact List.Sublist.refl _
  | some sock =>
    obtain ⟨b, hget, hg, _, _, _, _, _, hfail, hok⟩ := grantIteration_effect now ok s s1 sock h
    cases ok with
    | false =>
      rw [(hfail rfl).1, grantedRequests_eraseIdx _ _ _ hget hg]
    | true =>
      rw [(hok rfl).1]
      exact grantedRequests_set _ _ _ _ hget hg

theorem grantPhase_grantedRequests (m : TransferQueueManager) (now : Int) (sendOk : Nat → Bool)
    (res : PassState × List Nat) (h : grantPhase m now sendOk = some res) :
    (grantedRequests m.m_xfer_queue).Sublist (grantedRequests res.1.m.m_xfer_queue) :=
  grantLoop_invariant now
    (fun s => (grantedRequests m.m_xfer_queue).Sublist (grantedRequests s.m.m_xfer_queue))
    (fun s s1 ok r hP hit => hP.trans (grantIteration_grantedRequests now ok s s1 r hit))
    _ sendOk (startPass m) res (List.Sublist.refl _) h

theorem grantPhase_numWaiting (m : TransferQueueManager) (now : Int) (sendOk : Nat → Bool)
    (res : PassState × List Nat) (h : grantPhase m now sendOk = some res) :
    numWaiting res.1.m.m_xfer_queue ≤ numWaiting m.m_xfer_queue := by
  have := grantLoop_sent_length now _ sendOk (startPass m) res h
  simp only [startPass_xfer_queue] at this
  omega

theorem evictAncient_cases (now : Int) (q : List TransferQueueRequest) :
    evictAncient now q = (q, false) ∨
    ∃ a c b, q = a ++ c :: b ∧ evictAncient now q = (a ++ b, true) ∧ isAncient now c := by
  induction q with
  | nil => left; simp [evictAncient]
  | cons x rest ih =>
    by_cases hx : isAncient now x
    · right
      exact ⟨[], x, rest, rfl, by simp [evictAncient, hx], hx⟩
    · rcases ih with h | ⟨a, c, b, hq, he, hc⟩
      · left; simp [evictAncient, hx, h]
      · right
        refine ⟨x :: a, c, b, by simp [hq], ?_, hc⟩
        simp [evictAncient, hx, he]

theorem finishPass_queue (now : Int) (s : PassState)
    (hno : ∀ c ∈ s.m.m_xfer_queue, c.m_gave_go_ahead = false →
      ¬ ((c.m_downloading = true ∧ s.downloading = 0) ∨
         (c.m_downloading = false ∧ s.uploading = 0))) :
    (finishPass now s).m_xfer_queue = s.m.m_xfer_queue ∨
    ∃ a c b, s.m.m_xfer_queue = a ++ c :: b ∧ (finishPass now s).m_xfer_queue = a ++ b ∧
      isAncient now c ∧ ∃ w ∈ s.m.m_xfer_queue, w.m_gave_go_ahead = false := by
  have hkeep := examineWaiting_keep now s.uploading s.downloading s.m.m_xfer_queue hno
    { m := s.m, clients_waiting := false }
  unfold finishPass
  simp only [hkeep.1]
  by_cases hcw : (examineWaiting now s.uploading s.downloading s.m.m_xfer_queue
      { m := s.m, clients_waiting := false }).2.clients_waiting = true
  · rw [if_pos hcw]
    have hw : ∃ w ∈ s.m.m_xfer_queue, w.m_gave_go_ahead = false := by
      rw [hkeep.2] at hcw
      simp only [Bool.false_or, List.any_eq_true] at hcw
      obtain ⟨w, hw, hg⟩ := hcw
      exact ⟨w, hw, by simpa using hg⟩
    rcases evictAncient_cases now s.m.m_xfer_queue with he | ⟨a, c, b, hq, he, hc⟩
    · left
      rw [he]
      simp
    · right
      refine ⟨a, c, b, hq, ?_, hc, hw⟩
      rw [he]
      simp
  · rw [if_neg hcw]
    left
    rfl

theorem sublist_append_cons_cases {α : Type} (l A B : List α) (c : α)
    (h : l.Sublist (A ++ c :: B)) :
    l.Sublist (A ++ B) ∨ ∃ l1 l2, l = l1 ++ c :: l2 ∧ (l1 ++ l2).Sublist (A ++ B) := by
  obtain ⟨l1, l2, hl, h1, h2⟩ := List.sublist_append_iff.1 h
  rcases List.sublist_cons_iff.1 h2 with h3 | ⟨r, hr, h3⟩
  · left
    rw [hl]
    exact List.Sublist.append h1 h3
  · right
    exact ⟨l1, r, by rw [hl, hr], List.Sublist.append h1 h3⟩

/-- Claim C25.  A `CheckTransferQueue` pass always returns.  The requests that
hold a go-ahead when the pass starts are, in order, among the requests that
hold one when it ends, all of them or all but one.  In the second case the
missing request `c` has `m_max_queue_age > 0` and
`now - m_time_go_ahead > m_max_queue_age`, and some request of the live set is
without go-ahead after the granting loop.  So a pass started with no request
without go-ahead loses none, and a request with `m_max_queue_age <= 0` that
holds a go-ahead occurs at the end as often as at the start. -/
theorem pass_loses_at_most_one_grant (m : TransferQueueManager) (now : Int)
    (sendOk : Nat → Bool) :
    ∃ s sent m1, grantPhase m now sendOk = some (s, sent) ∧
      CheckTransferQueue m now sendOk = some (m1, sent) ∧
      ((grantedRequests m.m_xfer_queue).Sublist (grantedRequests m1.m_xfer_queue) ∨
        ∃ l1 c l2, grantedRequests m.m_xfer_queue = l1 ++ c :: l2 ∧
          (l1 ++ l2).Sublist (grantedRequests m1.m_xfer_queue) ∧
          0 < c.m_max_queue_age ∧ now - c.m_time_go_ahead > c.m_max_queue_age ∧
          ∃ w ∈ s.m.m_xfer_queue, w.m_gave_go_ahead = false) ∧
      ((∀ c ∈ m.m_xfer_queue, c.m_gave_go_ahead = true) →
        (grantedRequests m.m_xfer_queue).Sublist (grantedRequests m1.m_xfer_queue)) ∧
      (∀ x : TransferQueueRequest, x.m_max_queue_age ≤ 0 →
        (grantedRequests m.m_xfer_queue).count x ≤
          (grantedRequests m1.m_xfer_queue).count x) := by
  obtain ⟨res, hres⟩ := grantPhase_total m now sendOk
  obtain ⟨s, sent⟩ := res
  have hno := grantPhase_no_policy_eviction m now sendOk (s, sent) hres
  have hsub := grantPhase_grantedRequests m now sendOk (s, sent) hres
  have hnw := grantPhase_numWaiting m now sendOk (s, sent) hres
  simp only [] at hno hsub hnw
  have main : (grantedRequests m.m_xfer_queue).Sublist
        (grantedRequests (finishPass now s).m_xfer_queue) ∨
      ∃ l1 c l2, grantedRequests m.m_xfer_queue = l1 ++ c :: l2 ∧
        (l1 ++ l2).Sublist (grantedRequests (finishPass now s).m_xfer_queue) ∧
        0 < c.m_max_queue_age ∧ now - c.m_time_go_ahead > c.m_max_queue_age ∧
        ∃ w ∈ s.m.m_xfer_queue, w.m_gave_go_ahead = false := by
    rcases finishPass_queue now s hno with hq | ⟨a, c, b, hq, hfin, hc, hw⟩
    · left; rw [hq]; exact hsub
    · rw [hfin]
      have hsplit : grantedRequests s.m.m_xfer_queue =
          grantedRequests a ++ c :: grantedRequests b := by
        rw [hq]
        unfold grantedRequests
        simp [List.filter_append, List.filter_cons, hc.1]
      have hfinal : grantedRequests (a ++ b) = grantedRequests a ++ grantedRequests b := by
        unfold grantedRequests
        simp [List.filter_append]
      rw [hsplit] at hsub
      rw [hfinal]
      rcases sublist_append_cons_cases _ _ _ _ hsub with h1 | ⟨l1, l2, hl, h1⟩
      · exact Or.inl h1
      · exact Or.inr ⟨l1, c, l2, hl, h1, hc.2.1, hc.2.2, hw⟩
  refine ⟨s, sent, finishPass now s, hres, by simp [CheckTransferQueue, hres], main, ?_, ?_⟩
  · intro hall
    rcases main with h1 | ⟨_, _, _, _, _, _, _, w, hw, hwg⟩
    · exact h1
    · exfalso
      have h0 : numWaiting m.m_xfer_queue = 0 := by
        unfold numWaiting
        rw [List.countP_eq_zero]
        intro c hc
        simp [hall c hc]
      have hpos : 0 < numWaiting s.m.m_xfer_queue := by
        unfold numWaiting
        rw [List.countP_pos_iff]
        exact ⟨w, hw, by simp [hwg]⟩
      omega
  · intro x hx
    rcases main with h1 | ⟨l1, c, l2, hl, h1, hc, _, _⟩
    · exact h1.count_le x
    · have hne : c ≠ x := by
        intro heq; subst heq; omega
      rw [hl]
      have : (l1 ++ c :: l2).count x = (l1 ++ l2).count x := by
        simp [List.count_append, List.count_cons, hne]
      rw [this]
      exact h1.count_le x

/-! ## The aggregate counts -/

theorem TransferQueueChanged_waiting (m : TransferQueueManager) :
    (TransferQueueChanged m).m_waiting_to_upload = m.m_waiting_to_upload ∧
    (TransferQueueChanged m).m_waiting_to_download = m.m_waiting_to_download ∧
    (TransferQueueChanged m).m_uploading = m.m_uploading ∧
    (TransferQueueChanged m).m_downloading = m.m_downloading := by
  unfold TransferQueueChanged; split <;> exact ⟨rfl, rfl, rfl, rfl⟩

theorem SetRoundRobinRecency_waiting (m : TransferQueueManager) (u : String) :
    (SetRoundRobinRecency m u).m_waiting_to_upload = m.m_waiting_to_upload ∧
    (SetRoundRobinRecency m u).m_waiting_to_download = m.m_waiting_to_download := by
  unfold SetRoundRobinRecency ClearRoundRobinRecency
  simp only []
  split <;> exact ⟨rfl, rfl⟩

theorem grantSelected_waiting (now : Int) (ok : Bool) (s : PassState) (b : BestClient) :
    (grantSelected now ok s b).m.m_waiting_to_upload = s.m.m_waiting_to_upload ∧
    (grantSelected now ok s b).m.m_waiting_to_download = s.m.m_waiting_to_download := by
  cases ok with
  | false =>
    simp only [grantSelected, TransferQueueRequest.SendGoAhead, Bool.false_eq_true, if_false,
      if_true]
    have := TransferQueueChanged_waiting
      { s.m with m_xfer_queue := s.m.m_xfer_queue.eraseIdx b.pos }
    exact ⟨this.1, this.2.1⟩
  | true =>
    cases hd : b.client.m_downloading <;>
      simp [grantSelected, TransferQueueRequest.SendGoAhead, hd, SetRoundRobinRecency_waiting]

theorem grantIteration_waiting (now : Int) (ok : Bool) (s s1 : PassState) (r : Option Nat)
    (h : grantIteration now ok s = (s1, r)) :
    s1.m.m_waiting_to_upload = s.m.m_waiting_to_upload ∧
    s1.m.m_waiting_to_download = s.m.m_waiting_to_download := by
  cases r with
  | none =>
    obtain ⟨users, hs1, _, _⟩ := grantIteration_none now ok s s1 h
    subst hs1
    exact ⟨rfl, rfl⟩
  | some sock =>
    obtain ⟨users, b, _, hs1, _⟩ := grantIteration_some now ok s s1 sock h
    subst hs1
    exact grantSelected_waiting now ok _ b

theorem grantPhase_waiting (m : TransferQueueManager) (now : Int) (sendOk : Nat → Bool)
    (res : PassState × List Nat) (h : grantPhase m now sendOk = some res) :
    res.1.m.m_waiting_to_upload = 0 ∧ res.1.m.m_waiting_to_download = 0 :=
  grantLoop_invariant now
    (fun s => s.m.m_waiting_to_upload = 0 ∧ s.m.m_waiting_to_download = 0)
    (fun s s1 ok r hP hit => by
      have := grantIteration_waiting now ok s s1 r hit
      exact ⟨this.1.trans hP.1, this.2.trans hP.2⟩)
    _ sendOk (startPass m) res ⟨rfl, rfl⟩ h

theorem examineWaiting_counts (now up down : Int) (q : List TransferQueueRequest)
    (h : ∀ c ∈ q, c.m_gave_go_ahead = false →
      ¬ ((c.m_downloading = true ∧ down = 0) ∨ (c.m_downloading = false ∧ up = 0))) :
    ∀ w : WaitScan,
      (examineWaiting now up down q w).2.m.m_waiting_to_upload =
        w.m.m_waiting_to_upload + numWaitingDir false q ∧
      (examineWaiting now up down q w).2.m.m_waiting_to_download =
        w.m.m_waiting_to_download + numWaitingDir true q := by
  induction q with
  | nil => intro w; simp [examineWaiting, numWaitingDir]
  | cons c rest ih =>
    intro w
    have ih2 := ih (fun c2 hc2 => h c2 (List.mem_cons_of_mem _ hc2))
    unfold examineWaiting
    by_cases hcond : c.m_gave_go_ahead = false ∧
        ((c.m_downloading = true ∧ down = 0) ∨ (c.m_downloading = false ∧ up = 0))
    · exact absurd hcond.2 (h c (List.mem_cons_self _ _) hcond.1)
    · rw [if_neg hcond]
      by_cases hg : c.m_gave_go_ahead = false
      · rw [if_pos hg]
        simp only []
        cases hd : c.m_downloading with
        | true =>
          simp only [if_true]
          rw [(ih2 _).1, (ih2 _).2]
          simp only [numWaitingDir, List.countP_cons, hg, hd]
          simp
          omega
        | false =>
          simp only [Bool.false_eq_true, if_false]
          rw [(ih2 _).1, (ih2 _).2]
          simp only [numWaitingDir, List.countP_cons, hg, hd]
          simp
          omega
      · rw [if_neg hg]
        have hg2 : c.m_gave_go_ahead = true := by simpa using hg
        simp only []
        rw [(ih2 _).1, (ih2 _).2]
        simp [numWaitingDir, List.countP_cons, hg2]

theorem finishPass_counts (now : Int) (s : PassState)
    (hno : ∀ c ∈ s.m.m_xfer_queue, c.m_gave_go_ahead = false →
      ¬ ((c.m_downloading = true ∧ s.downloading = 0) ∨
         (c.m_downloading = false ∧ s.uploading = 0))) :
    (finishPass now s).m_waiting_to_upload =
      s.m.m_waiting_to_upload + numWaitingDir false s.m.m_xfer_queue ∧
    (finishPass now s).m_waiting_to_download =
      s.m.m_waiting_to_download + numWaitingDir true s.m.m_xfer_queue ∧
    (finishPass now s).m_uploading = s.uploading ∧
    (finishPass now s).m_downloading = s.downloading := by
  have hc := examineWaiting_counts now s.uploading s.downloading s.m.m_xfer_queue hno
    { m := s.m, clients_waiting := false }
  simp only [] at hc
  unfold finishPass
  simp only []
  split
  · split
    · refine ⟨?_, ?_, ?_, ?_⟩
      · rw [(TransferQueueChanged_waiting _).1]; exact hc.1
      · rw [(TransferQueueChanged_waiting _).2.1]; exact hc.2
      · rw [(TransferQueueChanged_waiting _).2.2.1]
      · rw [(TransferQueueChanged_waiting _).2.2.2]
    · exact ⟨hc.1, hc.2, rfl, rfl⟩
  · exact ⟨hc.1, hc.2, rfl, rfl⟩

/-- Claim C26 at a pass that evicts a request.  In `ancientState` alice and bob
hold the two download slots since time 100 and carol waits.  The pass at time
8000 evicts alice, whose go-ahead is older than 7200 seconds.  It ends with
`m_downloading = 2` while one request of the live set is a download with
go-ahead; the waiting counts do agree with the live set. -/
theorem granted_count_stale_after_eviction :
    (CheckTransferQueue ancientState 8000 (fun _ => true)).map
      (fun r => (r.1.m_xfer_queue.map (fun c => (c.m_sock, c.m_gave_go_ahead)),
        r.1.m_downloading, numGranted true r.1.m_xfer_queue,
        r.1.m_waiting_to_download, numWaitingDir true r.1.m_xfer_queue))
      = some ([(2, true), (3, false)], 2, 1, 1, 1) := by
  decide

/-- Claim C26, amended.  A `CheckTransferQueue` pass always returns.  At its end
`m_waiting_to_upload` and `m_waiting_to_download` are the numbers of upload
and download requests without go-ahead in the live set, and `m_uploading` and
`m_downloading` are the numbers of upload and download requests with
go-ahead in the live set as the granting loop left it.  Either the scan for
ancient requests removed nothing, and then these two equal the numbers in the
live set at the end; or it removed one request `c`, and then the count of the
direction of `c` is one more than the number in the live set at the end. -/
theorem aggregate_counts_after_pass (m : TransferQueueManager) (now : Int)
    (sendOk : Nat → Bool) :
    ∃ s sent m1, grantPhase m now sendOk = some (s, sent) ∧
      CheckTransferQueue m now sendOk = some (m1, sent) ∧
      m1.m_waiting_to_upload = numWaitingDir false m1.m_xfer_queue ∧
      m1.m_waiting_to_download = numWaitingDir true m1.m_xfer_queue ∧
      m1.m_uploading = numGranted false s.m.m_xfer_queue ∧
      m1.m_downloading = numGranted true s.m.m_xfer_queue ∧
      ((m1.m_xfer_queue = s.m.m_xfer_queue ∧
          m1.m_uploading = numGranted false m1.m_xfer_queue ∧
          m1.m_downloading = numGranted true m1.m_xfer_queue) ∨
        ∃ a c b, s.m.m_xfer_queue = a ++ c :: b ∧ m1.m_xfer_queue = a ++ b ∧
          isAncient now c ∧
          m1.m_uploading =
            numGranted false m1.m_xfer_queue + (if c.m_downloading then 0 else 1) ∧
          m1.m_downloading =
            numGranted true m1.m_xfer_queue + (if c.m_downloading then 1 else 0)) := by
  obtain ⟨res, hres⟩ := grantPhase_total m now sendOk
  obtain ⟨s, sent⟩ := res
  have hno := grantPhase_no_policy_eviction m now sendOk (s, sent) hres
  have hw0 := grantPhase_waiting m now sendOk (s, sent) hres
  have hca := grantPhase_countsAgree m now sendOk (s, sent) hres
  simp only [] at hno hw0
  unfold countsAgree at hca
  simp only [] at hca
  obtain ⟨f1, f2, f3, f4⟩ := finishPass_counts now s hno
  rw [hw0.1, zero_add] at f1
  rw [hw0.2, zero_add] at f2
  rw [hca.1] at f3
  rw [hca.2] at f4
  have hq := finishPass_queue now s hno
  have hwq : ∀ d, numWaitingDir d (finishPass now s).m_xfer_queue =
      numWaitingDir d s.m.m_xfer_queue := by
    intro d
    rcases hq with h | ⟨a, c, b, hsq, hfq, hc, _⟩
    · rw [h]
    · rw [hfq, hsq]
      simp [numWaitingDir, List.countP_append, List.countP_cons, hc.1]
  refine ⟨s, sent, finishPass now s, hres, by simp [CheckTransferQueue, hres], ?_, ?_, f3, f4, ?_⟩
  · rw [f1, hwq]
  · rw [f2, hwq]
  · rcases hq with h | ⟨a, c, b, hsq, hfq, hc, _⟩
    · left
      refine ⟨h, ?_, ?_⟩
      · rw [f3, h]
      · rw [f4, h]
    · right
      refine ⟨a, c, b, hsq, hfq, hc, ?_, ?_⟩
      · rw [f3, hfq, hsq]
        cases hd : c.m_downloading with
        | false =>
          simp [numGranted, List.countP_append, List.countP_cons, hc.1, hd]
          omega
        | true => simp [numGranted, List.countP_append, List.countP_cons, hc.1, hd]
      · rw [f4, hfq, hsq]
        cases hd : c.m_downloading with
        | false => simp [numGranted, List.countP_append, List.countP_cons, hc.1, hd]
        | true =>
          simp [numGranted, List.countP_append, List.countP_cons, hc.1, hd]
          omega

/-! ## Recency and the round-robin counter -/

theorem mem_GetUserRec (users : QueueUserMap) (k : String) (p : String × TransferQueueUser)
    (h : p ∈ (GetUserRec users k).1) : p ∈ users ∨ p = (k, {}) := by
  unfold GetUserRec at h
  split at h
  · exact Or.inl h
  · rcases List.mem_append.1 h with h1 | h1
    · exact Or.inl h1
    · exact Or.inr (by simpa using h1)

theorem mem_updateUserRec (users : QueueUserMap) (k : String)
    (f : TransferQueueUser → TransferQueueUser) (p : String × TransferQueueUser)
    (h : p ∈ updateUserRec users k f) :
    (p.1 ≠ k ∧ p ∈ users) ∨
    (p.1 = k ∧ ∃ u, (u = {} ∨ (k, u) ∈ users) ∧ p.2 = f u) := by
  unfold updateUserRec at h
  obtain ⟨p0, hp0, hp⟩ := List.mem_map.1 h
  by_cases hk : p0.1 = k
  · rw [if_pos hk] at hp
    subst hp
    right
    refine ⟨hk, p0.2, ?_, rfl⟩
    rcases mem_GetUserRec users k p0 hp0 with h1 | h1
    · right
      rw [← hk]
      exact h1
    · left
      rw [h1]
  · rw [if_neg hk] at hp
    subst hp
    left
    refine ⟨hk, ?_⟩
    rcases mem_GetUserRec users k p0 hp0 with h1 | h1
    · exact h1
    · rw [h1] at hk
      exact absurd rfl hk

theorem updateUserRec_recency (users : QueueUserMap) (k : String)
    (f : TransferQueueUser → TransferQueueUser) (c : Nat)
    (hf : ∀ u, (f u).recency = u.recency) (h : ∀ p ∈ users, p.2.recency ≤ c) :
    ∀ p ∈ updateUserRec users k f, p.2.recency ≤ c := by
  intro p hp
  rcases mem_updateUserRec users k f p hp with ⟨_, h1⟩ | ⟨_, u, hu, hpu⟩
  · exact h p h1
  · rw [hpu, hf]
    rcases hu with hu | hu
    · rw [hu]
      exact Nat.zero_le _
    · exact h (k, u) hu

theorem countTransfers_recency (c : Nat) (q : List TransferQueueRequest) :
    ∀ (users : QueueUserMap) (up down : Int), (∀ p ∈ users, p.2.recency ≤ c) →
      ∀ p ∈ (countTransfers q users up down).1, p.2.recency ≤ c := by
  induction q with
  | nil => intro users up down h; simpa [countTransfers] using h
  | cons a rest ih =>
    intro users up down h
    unfold countTransfers
    split
    · simp only []
      split
      · exact ih _ _ _ (updateUserRec_recency _ _ _ c (fun _ => rfl) h)
      · exact ih _ _ _ (updateUserRec_recency _ _ _ c (fun _ => rfl) h)
    · exact ih _ _ _ (updateUserRec_recency _ _ _ c (fun _ => rfl) h)

theorem startPass_recencyBounded (m : TransferQueueManager) (h : recencyBounded m) :
    recencyBounded (startPass m).m := by
  unfold recencyBounded startPass
  simp only []
  apply countTransfers_recency
  intro p hp
  unfold ClearTransferCounts at hp
  simp only [] at hp
  obtain ⟨p0, hp0, hp1⟩ := List.mem_map.1 hp
  subst hp1
  exact h p0 hp0

theorem selectBest_recency (m : TransferQueueManager) (up down : Int) (c : Nat)
    (q : List TransferQueueRequest) :
    ∀ (pos : Nat) (users : QueueUserMap) (best : Option BestClient),
      (∀ p ∈ users, p.2.recency ≤ c) →
      ∀ p ∈ (selectBest m up down q pos users best).1, p.2.recency ≤ c := by
  induction q with
  | nil => intro pos users best h; simpa [selectBest] using h
  | cons a rest ih =>
    intro pos users best h
    have hget : ∀ p ∈ (GetUserRec users a.m_up_down_queue_user).1, p.2.recency ≤ c := by
      intro p hp
      rcases mem_GetUserRec _ _ p hp with h1 | h1
      · exact h p h1
      · rw [h1]
        exact Nat.zero_le _
    unfold selectBest
    split
    · exact ih _ _ _ h
    · split
      · simp only []
        split
        · exact ih _ _ _ hget
        · exact ih _ _ _ hget
      · exact ih _ _ _ h

theorem SetRoundRobinRecency_recencyBounded (m : TransferQueueManager) (u : String)
    (h : recencyBounded m) : recencyBounded (SetRoundRobinRecency m u) := by
  unfold recencyBounded at *
  unfold SetRoundRobinRecency
  simp only []
  split
  · intro p hp
    unfold ClearRoundRobinRecency at hp
    simp only [] at hp
    obtain ⟨p0, _, hp1⟩ := List.mem_map.1 hp
    subst hp1
    exact Nat.zero_le _
  · rename_i hwrap
    intro p hp
    simp only [] at hp ⊢
    rcases mem_updateUserRec _ _ _ p hp with ⟨_, h1⟩ | ⟨_, v, _, hpv⟩
    · have := h p h1
      omega
    · rw [hpv]

theorem SetRoundRobinRecency_next (m : TransferQueueManager) (u : String)
    (hw : m.m_round_robin_counter + 1 < 4294967296) :
    (SetRoundRobinRecency m u).m_round_robin_counter = m.m_round_robin_counter + 1 ∧
    (SetRoundRobinRecency m u).m_queue_users =
      updateUserRec m.m_queue_users u
        (fun r => { r with recency := m.m_round_robin_counter + 1 }) := by
  unfold SetRoundRobinRecency
  simp only []
  have hmod : (m.m_round_robin_counter + 1) % 4294967296 = m.m_round_robin_counter + 1 :=
    Nat.mod_eq_of_lt hw
  rw [hmod]
  rw [if_neg (by omega)]
  exact ⟨rfl, rfl⟩

theorem grantSelected_ok_recency (now : Int) (s : PassState) (b : BestClient) :
    ∃ m0 : TransferQueueManager,
      m0.m_round_robin_counter = s.m.m_round_robin_counter ∧
      m0.m_queue_users = s.m.m_queue_users ∧
      (grantSelected now true s b).m.m_round_robin_counter =
        (SetRoundRobinRecency m0 b.client.m_up_down_queue_user).m_round_robin_counter ∧
      (grantSelected now true s b).m.m_queue_users =
        updateUserRec (SetRoundRobinRecency m0 b.client.m_up_down_queue_user).m_queue_users
          b.client.m_up_down_queue_user
          (fun u => { u with running := u.running + 1
                             idle := if u.idle = 0 then 4294967295 else u.idle - 1 }) := by
  refine ⟨{ s.m with m_xfer_queue := s.m.m_xfer_queue.set b.pos (b.client.SendGoAhead true now).1 },
    rfl, rfl, ?_, ?_⟩
  · unfold grantSelected
    simp only [TransferQueueRequest.SendGoAhead, if_true, Bool.true_eq_false, if_false]
    split <;> rfl
  · unfold grantSelected
    simp only [TransferQueueRequest.SendGoAhead, if_true, Bool.true_eq_false, if_false]
    split <;> rfl

theorem grantSelected_recencyBounded (now : Int) (ok : Bool) (s : PassState) (b : BestClient)
    (h : recencyBounded s.m) : recencyBounded (grantSelected now ok s b).m := by
  cases ok with
  | false =>
    simp only [grantSelected, TransferQueueRequest.SendGoAhead, Bool.false_eq_true, if_false,
      if_true]
    unfold recencyBounded
    simp only [TransferQueueChanged_queue_users, TransferQueueChanged_round_robin_counter]
    exact h
  | true =>
    obtain ⟨m0, hc0, hu0, hc, hu⟩ := grantSelected_ok_recency now s b
    have h0 : recencyBounded m0 := by
      unfold recencyBounded
      rw [hc0, hu0]
      exact h
    have h1 := SetRoundRobinRecency_recencyBounded m0 b.client.m_up_down_queue_user h0
    unfold recencyBounded at h1 ⊢
    rw [hc, hu]
    exact updateUserRec_recency _ _ _ _ (fun _ => rfl) h1

theorem grantIteration_recencyBounded (now : Int) (ok : Bool) (s s1 : PassState)
    (r : Option Nat) (hit : grantIteration now ok s = (s1, r)) (h : recencyBounded s.m) :
    recencyBounded s1.m := by
  unfold grantIteration at hit
  generalize hsel : selectBest s.m s.uploading s.downloading s.m.m_xfer_queue 0
    s.m.m_queue_users none = sel at hit
  obtain ⟨users, best⟩ := sel
  have hu : ∀ p ∈ users, p.2.recency ≤ s.m.m_round_robin_counter := by
    have := selectBest_recency s.m s.uploading s.downloading s.m.m_round_robin_counter
      s.m.m_xfer_queue 0 s.m.m_queue_users none h
    rw [hsel] at this
    exact this
  cases best with
  | none =>
    simp only [Prod.mk.injEq] at hit
    rw [← hit.1]
    exact hu
  | some b =>
    simp only [Prod.mk.injEq] at hit
    rw [← hit.1]
    exact grantSelected_recencyBounded now ok _ b hu

theorem InPass_recencyBounded (m : TransferQueueManager) (now : Int) (s : PassState)
    (hm : recencyBounded m) (hs : InPass m now s) : recencyBounded s.m := by
  induction hs with
  | start => exact startPass_recencyBounded m hm
  | next s ok _ _ ih => exact grantIteration_recencyBounded now ok s _ _ rfl ih

theorem CheckTransferQueue_recencyBounded (m m1 : TransferQueueManager) (now : Int)
    (sendOk : Nat → Bool) (sent : List Nat)
    (hc : CheckTransferQueue m now sendOk = some (m1, sent)) (h : recencyBounded m) :
    recencyBounded m1 := by
  obtain ⟨s, hs, hfin⟩ := CheckTransferQueue_eq m now sendOk (m1, sent) hc
  simp only [] at hs hfin
  have hb : recencyBounded s.m :=
    grantLoop_invariant now (fun s => recencyBounded s.m)
      (fun s s1 ok r hP hit => grantIteration_recencyBounded now ok s s1 r hit hP)
      _ sendOk (startPass m) (s, sent) (startPass_recencyBounded m h) hs
  obtain ⟨_, _, _, hu, hcn⟩ := finishPass_fields now s
  unfold recencyBounded
  rw [hfin, hu, hcn]
  exact hb

theorem HandleReport_recencyBounded (m m1 : TransferQueueManager) (sock : Nat)
    (report : Option IOStats) (hr : HandleReport m sock report = some m1)
    (h : recencyBounded m) : recencyBounded m1 := by
  unfold HandleReport at hr
  split at hr
  · cases hr
  · split at hr
    · cases hr
    · simp only [Option.some.injEq] at hr
      subst hr
      unfold recencyBounded
      simp only [TransferQueueChanged_queue_users, TransferQueueChanged_round_robin_counter]
      exact h
    · simp only [Option.some.injEq] at hr
      subst hr
      unfold recencyBounded AddRecentIOStats
      simp only []
      exact updateUserRec_recency _ _ _ _ (fun _ => rfl) h

theorem Reached_recencyBounded (m : TransferQueueManager) (h : Reached m) :
    recencyBounded m := by
  induction h with
  | ctor now => intro p hp; cases hp
  | initAndReconfig m d u a _ ih => exact ih
  | addRequest m client overloaded rc _ ih =>
    unfold AddRequest
    split
    · exact ih
    · split
      · exact ih
      · unfold recencyBounded
        simp only [TransferQueueChanged_queue_users, TransferQueueChanged_round_robin_counter]
        exact ih
  | handleReport m m1 sock report _ hr ih => exact HandleReport_recencyBounded m m1 sock report hr ih
  | checkTransferQueue m m1 now sendOk sent _ hc ih =>
    exact CheckTransferQueue_recencyBounded m m1 now sendOk sent hc ih
  | collectUserRecGarbage m now rates _ ih =>
    unfold CollectUserRecGarbage
    split
    · intro p hp
      simp only [] at hp ⊢
      exact ih p (List.mem_filter.1 hp).1
    · exact ih

/-- Claim C21.  In every state `m` the manager reaches from its constructor
through `InitAndReconfig`, `AddRequest`, `HandleReport`, `CheckTransferQueue`
and `CollectUserRecGarbage`, every user record has
`recency <= m_round_robin_counter`; the same holds at the head of every
iteration of the granting loop of a pass started from `m`.  When such an
iteration selects `best_client`, the counter is below `2 ^ 32 - 1` and
`SendGoAhead` succeeds, the iteration raises the counter by one, the record of
the account of `best_client` then has the new counter as its recency, and the
recency of every record of another account is strictly below it. -/
theorem recency_never_exceeds_counter (m : TransferQueueManager) (hm : Reached m) :
    recencyBounded m ∧
    ∀ (now : Int) (s : PassState), InPass m now s →
      recencyBounded s.m ∧
      ∀ (users : QueueUserMap) (b : BestClient),
        selectBest s.m s.uploading s.downloading s.m.m_xfer_queue 0 s.m.m_queue_users none
          = (users, some b) →
        s.m.m_round_robin_counter + 1 < 4294967296 →
        (grantIteration now true s).1.m.m_round_robin_counter = s.m.m_round_robin_counter + 1 ∧
        (userRec (grantIteration now true s).1.m.m_queue_users
            b.client.m_up_down_queue_user).recency
          = (grantIteration now true s).1.m.m_round_robin_counter ∧
        ∀ p ∈ (grantIteration now true s).1.m.m_queue_users,
          p.1 ≠ b.client.m_up_down_queue_user →
          p.2.recency < (grantIteration now true s).1.m.m_round_robin_counter := by
  have hb := Reached_recencyBounded m hm
  refine ⟨hb, ?_⟩
  intro now s hs
  have hsb := InPass_recencyBounded m now s hb hs
  refine ⟨hsb, ?_⟩
  intro users b hsel hw
  have hu : ∀ p ∈ users, p.2.recency ≤ s.m.m_round_robin_counter := by
    have := selectBest_recency s.m s.uploading s.downloading s.m.m_round_robin_counter
      s.m.m_xfer_queue 0 s.m.m_queue_users none hsb
    rw [hsel] at this
    exact this
  have hit : (grantIteration now true s).1 =
      grantSelected now true { s with m := { s.m with m_queue_users := users } } b := by
    unfold grantIteration
    rw [hsel]
  rw [hit]
  obtain ⟨m0, hc0, hu0, hc, hus⟩ := grantSelected_ok_recency now
    { s with m := { s.m with m_queue_users := users } } b
  simp only [] at hc0 hu0
  obtain ⟨hn1, hn2⟩ := SetRoundRobinRecency_next m0 b.client.m_up_down_queue_user
    (by rw [hc0]; exact hw)
  rw [hc0] at hn1
  rw [hc0, hu0] at hn2
  rw [hn1] at hc
  rw [hn2] at hus
  have hcnt := hc
  have husers := hus
  refine ⟨hcnt, ?_, ?_⟩
  · rw [hcnt, husers, userRec_updateUserRec, if_pos rfl, userRec_updateUserRec, if_pos rfl]
  · intro p hp hne
    rw [hcnt]
    rw [husers] at hp
    rcases mem_updateUserRec _ _ _ p hp with ⟨_, h1⟩ | ⟨h1, _⟩
    · rcases mem_updateUserRec _ _ _ p h1 with ⟨_, h2⟩ | ⟨h2, _⟩
      · have := hu p h2
        omega
      · exact absurd h2 hne
    · exact absurd h1 hne

theorem recency_never_exceeds_counter_witness :
    Reached queuedState ∧
    (recencyBounded queuedState ∧
    ∀ (now : Int) (s : PassState), InPass queuedState now s →
      recencyBounded s.m ∧
      ∀ (users : QueueUserMap) (b : BestClient),
        selectBest s.m s.uploading s.downloading s.m.m_xfer_queue 0 s.m.m_queue_users none
          = (users, some b) →
        s.m.m_round_robin_counter + 1 < 4294967296 →
        (grantIteration now true s).1.m.m_round_robin_counter = s.m.m_round_robin_counter + 1 ∧
        (userRec (grantIteration now true s).1.m.m_queue_users
            b.client.m_up_down_queue_user).recency
          = (grantIteration now true s).1.m.m_round_robin_counter ∧
        ∀ p ∈ (grantIteration now true s).1.m.m_queue_users,
          p.1 ≠ b.client.m_up_down_queue_user →
          p.2.recency < (grantIteration now true s).1.m.m_round_robin_counter) :=
  ⟨Reached.addRequest _ _ false 0 (Reached.addRequest _ _ false 0
      (Reached.initAndReconfig _ 10 10 7200 (Reached.ctor 0))),
   recency_never_exceeds_counter queuedState
    (Reached.addRequest _ _ false 0 (Reached.addRequest _ _ false 0
      (Reached.initAndReconfig _ 10 10 7200 (Reached.ctor 0))))⟩

end TransferQueue

namespace Accountant

/-! ## `StringSet::Find` -/

theorem FindLoop_stuck (s : StringSet) (Name : String) (i : Nat)
    (h : s.names.get? i ≠ some Name) :
    ∀ fuel : Nat, s.FindLoop Name fuel (some i) = none := by
  intro fuel
  induction fuel with
  | zero => rfl
  | succ fuel ih =>
    unfold StringSet.FindLoop
    simp only [h, if_false]
    exact ih

theorem Find_never_returns (s : StringSet) (Name head : String) (rest : List String)
    (hnames : s.names = head :: rest) (hne : head ≠ Name) :
    ∀ fuel : Nat, s.Find Name fuel = none := by
  intro fuel
  unfold StringSet.Find StringSet.Head
  rw [hnames]
  simp only [reduceCtorEq, if_false]
  apply FindLoop_stuck
  rw [hnames]
  simpa using hne

/-- Claim C17 at a failing input.  The set `oneName` is what `Add("a")` makes of
the empty set.  On it `Exist("b")` never returns, whatever the number of
loop tests allowed, and neither does `Add("b")`; the same holds for every set
whose head is not the name asked for.  `Exist` does return, with 1, when
the head is the name, and with 0 on the empty set. -/
theorem Exist_never_returns_past_the_head :
    StringSet.ctor.Add "a" 1 = some oneName ∧
    (∀ fuel : Nat, oneName.Exist "b" fuel = none) ∧
    (∀ fuel : Nat, oneName.Add "b" fuel = none) ∧
    (∀ (s : StringSet) (Name head : String) (rest : List String),
      s.names = head :: rest → head ≠ Name → ∀ fuel : Nat, s.Exist Name fuel = none) ∧
    (∀ fuel : Nat, oneName.Exist "a" (fuel + 1) = some 1) ∧
    (∀ fuel : Nat, StringSet.ctor.Exist "b" (fuel + 1) = some 0) := by
  refine ⟨by decide, ?_, ?_, ?_, ?_, ?_⟩
  · intro fuel
    unfold StringSet.Exist
    rw [Find_never_returns oneName "b" "a" [] rfl (by decide)]
    rfl
  · intro fuel
    unfold StringSet.Add
    rw [Find_never_returns oneName "b" "a" [] rfl (by decide)]
    rfl
  · intro s Name head rest hnames hne fuel
    unfold StringSet.Exist
    rw [Find_never_returns s Name head rest hnames hne]
    rfl
  · intro fuel; rfl
  · intro fuel; rfl

end Accountant

namespace FullRead

/-! ## `_condor_full_read` -/

theorem fullReadLoop_skipped (nleft : Int) (h : ¬ nleft > 0) (reads : List ReadResult) :
    fullReadLoop nleft 0 0 reads =
      some { failed := false, nleft := nleft, calls := 0, delivered := 0, eof := false } := by
  cases reads with
  | nil => unfold fullReadLoop; rw [if_neg h]
  | cons r rest => unfold fullReadLoop; rw [if_neg h]

/-- Claim C18 at failing inputs.  Asked for `2 ^ 31` bytes, `_condor_full_read`
copies the size into the `int nleft`, which becomes negative, makes no `read`
call and returns `2 ^ 32` where `size_t` has 64 bits and 0 where it has 32
bits.  Asked for `2 ^ 32` bytes with a 64-bit `size_t`, it makes no `read`
call and returns `2 ^ 32`.  In each case no byte was delivered and end of file
was not met. -/
theorem full_read_narrows_the_size_to_int (reads : List ReadResult) :
    _condor_full_read 64 2147483648 reads =
      some { ret := 4294967296, calls := 0, delivered := 0, eof := false } ∧
    _condor_full_read 32 2147483648 reads =
      some { ret := 0, calls := 0, delivered := 0, eof := false } ∧
    _condor_full_read 64 4294967296 reads =
      some { ret := 4294967296, calls := 0, delivered := 0, eof := false } := by
  refine ⟨?_, ?_, ?_⟩
  · unfold _condor_full_read
    rw [fullReadLoop_skipped _ (by decide)]
    decide
  · unfold _condor_full_read
    rw [fullReadLoop_skipped _ (by decide)]
    decide
  · unfold _condor_full_read
    rw [fullReadLoop_skipped _ (by decide)]
    decide

theorem toInt_small (x : Int) (h0 : -2147483648 ≤ x) (h1 : x < 2147483648) : toInt x = x := by
  unfold toInt
  omega

theorem fullReadLoop_within (reads : List ReadResult) :
    ∀ (nleft : Int) (calls : Nat) (delivered : Int) (e : LoopEnd),
      0 ≤ nleft → nleft < 2147483648 → readsWithin nleft reads →
      fullReadLoop nleft calls delivered reads = some e → e.failed = false →
      0 ≤ e.nleft ∧ e.nleft ≤ nleft ∧ e.delivered + e.nleft = delivered + nleft ∧
        (e.nleft = 0 ∨ e.eof = true) := by
  induction reads with
  | nil =>
    intro nleft calls delivered e h0 h1 _ he _
    unfold fullReadLoop at he
    by_cases hp : nleft > 0
    · rw [if_pos hp] at he; cases he
    · rw [if_neg hp] at he
      cases he
      refine ⟨h0, le_refl _, rfl, Or.inl ?_⟩
      show nleft = 0
      omega
  | cons r rest ih =>
    intro nleft calls delivered e h0 h1 hw he hf
    unfold fullReadLoop at he
    unfold readsWithin at hw
    by_cases hp : nleft > 0
    · rw [if_pos hp] at he
      by_cases hneg : r.value < 0
      · rw [if_pos hneg] at hw
        have hv : toInt r.value = -1 := by rw [hw.1]; decide
        simp only [hv] at he
        rw [if_pos (by decide)] at he
        by_cases hi : r.eintr = true
        · rw [if_pos hi] at he
          exact ih nleft (calls + 1) delivered e h0 h1 hw.2 he hf
        · rw [if_neg hi] at he
          cases he
          cases hf
      · rw [if_neg hneg] at hw
        have hv : toInt r.value = r.value := toInt_small _ (by omega) (by omega)
        simp only [hv] at he
        rw [if_neg hneg] at he
        by_cases hz : r.value = 0
        · rw [if_pos hz] at he
          cases he
          exact ⟨h0, le_refl _, rfl, Or.inr rfl⟩
        · rw [if_neg hz] at he
          have hn : toInt (nleft - r.value) = nleft - r.value :=
            toInt_small _ (by omega) (by omega)
          rw [hn] at he
          obtain ⟨a0, a1, a2, a3⟩ := ih (nleft - r.value) (calls + 1) (delivered + r.value) e
            (by omega) (by omega) hw.2 he hf
          exact ⟨a0, by omega, by omega, a3⟩
    · rw [if_neg hp] at he
      cases he
      refine ⟨h0, le_refl _, rfl, Or.inl ?_⟩
      show nleft = 0
      omega

/-- For a size that fits an `int`, a result of `_condor_full_read` other than
-1 is the number of bytes delivered, is at most `nbytes`, and is `nbytes`
unless end of file was met. -/
theorem full_read_within_int (nbytes : Nat) (reads : List ReadResult) (r : FullReadResult)
    (hn : nbytes < 2147483648) (hw : readsWithin nbytes reads)
    (hr : _condor_full_read 64 nbytes reads = some r) (hne : r.ret ≠ -1) :
    r.ret = r.delivered ∧ r.ret ≤ nbytes ∧ (r.ret = nbytes ∨ r.eof = true) := by
  unfold _condor_full_read at hr
  have hi : toInt (nbytes : Int) = nbytes := toInt_small _ (by omega) (by omega)
  rw [hi] at hr
  cases hl : fullReadLoop (nbytes : Int) 0 0 reads with
  | none => rw [hl] at hr; cases hr
  | some e =>
    rw [hl] at hr
    simp only [Option.map_some'] at hr
    cases hr
    by_cases hf : e.failed = true
    · simp only [hf, if_true] at hne
      exact absurd rfl hne
    · have hf' : e.failed = false := by simpa using hf
      obtain ⟨h0, h1, h2, h3⟩ := fullReadLoop_within reads nbytes 0 0 e (by omega) (by omega)
        hw hl hf'
      have hret : toSsize 64 ((nbytes : Int) - e.nleft) = (nbytes : Int) - e.nleft := by
        unfold toSsize
        norm_num
        omega
      show (if e.failed = true then (-1 : Int) else toSsize 64 ((nbytes : Int) - e.nleft))
          = e.delivered ∧
        (if e.failed = true then (-1 : Int) else toSsize 64 ((nbytes : Int) - e.nleft))
          ≤ (nbytes : Int) ∧
        ((if e.failed = true then (-1 : Int) else toSsize 64 ((nbytes : Int) - e.nleft))
          = (nbytes : Int) ∨ e.eof = true)
      rw [hf', if_neg (by decide), hret]
      clear hne
      refine ⟨by omega, by omega, ?_⟩
      rcases h3 with h | h
      · left; omega
      · right; exact h

end FullRead

namespace CondorWait

/-! ## The loop of `condor_wait` -/

theorem runLoop_spins (st : WaitState) (hempty : st.table = []) (hsub : st.submitted > 0)
    (hmin : st.minjobs ≠ 0) :
    ∀ times : List Int, runLoop st (times.map (fun t => (none, t))) = none := by
  intro times
  induction times with
  | nil => rfl
  | cons t rest ih =>
    simp only [List.map_cons, runLoop]
    have : loopIteration st none t = Step.next st 0 := by
      unfold loopIteration
      simp [hempty, hsub, hmin]
    rw [this]
    exact ih

/-- Claim C19 at a failing input.  `condor_wait -wait 60 -num 2 logfile` is
started at time 100, so the stop time is 160, and reads the submission and the
termination of the one job 1.0.0.  From then on every iteration that finds no
further event, at whatever time, goes on to the next iteration without exit
and without sleep; the program never ends while the log stays as it is.  The
same holds in every state with an empty table, `submitted > 0` and a `-num`
value set. -/
theorem wait_ignores_stop_time_with_num :
    runLoop (afterOptions 100 60 2)
      [(some { cluster := 1, proc := 0, subproc := 0,
               eventNumber := ULogEventNumber.ULOG_SUBMIT }, 101),
       (some { cluster := 1, proc := 0, subproc := 0,
               eventNumber := ULogEventNumber.ULOG_JOB_TERMINATED }, 102)] = none ∧
    loopIteration (afterOptions 100 60 2)
      (some { cluster := 1, proc := 0, subproc := 0,
              eventNumber := ULogEventNumber.ULOG_SUBMIT }) 101 =
      Step.next { afterOptions 100 60 2 with submitted := 1, table := ["1.0.0"] } 0 ∧
    loopIteration { afterOptions 100 60 2 with submitted := 1, table := ["1.0.0"] }
      (some { cluster := 1, proc := 0, subproc := 0,
              eventNumber := ULogEventNumber.ULOG_JOB_TERMINATED }) 102 =
      Step.next oneJobDone 0 ∧
    oneJobDone.stoptime = 160 ∧
    (∀ now : Int, loopIteration oneJobDone none now = Step.next oneJobDone 0) ∧
    (∀ times : List Int, runLoop oneJobDone (times.map (fun t => (none, t))) = none) ∧
    (∀ (st : WaitState), st.table = [] → st.submitted > 0 → st.minjobs ≠ 0 →
      ∀ now : Int, loopIteration st none now = Step.next st 0) := by
  refine ⟨by decide, by decide, by decide, by decide, ?_, ?_, ?_⟩
  · intro now
    unfold loopIteration
    simp [oneJobDone, afterOptions]
  · exact runLoop_spins oneJobDone rfl (by decide) (by decide)
  · intro st hempty hsub hmin now
    unfold loopIteration
    simp [hempty, hsub, hmin]

end CondorWait

namespace DagmanUtils

/-! ## `fullpath` and `MakePathAbsolute` -/

/-- Claim C20.  `fullpath(path)` is TRUE exactly when `path` begins with `/`, with
a backslash, or with one character followed by `:` and then a backslash or
`/`; the seven paths of the test give 1, 0, 1, 0, 1, 1, 0.  Whenever
`fullpath` holds for `filePath`, `MakePathAbsolute` returns true and leaves
`filePath` and `errMsg` as they were. -/
theorem fullpath_iff_rooted :
    (∀ path : String, fullpath path = true ↔
      ((∃ rest, path.data = '/' :: rest) ∨ (∃ rest, path.data = '\\' :: rest) ∨
       (∃ d rest, path.data = d :: ':' :: '\\' :: rest) ∨
       (∃ d rest, path.data = d :: ':' :: '/' :: rest))) ∧
    fullpath "/tmp/foo" = true ∧ fullpath "tmp/foo" = false ∧
    fullpath "c:\\" = true ∧ fullpath ":\\" = false ∧
    fullpath "\\" = true ∧ fullpath "x:/" = true ∧ fullpath ":/" = false ∧
    (∀ (filePath errMsg : String) (getcwd_ok : Bool) (currentDir delim failure : String),
      fullpath filePath = true →
      MakePathAbsolute filePath errMsg getcwd_ok currentDir delim failure =
        (true, filePath, errMsg)) := by
  refine ⟨?_, by decide, by decide, by decide, by decide, by decide, by decide, by decide, ?_⟩
  · intro path
    unfold fullpath
    rcases hp : path.data with _ | ⟨c0, rest⟩
    · simp
    · by_cases h0 : c0 = '/' ∨ c0 = '\\'
      · simp only [h0, if_true, true_iff]
        rcases h0 with h | h
        · exact Or.inl ⟨rest, by rw [h]⟩
        · exact Or.inr (Or.inl ⟨rest, by rw [h]⟩)
      · simp only [h0, if_false]
        have h1 : c0 ≠ '/' := fun e => h0 (Or.inl e)
        have h2 : c0 ≠ '\\' := fun e => h0 (Or.inr e)
        rcases rest with _ | ⟨c1, _ | ⟨c2, tail⟩⟩
        · simp [h1, h2]
        · simp [h1, h2]
        · simp only [decide_eq_true_eq, List.cons.injEq, h1, h2, false_and, exists_false,
            false_or]
          constructor
          · rintro ⟨hc1, hc2 | hc2⟩
            · exact Or.inl ⟨c0, tail, rfl, hc1, hc2, rfl⟩
            · exact Or.inr ⟨c0, tail, rfl, hc1, hc2, rfl⟩
          · rintro (⟨d, r, _, hc1, hc2, _⟩ | ⟨d, r, _, hc1, hc2, _⟩)
            · exact ⟨hc1, Or.inl hc2⟩
            · exact ⟨hc1, Or.inr hc2⟩
  · intro filePath errMsg getcwd_ok currentDir delim failure h
    unfold MakePathAbsolute
    simp [h]

/-! ## The logical lines of `GetConfigAndAttrs` -/

/-- Claim C28 at failing inputs.  The line `set_job_attr foo = 1` has the keyword
as its first token, by the case-blind comparison, and a remainder; the text
`SET_JOB_ATTR` does not occur in it, the replacement changes nothing, and
the whole line, keyword included, is appended to `attrLines`.  In the line
`SET_JOB_ATTR note = SET_JOB_ATTR_x` the replacement also removes the second
occurrence, and `note = _x` is appended.  The line `SET_JOB_ATTR foo = 1`
does append `foo = 1`. -/
theorem set_job_attr_keeps_lower_case_keyword :
    processLogicalLine "set_job_attr foo = 1" freshState =
      some { freshState with attrLines := ["set_job_attr foo = 1"] } ∧
    processLogicalLine "SET_JOB_ATTR note = SET_JOB_ATTR_x" freshState =
      some { freshState with attrLines := ["note = _x"] } ∧
    processLogicalLine "SET_JOB_ATTR foo = 1" freshState =
      some { freshState with attrLines := ["foo = 1"] } := by
  decide

/-- Claim C29 at failing inputs.  For the logical line `CONFIG` the token list
holds one token; after `tokens.pop_front()` it is empty and `tokens.front()` is
called on the empty list, which is undefined behaviour: no branch is
determined.  The same call is reached for `CONFIG` followed by blanks and for
a line of blanks only, which passes the test `logicalLine != ""` made before
the trimming.  The empty line is skipped, and `CONFIG dagman.cfg` records the
file. -/
theorem config_alone_reads_front_of_empty_list :
    Tokenize (trim "CONFIG") = ["CONFIG"] ∧
    processLogicalLine "CONFIG" freshState = none ∧
    processLogicalLine "config  " freshState = none ∧
    processLogicalLine "   " freshState = none ∧
    readLogicalLines ["JOB A a.sub", "CONFIG", "JOB B b.sub"] freshState = none ∧
    processLogicalLine "" freshState = some freshState ∧
    processLogicalLine "CONFIG dagman.cfg" freshState =
      some { freshState with configFiles := ["dagman.cfg"] } := by
  decide

end DagmanUtils

namespace ViewServer

/-! ## `GeneralRecord` -/

/-- Claim C30 at the failing element.  The constructor of `GeneralRecord` assigns
0.0 to `Data[0]` .. `Data[6]` and nothing to `Data[7]`: the element
`Data[VIEW_STATE_BACKFILL - 1]` of the 8 is left without a value, while
`Data[s - 1]` is 0.0 for each state `s` from `VIEW_STATE_UNCLAIMED` up to but
not including `VIEW_STATE_BACKFILL`. -/
theorem ctor_leaves_last_element_unset :
    GeneralRecord.ctor.Data.length = VIEW_STATE_MAX ∧
    GeneralRecord.ctor.Data =
      [some 0, some 0, some 0, some 0, some 0, some 0, some 0, none] ∧
    GeneralRecord.ctor.Data[VIEW_STATE_BACKFILL - 1]? = some none ∧
    ∀ s, VIEW_STATE_UNCLAIMED ≤ s → s < VIEW_STATE_BACKFILL →
      GeneralRecord.ctor.Data[s - 1]? = some (some 0) := by
  refine ⟨by decide, by decide, by decide, ?_⟩
  intro s h1 h2
  have hs : s = 1 ∨ s = 2 ∨ s = 3 ∨ s = 4 ∨ s = 5 ∨ s = 6 ∨ s = 7 := by
    unfold VIEW_STATE_UNCLAIMED at h1
    unfold VIEW_STATE_BACKFILL at h2
    omega
  rcases hs with h | h | h | h | h | h | h <;> subst h <;> decide

end ViewServer
